import Mathlib

/-
Verification of the ezdxf cross-document Importer add-on
(src/src/ezdxf/addons/importer.py) against its specification.

The importer is shallowly embedded: a DXF entity (graphical entity or table
record) is a flat record of its DXF attributes modelled here; the two drawings
and the session state of one `Importer` instance form the `Importer` structure
below.  Optional DXF attributes (accessed in the source through
`get_dxf_attrib(name, default)` / `dxf.hasattr` / `dxf.discard`) are `Option`
fields; `entity.copy()` failures (DXFTypeError) are modelled through the
`cloneable` flag.  Python exceptions are modelled by the `Res` result type:
state mutations performed before an exception persist, the exception
propagates.  The mutual recursion between entity import and block import
(through the DIMENSION handler) is modelled with an explicit fuel parameter
threaded as a callback, so every definition is a total, executable function.
-/

set_option autoImplicit false

namespace Ezdxf

/-- A DXF entity or table record, restricted to the attributes the importer
reads or writes.  `name` is the DXF name attribute (block name of an INSERT,
entry name of a table record); `geometry` is the anonymous geometry block
reference of a DIMENSION; the `dim*` fields are the DIMSTYLE resource fields
read by `_add_dimstyle_resources`; `appdata`, `reactors`, `extension_dict` and
`xdata` carry the opaque cross-document payloads stripped by
`remove_dependencies`.  `cloneable` is false for entities whose `copy()`
raises DXFTypeError. -/
structure Entity where
  dxftype : String := ""
  name : String := ""
  doc : Option String := none
  appdata : Option String := none
  reactors : Option String := none
  extension_dict : Option String := none
  xdata : Option String := none
  layer : Option String := none
  linetype : Option String := none
  style : Option String := none
  dimstyle : Option String := none
  supportsStyle : Bool := false
  supportsDimstyle : Bool := false
  plotstyle_handle : Option String := none
  material_handle : Option String := none
  visualstyle_handle : Option String := none
  geometry : Option String := none
  dimtxsty : Option String := none
  dimltype : Option String := none
  dimltex1 : Option String := none
  dimltex2 : Option String := none
  dimblk : Option String := none
  dimblk1 : Option String := none
  dimblk2 : Option String := none
  dimldrblk : Option String := none
  cloneable : Bool := true
  deriving Repr, DecidableEq

/-- Result of an importer operation: normal return, a propagated Python
exception (ValueError / DXFTypeError / KeyError, with its message), or
exhaustion of the recursion fuel of the embedding. -/
inductive Res (α : Type) where
  | ok (val : α)
  | err (msg : String)
  | fuelOut
  deriving Repr, DecidableEq

/-- `IMPORT_TABLES` of importer.py. -/
def IMPORT_TABLES : List String := ["linetypes", "layers", "styles", "dimstyles"]

/-- `IMPORT_ENTITIES` of importer.py. -/
def IMPORT_ENTITIES : List String :=
  ["LINE", "POINT", "CIRCLE", "ARC", "TEXT", "SOLID", "TRACE", "3DFACE",
   "SHAPE", "POLYLINE", "ATTRIB", "INSERT", "ELLIPSE", "MTEXT", "LWPOLYLINE",
   "SPLINE", "HATCH", "MESH", "XLINE", "RAY", "ATTDEF", "DIMENSION", "LEADER",
   "VIEWPORT"]

/-- One `Importer` session: the source drawing (block definitions, the four
supported tables, layout names), the target drawing (blocks as name/content
pairs, tables, layout names, modelspace, entity database with its handle
counter), and the session state (`used_*` sets, `imported_inserts` queue of
entity handles, `imported_blocks` memo, the two default handles resolved at
construction).  `blockImports` counts how often a block body is actually
copied (the code path creating a new target block in `import_block`). -/
structure Importer where
  sourceBlocks : List (String × List Entity) := []
  sourceLayers : List Entity := []
  sourceLinetypes : List Entity := []
  sourceStyles : List Entity := []
  sourceDimstyles : List Entity := []
  sourceLayouts : List String := []
  targetBlocks : List (String × List Nat) := []
  targetLayers : List Entity := []
  targetLinetypes : List Entity := []
  targetStyles : List Entity := []
  targetDimstyles : List Entity := []
  targetLayouts : List String := []
  modelspaceEnts : List Nat := []
  entitydb : List (Nat × Entity) := []
  nextHandle : Nat := 0
  used_layers : List String := []
  used_linetypes : List String := []
  used_styles : List String := []
  used_dimstyles : List String := []
  used_arrows : List String := []
  imported_inserts : List Nat := []
  imported_blocks : List (String × String) := []
  default_plotstyle_handle : String := "F1"
  default_material_handle : String := "F2"
  blockImports : Nat := 0
  deriving Repr, DecidableEq

/-- Destination of an entity import: the target modelspace or a target block
layout (paperspace layouts carry no claim about their entity lists, so they
are not modelled as entity containers). -/
inductive TargetRef where
  | modelspace
  | block (name : String)
  deriving Repr, DecidableEq

/-- Insertion into one of the `used_*` sets (Python `set.add`). -/
def addUsed (n : String) (l : List String) : List String :=
  if n ∈ l then l else l ++ [n]

/-- `Importer._add_used_resources`. -/
def addUsedResources (s : Importer) (e : Entity) : Importer :=
  let s := { s with used_layers := addUsed (e.layer.getD "0") s.used_layers }
  let s := { s with used_linetypes := addUsed (e.linetype.getD "BYLAYER") s.used_linetypes }
  let s := if e.supportsStyle then
    { s with used_styles := addUsed (e.style.getD "Standard") s.used_styles } else s
  if e.supportsDimstyle then
    { s with used_dimstyles := addUsed (e.dimstyle.getD "Standard") s.used_dimstyles } else s

/-- `Importer._add_dimstyle_resources`. -/
def addDimstyleResources (s : Importer) (d : Entity) : Importer :=
  let s := { s with used_styles := addUsed (d.dimtxsty.getD "Standard") s.used_styles }
  let s := { s with used_linetypes := addUsed (d.dimltype.getD "BYLAYER") s.used_linetypes }
  let s := { s with used_linetypes := addUsed (d.dimltex1.getD "BYLAYER") s.used_linetypes }
  let s := { s with used_linetypes := addUsed (d.dimltex2.getD "BYLAYER") s.used_linetypes }
  let s := { s with used_arrows := addUsed (d.dimblk.getD "") s.used_arrows }
  let s := { s with used_arrows := addUsed (d.dimblk1.getD "") s.used_arrows }
  let s := { s with used_arrows := addUsed (d.dimblk2.getD "") s.used_arrows }
  { s with used_arrows := addUsed (d.dimldrblk.getD "") s.used_arrows }

/-- `remove_dependencies` of importer.py: clears appdata, reactors and the
extension dictionary unconditionally, and xdata unless the retain flag is
set. -/
def remove_dependencies (e : Entity) (xdataFlag : Bool) : Entity :=
  let e := { e with appdata := none, reactors := none, extension_dict := none }
  if xdataFlag = false then { e with xdata := none } else e

/-- `new_clean_entity` of importer.py: `entity.copy()` (which raises
DXFTypeError on a non-copyable entity, modelled as `none`), then clears the
drawing link and removes all external dependencies. -/
def new_clean_entity (e : Entity) (xdataFlag : Bool) : Option Entity :=
  if e.cloneable then
    some (remove_dependencies { e with doc := none } xdataFlag)
  else none

/-- The probing loop shared (in shape) by `get_new_block_name` inside
`Importer.import_block` and `get_target_name` inside
`Importer.recreate_source_layout`: starting from candidate `name` and counter
`num`, as long as the candidate is taken replace it by `base ++ toString num`
and increment the counter.  The Python loop is unbounded; `fuel` bounds the
embedding and is chosen large enough that the loop always finds a free name
(see `probeName_spec` and `exists_free_candidate` below). -/
def probeName (base : String) (taken : List String) : Nat → String → Nat → String
  | 0, name, _ => name
  | fuel + 1, name, num =>
    if name ∈ taken then probeName base taken fuel (base ++ toString num) (num + 1)
    else name

/-- `get_new_block_name` inside `Importer.import_block`: probes
`n, n ++ "0", n ++ "1", ...` (counter starts at 0). -/
def get_new_block_name (block_name : String) (taken : List String) : String :=
  probeName block_name taken (taken.length + 1) block_name 0

/-- `get_target_name` inside `Importer.recreate_source_layout`: probes
`n, n ++ "1", n ++ "2", ...` (counter starts at 1). -/
def get_target_name (name : String) (taken : List String) : String :=
  probeName name taken (taken.length + 1) name 1

/-- ASCII lowercasing (Python `str.lower()` on the ASCII layout names the
importer compares against `"model"`). -/
def lowerAscii (s : String) : String := ⟨s.data.map Char.toLower⟩

/-- `Importer.recreate_source_layout`, reduced to the fields of the model:
the special-cased modelspace name, the KeyError on a missing source layout,
and the creation of the renamed target layout.  The attribute copying /
clearing of the layout record concerns only fields outside this model. -/
def recreateSourceLayout (s : Importer) (name : String) : Importer × Res String :=
  if lowerAscii name = "model" then (s, .ok "Model")
  else if name ∈ s.sourceLayouts then
    let tname := get_target_name name s.targetLayouts
    ({ s with targetLayouts := s.targetLayouts ++ [tname] }, .ok tname)
  else (s, .err "KeyError")

/-- Names of the blocks of the target drawing. -/
def targetBlockNames (s : Importer) : List String := s.targetBlocks.map (·.1)

/-- Names of the blocks of the source drawing. -/
def sourceBlockNames (s : Importer) : List String := s.sourceBlocks.map (·.1)

/-- Keys of the entity database of the target drawing. -/
def dbKeys (s : Importer) : List Nat := s.entitydb.map (·.1)

/-- Lookup in the entity database. -/
def dbGet (s : Importer) (id : Nat) : Option Entity :=
  (s.entitydb.find? (fun p => p.1 = id)).map (·.2)

/-- In-place update of a database entry (mutation of a stored entity). -/
def dbSet (s : Importer) (id : Nat) (e : Entity) : Importer :=
  { s with entitydb := s.entitydb.map (fun p => if p.1 = id then (p.1, e) else p) }

/-- `entitydb.add`: registers an entity under a fresh handle. -/
def dbAdd (s : Importer) (e : Entity) : Importer × Nat :=
  ({ s with entitydb := s.entitydb ++ [(s.nextHandle, e)],
            nextHandle := s.nextHandle + 1 }, s.nextHandle)

/-- `target_layout.add_entity`: attaches a database entity to its layout. -/
def attachEntity (s : Importer) (t : TargetRef) (id : Nat) : Importer :=
  match t with
  | .modelspace => { s with modelspaceEnts := s.modelspaceEnts ++ [id] }
  | .block n =>
      { s with targetBlocks :=
          s.targetBlocks.map (fun p => if p.1 = n then (p.1, p.2 ++ [id]) else p) }

/-- Keys of the `imported_blocks` memo. -/
def memoKeys (s : Importer) : List String := s.imported_blocks.map (·.1)

/-- Lookup in the `imported_blocks` memo. -/
def memoLookup (s : Importer) (n : String) : Option String :=
  (s.imported_blocks.find? (fun p => p.1 = n)).map (·.2)

/-- Python dict assignment `imported_blocks[k] = v`: overwrites an existing
binding, otherwise appends a new one. -/
def memoInsert (m : List (String × String)) (k v : String) :
    List (String × String) :=
  if k ∈ m.map (·.1) then m.map (fun p => if p.1 = k then (k, v) else p)
  else m ++ [(k, v)]

/-- The `set_dxf_attribs` closure inside `Importer.import_entity`: links the
clone to the target drawing and discards the three document-local decorative
handles. -/
def setEntityDxfAttribs (e : Entity) : Entity :=
  { e with doc := some "target",
           plotstyle_handle := none,
           material_handle := none,
           visualstyle_handle := none }

/-- The clone stored and dispatched by `import_entity` for a cloneable
entity. -/
def cleanedClone (e : Entity) : Entity :=
  setEntityDxfAttribs (remove_dependencies { e with doc := none } false)

/-- Overwrites a present plot style handle with the session default. -/
def setPlotstyleDefault (s : Importer) (e : Entity) : Entity :=
  if e.plotstyle_handle.isSome then
    { e with plotstyle_handle := some s.default_plotstyle_handle } else e

/-- Overwrites a present material handle with the session default. -/
def setMaterialDefault (s : Importer) (e : Entity) : Entity :=
  if e.material_handle.isSome then
    { e with material_handle := some s.default_material_handle } else e

/-- `Importer._set_table_entry_dxf_attribs`: links the given record to the
target drawing and, where the attribute is present, overwrites the plot style
and material handles with the target defaults resolved at construction. -/
def set_table_entry_dxf_attribs (s : Importer) (e : Entity) : Entity :=
  setMaterialDefault s (setPlotstyleDefault s { e with doc := some "target" })

/-- Source table of a given kind (`getattr(self.source.tables, name)`). -/
def getSourceTable (s : Importer) (kind : String) : List Entity :=
  if kind = "layers" then s.sourceLayers
  else if kind = "linetypes" then s.sourceLinetypes
  else if kind = "styles" then s.sourceStyles
  else if kind = "dimstyles" then s.sourceDimstyles
  else []

/-- Target table of a given kind. -/
def getTargetTable (s : Importer) (kind : String) : List Entity :=
  if kind = "layers" then s.targetLayers
  else if kind = "linetypes" then s.targetLinetypes
  else if kind = "styles" then s.targetStyles
  else if kind = "dimstyles" then s.targetDimstyles
  else []

/-- Replaces the target table of a given kind. -/
def setTargetTable (s : Importer) (kind : String) (t : List Entity) : Importer :=
  if kind = "layers" then { s with targetLayers := t }
  else if kind = "linetypes" then { s with targetLinetypes := t }
  else if kind = "styles" then { s with targetStyles := t }
  else if kind = "dimstyles" then { s with targetDimstyles := t }
  else s

/-- Replaces the source table of a given kind (needed because the code
mutates source table entries, see `importTableEntry`). -/
def setSourceTable (s : Importer) (kind : String) (t : List Entity) : Importer :=
  if kind = "layers" then { s with sourceLayers := t }
  else if kind = "linetypes" then { s with sourceLinetypes := t }
  else if kind = "styles" then { s with sourceStyles := t }
  else if kind = "dimstyles" then { s with sourceDimstyles := t }
  else s

/-- Names of the entries of a source table. -/
def sourceTableNames (s : Importer) (kind : String) : List String :=
  (getSourceTable s kind).map (·.name)

/-- Names of the entries of a target table. -/
def targetTableNames (s : Importer) (kind : String) : List String :=
  (getTargetTable s kind).map (·.name)

/-- The `used_*` name set belonging to a table kind. -/
def usedOf (s : Importer) (kind : String) : List String :=
  if kind = "layers" then s.used_layers
  else if kind = "linetypes" then s.used_linetypes
  else if kind = "styles" then s.used_styles
  else if kind = "dimstyles" then s.used_dimstyles
  else []

/-- The additional resource registration of `Importer.import_table`: an
imported layer entry requires its linetype, an imported dimension style
entry runs the dimension-style usage extension. -/
def addTableResources (s : Importer) (kind : String) (table_entry : Entity) : Importer :=
  if kind = "layers" then
    { s with used_linetypes :=
        addUsed (table_entry.linetype.getD "Continuous") s.used_linetypes }
  else if kind = "dimstyles" then addDimstyleResources s table_entry
  else s

/-- In-place mutation of a source table entry (the effect of
`_set_table_entry_dxf_attribs(entry)` receiving the source record). -/
def replaceSourceEntry (s : Importer) (kind : String) (entry_name : String)
    (mutated : Entity) : Importer :=
  setSourceTable s kind ((getSourceTable s kind).map
    (fun x => if x.name = entry_name then mutated else x))

/-- `Importer._duplicate_table_entry` followed by `target_table.add_entry`.
This reproduces the code faithfully, including the slip that
`_set_table_entry_dxf_attribs` is applied to `entry` (the source record)
instead of `new_entry` (the clone): the clone keeps the source handle values
and the source record is mutated in place. -/
def duplicateTableEntry (s : Importer) (kind : String) (table_entry : Entity) :
    Importer × Res Unit :=
  match new_clean_entity table_entry false with
  | none => (s, .err "DXFTypeError")
  | some new_entry =>
    (setTargetTable
      (dbAdd (replaceSourceEntry s kind table_entry.name
        (set_table_entry_dxf_attribs s table_entry)) new_entry).1
      kind
      (getTargetTable (dbAdd (replaceSourceEntry s kind table_entry.name
        (set_table_entry_dxf_attribs s table_entry)) new_entry).1 kind ++ [new_entry]),
     .ok ())

/-- The body of the per-entry loop of `Importer.import_table`: source lookup
(a missing entry is logged and skipped), the duplicate policy (skip keeps
the existing target entry, replace removes it first), the extra resource
registration, and the duplication of the entry. -/
def importTableEntry (s : Importer) (kind : String) (replace : Bool)
    (entry_name : String) : Importer × Res Unit :=
  match (getSourceTable s kind).find? (fun x => x.name = entry_name) with
  | none => (s, .ok ())
  | some table_entry =>
    if table_entry.name ∈ targetTableNames s kind ∧ replace = false then (s, .ok ())
    else
      duplicateTableEntry
        (addTableResources
          (if table_entry.name ∈ targetTableNames s kind then
            setTargetTable s kind
              ((getTargetTable s kind).filter (fun x => x.name ≠ table_entry.name))
          else s) kind table_entry)
        kind table_entry

/-- The entry loop of `Importer.import_table` over an explicit entry list. -/
def importTableEntries (s : Importer) (kind : String) (replace : Bool) :
    List String → Importer × Res Unit
  | [] => (s, .ok ())
  | n :: rest =>
    match importTableEntry s kind replace n with
    | (s', .ok _) => importTableEntries s' kind replace rest
    | (s', .err m) => (s', .err m)
    | (s', .fuelOut) => (s', .fuelOut)

/-- `Importer.import_table` with an explicit entry list (the `"*"` form
passes the names of all source table entries, see `importTableAll`). -/
def importTable (s : Importer) (kind : String) (entries : List String)
    (replace : Bool) : Importer × Res Unit :=
  if kind ∈ IMPORT_TABLES then importTableEntries s kind replace entries
  else (s, .err "TypeError")

/-- `Importer.import_table` with `entries = "*"`. -/
def importTableAll (s : Importer) (kind : String) (replace : Bool) :
    Importer × Res Unit :=
  importTable s kind (sourceTableNames s kind) replace

/-- Type of the `import_block` callback used to close the mutual recursion
between entity import and block import (via the DIMENSION handler): the fuel
instantiation is `importBlockFuel`. -/
def BlockImportF : Type := Importer → String → Bool → Importer × Res String

/-- Sequencing of two fallible state transformers (a Python statement
sequence: an exception in the first statement skips the second). -/
def seqU (r : Importer × Res Unit) (f : Importer → Importer × Res Unit) :
    Importer × Res Unit :=
  match r with
  | (s, .ok _) => f s
  | other => other

/-- The DXF name of the database entity with the given handle
(`insert.dxf.name` for a queued block reference). -/
def qname (s : Importer) (id : Nat) : String :=
  ((dbGet s id).map (·.name)).getD ""

/-- The `import_arrow_blocks` closure inside `Importer._import_dimension`:
`for insert in self.imported_inserts: self.import_block(insert.dxf.name,
rename=False)`.  The Python for loop iterates the live list by index, so
block references appended while the loop runs are visited too; `fuel` bounds
that growth in the embedding. -/
def importArrowBlocksCore (ib : BlockImportF) : Nat → Importer → Nat → Importer × Res Unit
  | 0, s, i => if i < s.imported_inserts.length then (s, .fuelOut) else (s, .ok ())
  | fuel + 1, s, i =>
    match s.imported_inserts[i]? with
    | none => (s, .ok ())
    | some id =>
      match ib s (qname s id) false with
      | (s', .ok _) => importArrowBlocksCore ib fuel s' (i + 1)
      | (s', .err m) => (s', .err m)
      | (s', .fuelOut) => (s', .fuelOut)

/-- `Importer._import_dimension`, acting on the freshly imported dimension
clone stored under handle `id`: a missing or unknown anonymous geometry block
is a logged non-fatal error; otherwise the pending block-reference queue is
saved and cleared, the geometry block is imported under renaming, the
geometry attribute of the clone is rewritten to the resolved name, the block
references collected from the geometry block are imported without renaming
(`import_arrow_blocks`), and the saved queue is restored.  The restore runs
after `import_arrow_blocks` in the Python code, so an exception skips it. -/
def importDimensionCore (ib : BlockImportF) (afuel : Nat) (s : Importer)
    (id : Nat) : Importer × Res Unit :=
  match dbGet s id with
  | none => (s, .ok ())
  | some dim =>
    if dim.geometry.getD "" = "" then (s, .ok ())
    else if dim.geometry.getD "" ∈ sourceBlockNames s then
      match ib { s with imported_inserts := [] } (dim.geometry.getD "") true with
      | (s', .ok newName) =>
        match importArrowBlocksCore ib afuel
            (dbSet s' id { dim with geometry := some newName }) 0 with
        | (s'', .ok _) => ({ s'' with imported_inserts := s.imported_inserts }, .ok ())
        | (s'', .err m) => (s'', .err m)
        | (s'', .fuelOut) => (s'', .fuelOut)
      | (s', .err m) => (s', .err m)
      | (s', .fuelOut) => (s', .fuelOut)
    else (s, .ok ())

/-- `Importer.import_entity`: unsupported types are a silent no-op; resource
usage is recorded from the original entity before cloning; a DXFTypeError of
the clone degrades to skip and log; the clone is registered in the target
entity database, attached to the target layout, and handed to the
type-specific handler (INSERT enqueues the clone for later name resolution,
DIMENSION runs `importDimensionCore`; the POLYLINE, HATCH and VIEWPORT
handlers only touch attributes outside this model). -/
def importEntityDispatch (ib : BlockImportF) (afuel : Nat) (s : Importer)
    (dxftype : String) (hnd : Nat) : Importer × Res Unit :=
  if dxftype = "INSERT" then
    ({ s with imported_inserts := s.imported_inserts ++ [hnd] }, .ok ())
  else if dxftype = "DIMENSION" then importDimensionCore ib afuel s hnd
  else (s, .ok ())

/-- `Importer.import_entity`: the whitelist no-op, resource recording from
the original entity, clone-and-strip with skip-and-log degradation, database
registration under a fresh handle, layout attachment, handler dispatch. -/
def importEntityCore (ib : BlockImportF) (afuel : Nat) (s : Importer)
    (e : Entity) (tgt : TargetRef) : Importer × Res Unit :=
  if e.dxftype ∈ IMPORT_ENTITIES then
    match new_clean_entity e false with
    | none => (addUsedResources s e, .ok ())
    | some ne =>
      importEntityDispatch ib afuel
        (attachEntity
          (dbAdd (addUsedResources s e) (setEntityDxfAttribs ne)).1 tgt
          (dbAdd (addUsedResources s e) (setEntityDxfAttribs ne)).2)
        e.dxftype
        (dbAdd (addUsedResources s e) (setEntityDxfAttribs ne)).2
  else (s, .ok ())

/-- `Importer.import_entities` over a concrete entity list. -/
def importEntitiesCore (ib : BlockImportF) (afuel : Nat) (s : Importer) :
    List Entity → TargetRef → Importer × Res Unit
  | [], _ => (s, .ok ())
  | e :: rest, tgt =>
    match importEntityCore ib afuel s e tgt with
    | (s', .ok _) => importEntitiesCore ib afuel s' rest tgt
    | (s', .err m) => (s', .err m)
    | (s', .fuelOut) => (s', .fuelOut)

/-- `Importer.import_block`: memo lookup first; ValueError when the block is
missing from the source; identity mapping without copying when the target
already holds the name and `rename` is false; otherwise a fresh name is
probed, the target block is created, the block content is imported into it
recursively, and the mapping is recorded.  `blockImports` counts the copies
performed by the last branch. -/
def importBlockCore (ib : BlockImportF) (afuel : Nat) (s : Importer)
    (block_name : String) (rename : Bool) : Importer × Res String :=
  match memoLookup s block_name with
  | some newName => (s, .ok newName)
  | none =>
    match s.sourceBlocks.find? (fun p => p.1 = block_name) with
    | none => (s, .err "ValueError")
    | some src =>
      if block_name ∈ targetBlockNames s ∧ rename = false then
        ({ s with imported_blocks := memoInsert s.imported_blocks block_name block_name },
         .ok block_name)
      else
        let newName := get_new_block_name block_name (targetBlockNames s)
        let s := { s with targetBlocks := s.targetBlocks ++ [(newName, [])],
                          blockImports := s.blockImports + 1 }
        match importEntitiesCore ib afuel s src.2 (.block newName) with
        | (s', .ok _) =>
          ({ s' with imported_blocks := memoInsert s'.imported_blocks block_name newName },
           .ok newName)
        | (s', .err m) => (s', .err m)
        | (s', .fuelOut) => (s', .fuelOut)

/-- `Importer.import_block` with explicit recursion fuel: each nesting level
of block-inside-dimension-inside-block consumes one unit. -/
def importBlockFuel : Nat → Importer → String → Bool → Importer × Res String
  | 0, s, _, _ => (s, .fuelOut)
  | fuel + 1, s, n, rename => importBlockCore (importBlockFuel fuel) fuel s n rename

/-- `Importer.import_entity` at a given recursion fuel. -/
def importEntityF (fuel : Nat) (s : Importer) (e : Entity) (tgt : TargetRef) :
    Importer × Res Unit :=
  importEntityCore (importBlockFuel fuel) fuel s e tgt

/-- `Importer.import_entities` at a given recursion fuel. -/
def importEntitiesF (fuel : Nat) (s : Importer) (es : List Entity)
    (tgt : TargetRef) : Importer × Res Unit :=
  importEntitiesCore (importBlockFuel fuel) fuel s es tgt

/-- The inner loop of `Importer._resolve_inserts` over one snapshot of the
queue: resolve the block name of each queued block reference through
`import_block` (renaming policy) and rewrite its name attribute to the
resolved name. -/
def resolveStep (ib : BlockImportF) (s : Importer) :
    List Nat → Importer × Res Unit
  | [] => (s, .ok ())
  | id :: rest =>
    match ib s (qname s id) true with
    | (s', .ok newName) =>
      match dbGet s' id with
      | some e => resolveStep ib (dbSet s' id { e with name := newName }) rest
      | none => resolveStep ib s' rest
    | (s', .err m) => (s', .err m)
    | (s', .fuelOut) => (s', .fuelOut)

/-- `Importer._resolve_inserts`: while the queue is non-empty, snapshot it,
clear the live queue (nested block imports append to the fresh queue), and
resolve every snapshotted block reference.  `loopFuel` bounds the number of
outer iterations of the embedding; `entFuel` is the recursion fuel handed to
each `import_block` call. -/
def resolveInsertsFuel (entFuel : Nat) : Nat → Importer → Importer × Res Unit
  | 0, s => if s.imported_inserts.isEmpty then (s, .ok ()) else (s, .fuelOut)
  | loopFuel + 1, s =>
    if s.imported_inserts.isEmpty then (s, .ok ())
    else
      match resolveStep (importBlockFuel entFuel) { s with imported_inserts := [] }
          s.imported_inserts with
      | (s', .ok _) => resolveInsertsFuel entFuel loopFuel s'
      | (s', .err m) => (s', .err m)
      | (s', .fuelOut) => (s', .fuelOut)

/-- `Drawing.acquire_arrow`, a collaborator of the importer (outside this
repository): materializes a standard arrow block of the given name in the
target drawing, modelled at its interface as creating the named block if it
is absent. -/
def acquire_arrow (s : Importer) (name : String) : Importer :=
  if name ∈ targetBlockNames s then s
  else { s with targetBlocks := s.targetBlocks ++ [(name, [])] }

/-- The loop of `Importer._create_missing_arrows` over the collected arrow
names: ACAD standard arrows are acquired from the target, other arrow blocks
are imported without renaming.  `ARROWS.is_acad_arrow` is an external
collaborator and enters as the parameter `isAcad`. -/
def createMissingArrowsLoop (ib : BlockImportF) (isAcad : String → Bool)
    (s : Importer) : List String → Importer × Res Unit
  | [] => (s, .ok ())
  | a :: rest =>
    if isAcad a then createMissingArrowsLoop ib isAcad (acquire_arrow s a) rest
    else
      match ib s a false with
      | (s', .ok _) => createMissingArrowsLoop ib isAcad s' rest
      | (s', .err m) => (s', .err m)
      | (s', .fuelOut) => (s', .fuelOut)

/-- `Importer._create_missing_arrows`: discards the empty default arrow name
from `used_arrows`, then runs the arrow loop. -/
def createMissingArrows (isAcad : String → Bool) (entFuel : Nat)
    (s : Importer) : Importer × Res Unit :=
  createMissingArrowsLoop (importBlockFuel entFuel) isAcad
    { s with used_arrows := s.used_arrows.filter (fun a => a ≠ "") }
    (s.used_arrows.filter (fun a => a ≠ ""))

/-- `Importer._import_required_table_entries`: dimension styles first (they
enlarge the required styles, linetypes and arrows), then layers (they enlarge
the required linetypes), then linetypes and styles. -/
def importRequiredTableEntries (s : Importer) : Importer × Res Unit :=
  seqU (if s.used_dimstyles.isEmpty then (s, .ok ())
        else importTable s "dimstyles" s.used_dimstyles false) (fun s =>
  seqU (if s.used_layers.isEmpty then (s, .ok ())
        else importTable s "layers" s.used_layers false) (fun s =>
  seqU (if s.used_linetypes.isEmpty then (s, .ok ())
        else importTable s "linetypes" s.used_linetypes false) (fun s =>
  if s.used_styles.isEmpty then (s, .ok ())
  else importTable s "styles" s.used_styles false)))

/-- One guarded stage of `_import_required_table_entries`: import the table
of one kind from its collected `used_*` set when that set is non-empty. -/
def tableStage (s : Importer) (kind : String) : Importer × Res Unit :=
  if (usedOf s kind).isEmpty then (s, .ok ())
  else importTable s kind (usedOf s kind) false

/-- `Importer.finalize`: insert resolution, required table entries, missing
arrow symbols, in this order. -/
def finalize (isAcad : String → Bool) (entFuel loopFuel : Nat)
    (s : Importer) : Importer × Res Unit :=
  seqU (resolveInsertsFuel entFuel loopFuel s) (fun s =>
  seqU (importRequiredTableEntries s) (fun s =>
  createMissingArrows isAcad entFuel s))

/-- One public importer call, for quantifying over the arbitrary
interleavings a caller may drive against the session before `finalize`
(table import with the default skip policy, entity import, block import). -/
inductive Op where
  | entity (e : Entity) (tgt : TargetRef) (fuel : Nat)
  | table (kind : String) (entries : List String)
  | block (name : String) (rename : Bool) (fuel : Nat)

/-- State reached after one public importer call (exceptions are local to the
call: the state they leave behind persists). -/
def runOp (s : Importer) : Op → Importer
  | .entity e tgt fuel => (importEntityF fuel s e tgt).1
  | .table kind entries => (importTable s kind entries false).1
  | .block name rename fuel => (importBlockFuel fuel s name rename).1

/-- State reached after a sequence of public importer calls. -/
def runOps (s : Importer) : List Op → Importer
  | [] => s
  | op :: rest => runOps (runOp s op) rest

/-- Block names referenced by the INSERT entities of a block body. -/
def insertNamesOf (body : List Entity) : List String :=
  (body.filter (fun e => e.dxftype = "INSERT")).map (·.name)

/-- Names referenced by the entities currently on the pending queue. -/
def queueNames (s : Importer) : List String :=
  s.imported_inserts.map (qname s)

/-- Number of distinct source block names not yet recorded in the memo: the
measure of the insert-resolver loop. -/
def unmemo (s : Importer) : Nat :=
  ((sourceBlockNames s).dedup.filter (fun n => n ∉ memoKeys s)).length

/-- No source block body contains a DIMENSION entity (DIMENSION entities
inside imported block content re-enter `import_block` before the memo entry
of the enclosing block is recorded, which defeats the memo argument). -/
def NoDim (s : Importer) : Prop :=
  ∀ p ∈ s.sourceBlocks, ∀ e ∈ p.2, e.dxftype ≠ "DIMENSION"

/-- The block names reachable from a set of initially referenced names
through the INSERT references contained in source block bodies. -/
inductive Reach (src : List (String × List Entity)) (init : List String) : String → Prop
  | base {n : String} : n ∈ init → Reach src init n
  | step {m n : String} {p : String × List Entity} :
      Reach src init m → src.find? (fun q => q.1 = m) = some p →
      n ∈ insertNamesOf p.2 → Reach src init n

/-- The candidate sequence of the probing loops: `candOff base off 0 = base`
and `candOff base off (k + 1) = base ++ toString (k + off)`.  Block renaming
probes `candOff base 0` (suffixes 0, 1, 2, ...), layout renaming probes
`candOff base 1` (suffixes 1, 2, 3, ...). -/
def candOff (base : String) (off : Nat) : Nat → String
  | 0 => base
  | k + 1 => base ++ toString (k + off)

/-- Decimal decoding of a digit-character list, the left inverse of
`Nat.toDigits 10` used to prove that `toString` on `Nat` is injective. -/
def decodeDigits (l : List Char) : Nat :=
  l.foldl (fun a c => a * 10 + (c.toNat - 48)) 0

/-- Relation between a session state and any later state of the same
session: the source drawing keeps its block list and its table entry names,
target table names, target block names and the `used_*` sets only grow, and
distinctness of the target block names is preserved.  Every public importer
operation (with the default skip policy for tables) is a `Mono` step. -/
structure Mono (s s' : Importer) : Prop where
  srcBlocks : s'.sourceBlocks = s.sourceBlocks
  srcTables : ∀ k, sourceTableNames s' k = sourceTableNames s k
  tgtTables : ∀ k, ∀ n, n ∈ targetTableNames s k → n ∈ targetTableNames s' k
  usedL : ∀ n ∈ s.used_layers, n ∈ s'.used_layers
  usedLt : ∀ n ∈ s.used_linetypes, n ∈ s'.used_linetypes
  usedS : ∀ n ∈ s.used_styles, n ∈ s'.used_styles
  usedD : ∀ n ∈ s.used_dimstyles, n ∈ s'.used_dimstyles
  tgtBlocks : ∀ n ∈ targetBlockNames s, n ∈ targetBlockNames s'
  tgtNodup : (targetBlockNames s).Nodup → (targetBlockNames s').Nodup

/-- A block-import callback that is a `Mono` step on every call. -/
def MonoF (ib : BlockImportF) : Prop := ∀ s n r, Mono s (ib s n r).1

/-- A LINE entity on layer `L1` (no such entry in any source table). -/
def lineL1 : Entity := { dxftype := "LINE", layer := some "L1" }

/-- An importer session over an empty source and an empty target. -/
def emptyImp : Importer := {}

/-- A session whose source layer table holds an entry `L1`. -/
def layerL1State : Importer :=
  { sourceLayers := [{ dxftype := "LAYER", name := "L1" }] }

/-- A DIMENSION entity whose anonymous geometry block is named `A`. -/
def dimGeoA : Entity := { dxftype := "DIMENSION", geometry := some "A" }

/-- An INSERT entity referencing block `A`. -/
def insRefA : Entity := { dxftype := "INSERT", name := "A" }

/-- A session whose source block `A` contains a DIMENSION whose anonymous
geometry block is `A` itself, with one block reference to `A` pending on the
queue: importing `A` re-enters `import_block A` through the DIMENSION
handler before the memo entry for `A` is recorded. -/
def cyclicDimState : Importer :=
  { sourceBlocks := [("A", [dimGeoA])],
    entitydb := [(0, insRefA)], nextHandle := 1,
    imported_inserts := [0] }

/-- A source layer table entry with document-local decorative handles. -/
def layerLsrc : Entity :=
  { dxftype := "LAYER", name := "L", doc := some "source",
    plotstyle_handle := some "AA", material_handle := some "BB",
    linetype := some "DASHED" }

/-- A session whose source layer table holds `layerLsrc` and whose target
default decorative handles are `F1` and `F2`. -/
def tableBugState : Importer := { sourceLayers := [layerLsrc] }

/-- A session with source layout `L` and target layout `L` (name collision). -/
def layoutCollisionState : Importer :=
  { sourceLayouts := ["L"], targetLayouts := ["L"] }

/-- An INSERT entity referencing block `B`. -/
def insRefB : Entity := { dxftype := "INSERT", name := "B" }

/-- A session with source blocks `B` (containing a reference to `A`) and
`A` (empty), used to exercise block import and insert resolution. -/
def twoBlockState : Importer :=
  { sourceBlocks := [("B", [insRefA]), ("A", [])] }

/-- An INSERT entity referencing the arrow block `ARROW`. -/
def insArrow : Entity := { dxftype := "INSERT", name := "ARROW" }

/-- A DIMENSION entity with anonymous geometry block `*D1`. -/
def dimGeoD1 : Entity := { dxftype := "DIMENSION", geometry := some "*D1" }

/-- A session where the source holds the anonymous dimension geometry block
`*D1` (containing an arrow reference) and the arrow block `ARROW`, and the
target already holds a block named `ARROW`. -/
def arrowState : Importer :=
  { sourceBlocks := [("*D1", [insArrow]), ("ARROW", [])],
    targetBlocks := [("ARROW", [])] }

/-- A DIMENSION-free session with source blocks `B` (referencing `A`) and
`A`, and one pending block reference to `B` on the queue: resolving it
imports `B`, enqueues a reference to `A`, and a second pass imports `A`. -/
def resolveDemoState : Importer :=
  { sourceBlocks := [("B", [insRefA]), ("A", [])],
    entitydb := [(0, insRefB)], nextHandle := 1,
    imported_inserts := [0] }

/-- A whitelisted LINE entity on layer `L9` whose `copy()` raises
DXFTypeError. -/
def uncloneableLine : Entity :=
  { dxftype := "LINE", layer := some "L9", cloneable := false }

/-- A session whose source layer table holds an entry `L9`. -/
def layerL9State : Importer :=
  { sourceLayers := [{ dxftype := "LAYER", name := "L9" }] }

/-- An entity carrying every cross-document payload, for exercising
`new_clean_entity`. -/
def payloadEntity : Entity :=
  { dxftype := "LINE", doc := some "source", appdata := some "ad",
    reactors := some "re", extension_dict := some "xd", xdata := some "xx" }

/-- A session with a colliding block name `N` in source and target, where
`N0` is still free. -/
def collideState : Importer :=
  { sourceBlocks := [("N", [])], targetBlocks := [("N", [])] }

/-- A session with a colliding block name `N` in the source while the target
already holds `N` and `N0` (the situation after a first colliding import,
seen by a fresh session). -/
def collideState2 : Importer :=
  { sourceBlocks := [("N", [])], targetBlocks := [("N", []), ("N0", [])] }

/-! ### Injectivity of the decimal rendering used by the probing loops -/

lemma toDigitsCore_app : ∀ (f n : Nat) (ds : List Char), n < f →
    Nat.toDigitsCore 10 f n ds = Nat.toDigitsCore 10 f n [] ++ ds := by
  intro f
  induction f with
  | zero => intro n ds h; omega
  | succ f ih =>
    intro n ds h
    simp only [Nat.toDigitsCore]
    by_cases h10 : n / 10 = 0
    · simp [h10]
    · have hlt : n / 10 < n := Nat.div_lt_self (by omega) (by omega)
      have hn10 : n / 10 < f := by omega
      simp only [h10, if_false]
      rw [ih (n / 10) (Nat.digitChar (n % 10) :: ds) hn10,
          ih (n / 10) [Nat.digitChar (n % 10)] hn10]
      simp

lemma toDigitsCore_fuel : ∀ (n f g : Nat), n < f → n < g →
    Nat.toDigitsCore 10 f n [] = Nat.toDigitsCore 10 g n [] := by
  intro n
  induction n using Nat.strong_induction_on with
  | _ n ih =>
    intro f g hf hg
    match f, g with
    | f + 1, g + 1 =>
      simp only [Nat.toDigitsCore]
      by_cases h10 : n / 10 = 0
      · simp [h10]
      · have hlt : n / 10 < n := Nat.div_lt_self (by omega) (by omega)
        simp only [h10, if_false]
        rw [toDigitsCore_app f (n / 10) _ (by omega),
            toDigitsCore_app g (n / 10) _ (by omega),
            ih (n / 10) hlt f g (by omega) (by omega)]

lemma toDigits_eq_append (n : Nat) (h : ¬ n / 10 = 0) :
    Nat.toDigits 10 n = Nat.toDigits 10 (n / 10) ++ [Nat.digitChar (n % 10)] := by
  have hlt : n / 10 < n := Nat.div_lt_self (by omega) (by omega)
  show Nat.toDigitsCore 10 (n + 1) n [] = _
  simp only [Nat.toDigitsCore, h, if_false]
  rw [toDigitsCore_app n (n / 10) [Nat.digitChar (n % 10)] (by omega)]
  unfold Nat.toDigits
  rw [toDigitsCore_fuel (n / 10) n (n / 10 + 1) (by omega) (by omega)]

lemma decodeDigits_append (l : List Char) (c : Char) :
    decodeDigits (l ++ [c]) = decodeDigits l * 10 + (c.toNat - 48) := by
  simp [decodeDigits, List.foldl_append]

lemma digitChar_decode : ∀ k, k < 10 → (Nat.digitChar k).toNat - 48 = k := by decide

lemma decode_toDigits : ∀ n, decodeDigits (Nat.toDigits 10 n) = n := by
  intro n
  induction n using Nat.strong_induction_on with
  | _ n ih =>
    by_cases h : n / 10 = 0
    · have hn : n < 10 := by omega
      show decodeDigits (Nat.toDigitsCore 10 (n + 1) n []) = n
      simp only [Nat.toDigitsCore, h, if_true]
      have : decodeDigits [Nat.digitChar (n % 10)] = (Nat.digitChar (n % 10)).toNat - 48 := by
        simp [decodeDigits]
      rw [this, digitChar_decode _ (Nat.mod_lt _ (by omega))]
      omega
    · have hlt : n / 10 < n := Nat.div_lt_self (by omega) (by omega)
      rw [toDigits_eq_append n h, decodeDigits_append, ih (n / 10) hlt,
          digitChar_decode _ (Nat.mod_lt _ (by omega))]
      omega

lemma toString_nat_inj {m n : Nat} (h : toString m = toString n) : m = n := by
  have h2 : Nat.toDigits 10 m = Nat.toDigits 10 n := congrArg String.data h
  have := decode_toDigits m
  rw [h2, decode_toDigits n] at this
  exact this.symm

lemma toDigits_ne_nil (n : Nat) : Nat.toDigits 10 n ≠ [] := by
  show Nat.toDigitsCore 10 (n + 1) n [] ≠ []
  simp only [Nat.toDigitsCore]
  by_cases h : n / 10 = 0
  · simp [h]
  · have hge : 10 ≤ n := by omega
    have hlt : n / 10 < n := Nat.div_lt_self (by omega) (by omega)
    simp only [h, if_false]
    rw [toDigitsCore_app n (n / 10) [Nat.digitChar (n % 10)] (by omega)]
    simp

lemma append_toString_ne (a : String) (k : Nat) : a ++ toString k ≠ a := by
  intro h
  have h2 : a.data ++ (toString k).data = a.data ++ [] := by
    have := congrArg String.data h
    simpa [String.data_append] using this
  have h3 : (toString k).data = [] := List.append_cancel_left h2
  exact toDigits_ne_nil k h3

lemma string_append_cancel {a b c : String} (h : a ++ b = a ++ c) : b = c := by
  have h2 : a.data ++ b.data = a.data ++ c.data := by
    have := congrArg String.data h
    simpa [String.data_append] using this
  have h3 := List.append_cancel_left h2
  cases b; cases c; simp only at h3; simp [h3]

/-! ### Characterization of the probing loops -/

lemma candOff_inj (base : String) (off : Nat) :
    ∀ {i j : Nat}, candOff base off i = candOff base off j → i = j := by
  intro i j h
  match i, j with
  | 0, 0 => rfl
  | 0, k + 1 => exact absurd h.symm (append_toString_ne base (k + off))
  | i + 1, 0 => exact absurd h (append_toString_ne base (i + off))
  | i + 1, j + 1 =>
    have h2 : toString (i + off) = toString (j + off) :=
      string_append_cancel (a := base) h
    have := toString_nat_inj h2
    omega

lemma exists_free_candidate (base : String) (off : Nat) (taken : List String) :
    ∃ j, j ≤ taken.length ∧ candOff base off j ∉ taken := by
  by_contra hc
  push_neg at hc
  have hsub : ∀ x ∈ (List.range (taken.length + 1)).map (candOff base off), x ∈ taken := by
    intro x hx
    obtain ⟨j, hj, rfl⟩ := List.mem_map.1 hx
    exact hc j (by simpa using Nat.lt_succ_iff.1 (List.mem_range.1 hj))
  have hinj : Function.Injective (candOff base off) :=
    fun a b h => candOff_inj base off h
  have hnd : ((List.range (taken.length + 1)).map (candOff base off)).Nodup :=
    (List.nodup_range _).map hinj
  have h1 : ((List.range (taken.length + 1)).map (candOff base off)).toFinset.card
      = taken.length + 1 := by
    rw [List.toFinset_card_of_nodup hnd]; simp
  have h2 : ((List.range (taken.length + 1)).map (candOff base off)).toFinset
      ⊆ taken.toFinset := by
    intro x hx
    exact List.mem_toFinset.2 (hsub x (List.mem_toFinset.1 hx))
  have h3 := Finset.card_le_card h2
  have h4 := taken.toFinset_card_le
  omega

lemma probeName_spec (base : String) (off : Nat) (taken : List String) :
    ∀ (j k f : Nat), (∀ i, i < j → candOff base off (k + i) ∈ taken) →
    candOff base off (k + j) ∉ taken → j < f →
    probeName base taken f (candOff base off k) (k + off) = candOff base off (k + j) := by
  intro j
  induction j with
  | zero =>
    intro k f h hj hf
    match f with
    | f + 1 =>
      simp only [probeName]
      rw [if_neg (by simpa using hj)]
      simp
  | succ j ih =>
    intro k f h hj hf
    match f with
    | f + 1 =>
      simp only [probeName]
      rw [if_pos (by simpa using h 0 (by omega))]
      have e1 : base ++ toString (k + off) = candOff base off (k + 1) := rfl
      have e2 : k + off + 1 = (k + 1) + off := by omega
      rw [e1, e2, ih (k + 1) f
        (fun i hi => by
          have := h (i + 1) (by omega)
          rwa [show k + (i + 1) = k + 1 + i by omega] at this)
        (by rwa [show k + (j + 1) = k + 1 + j by omega] at hj)
        (by omega)]
      rw [show k + 1 + j = k + (j + 1) by omega]

/-- First-free-candidate characterization of `get_new_block_name`
(suffix counter starting at 0). -/
lemma get_new_block_name_eq (base : String) (taken : List String) :
    ∃ j, get_new_block_name base taken = candOff base 0 j ∧
      candOff base 0 j ∉ taken ∧ ∀ i, i < j → candOff base 0 i ∈ taken := by
  obtain ⟨j0, hj0, hfree⟩ := exists_free_candidate base 0 taken
  have hex : ∃ j, candOff base 0 j ∉ taken := ⟨j0, hfree⟩
  refine ⟨Nat.find hex, ?_, Nat.find_spec hex, fun i hi => ?_⟩
  · have hle : Nat.find hex ≤ taken.length := le_trans (Nat.find_min' hex hfree) hj0
    have := probeName_spec base 0 taken (Nat.find hex) 0 (taken.length + 1)
      (fun i hi => by
        have := Nat.find_min hex (m := i) hi
        simpa using this)
      (by simpa using Nat.find_spec hex) (by omega)
    simpa [get_new_block_name] using this
  · have := Nat.find_min hex (m := i) hi
    simpa using this

/-- First-free-candidate characterization of `get_target_name`
(suffix counter starting at 1). -/
lemma get_target_name_eq (base : String) (taken : List String) :
    ∃ j, get_target_name base taken = candOff base 1 j ∧
      candOff base 1 j ∉ taken ∧ ∀ i, i < j → candOff base 1 i ∈ taken := by
  obtain ⟨j0, hj0, hfree⟩ := exists_free_candidate base 1 taken
  have hex : ∃ j, candOff base 1 j ∉ taken := ⟨j0, hfree⟩
  refine ⟨Nat.find hex, ?_, Nat.find_spec hex, fun i hi => ?_⟩
  · have hle : Nat.find hex ≤ taken.length := le_trans (Nat.find_min' hex hfree) hj0
    have := probeName_spec base 1 taken (Nat.find hex) 0 (taken.length + 1)
      (fun i hi => by
        have := Nat.find_min hex (m := i) hi
        simpa using this)
      (by simpa using Nat.find_spec hex) (by omega)
    simpa [get_target_name] using this
  · have := Nat.find_min hex (m := i) hi
    simpa using this

/-- The fresh block name is never a name already taken. -/
lemma get_new_block_name_not_mem (base : String) (taken : List String) :
    get_new_block_name base taken ∉ taken := by
  obtain ⟨j, hj, hfree, _⟩ := get_new_block_name_eq base taken
  rw [hj]; exact hfree

/-! ### C8: the cloning primitive severs all cross-document back-references -/

/-- C8: every entity copy produced by `new_clean_entity` (the cloning
primitive of both entity import and table-record import) has its document
linkage (`doc`), extension record (`extension_dict`), reactor links
(`reactors`) and foreign-owner application data (`appdata`) cleared, and its
extended attribute data (`xdata`) cleared unless retention is explicitly
requested via the flag; hence no imported entity retains a cross-document
back-reference after import. -/
theorem C8_clean_copy_clears_dependencies (e : Entity) (retain : Bool)
    (ne : Entity) (hclone : new_clean_entity e retain = some ne) :
    ne.doc = none ∧ ne.appdata = none ∧ ne.reactors = none ∧
    ne.extension_dict = none ∧ (retain = false → ne.xdata = none) ∧
    (retain = true → ne.xdata = e.xdata) := by
  unfold new_clean_entity at hclone
  by_cases hc : e.cloneable
  · rw [if_pos hc] at hclone
    have h2 : remove_dependencies { e with doc := none } retain = ne :=
      Option.some_injective _ hclone
    cases retain <;> simp [remove_dependencies] at h2 <;> subst h2 <;> simp
  · rw [if_neg hc] at hclone
    exact absurd hclone (by simp)

/-- Witness for C8 at a concrete entity carrying every payload. -/
theorem C8_clean_copy_witness :
    ∃ ne, new_clean_entity payloadEntity false = some ne ∧ ne.doc = none ∧
      ne.appdata = none ∧ ne.reactors = none ∧ ne.extension_dict = none ∧
      ne.xdata = none := by
  have h : new_clean_entity payloadEntity false =
      some (remove_dependencies { payloadEntity with doc := none } false) := rfl
  have h2 := C8_clean_copy_clears_dependencies payloadEntity false _ h
  exact ⟨_, h, h2.1, h2.2.1, h2.2.2.1, h2.2.2.2.1, h2.2.2.2.2.1 rfl⟩

/-! ### C4 and C5: the table-entry duplication slip -/

/-- C4 evaluated at the failing input: importing source layer `L` (plot
style handle `AA`, material handle `BB`) into an empty target whose session
defaults are `F1` and `F2` produces a target entry that still carries the
source handles `AA` and `BB` (and no document link), because
`_duplicate_table_entry` applies `_set_table_entry_dxf_attribs` to the
source entry instead of the clone.  The claim says the clone has its
decorative handle fields reset to the target defaults `F1`/`F2`. -/
theorem C4_table_entry_handles_not_reset :
    ((importTable tableBugState "layers" ["L"] false).1.targetLayers.map
      (fun e => (e.plotstyle_handle, e.material_handle, e.doc)))
      = [(some "AA", some "BB", none)] ∧
    tableBugState.default_plotstyle_handle = "F1" ∧
    tableBugState.default_material_handle = "F2" ∧
    (some "AA", some "BB") ≠ (some "F1", some "BB") := by
  refine ⟨by decide, rfl, rfl, by decide⟩

/-- C5 evaluated at the failing input: the same `import_table` call mutates
the source drawing: the source layer entry is re-linked to the target
drawing and its decorative handles are overwritten with the target
defaults.  The claim says the source document is read-only for the
lifetime of the session. -/
theorem C5_source_table_entry_mutated :
    (importTable tableBugState "layers" ["L"] false).1.sourceLayers ≠
      tableBugState.sourceLayers ∧
    ((importTable tableBugState "layers" ["L"] false).1.sourceLayers.map
      (fun e => (e.doc, e.plotstyle_handle, e.material_handle)))
      = [(some "target", some "F1", some "F2")] ∧
    (tableBugState.sourceLayers.map
      (fun e => (e.doc, e.plotstyle_handle, e.material_handle)))
      = [(some "source", some "AA", some "BB")] := by
  refine ⟨by decide, by decide, by decide⟩

/-! ### C7: layout renaming probes suffixes starting at 1, not 0 -/

/-- C7 counterexample: for base name `L` with `L` taken, layout renaming
produces `L1` while block renaming produces `L0` — the two probing schemes
do not start from the same first suffix, contradicting the claim. -/
theorem C7_counterexample_suffix_mismatch :
    (recreateSourceLayout layoutCollisionState "L").2 = .ok "L1" ∧
    get_target_name "L" ["L"] = "L1" ∧
    get_new_block_name "L" ["L"] = "L0" ∧
    ("L1" : String) ≠ "L0" := by
  refine ⟨by decide, by decide, by decide, by decide⟩

/-- C7 amended: `recreate_source_layout` resolves a colliding non-model
layout name by the same integer-suffix probing scheme as block renaming
except that the first probed suffix is 1 rather than 0: it tries the base
name, then base ++ "1", base ++ "2", ... and takes the first name not
present among the target layouts (`candOff name 1 0 = name`,
`candOff name 1 (k+1) = name ++ toString (k+1)`). -/
theorem C7_layout_rename_probing (s : Importer) (name : String)
    (hm : lowerAscii name ≠ "model") (hs : name ∈ s.sourceLayouts) :
    ∃ j, (recreateSourceLayout s name).2 = .ok (candOff name 1 j) ∧
      candOff name 1 j ∉ s.targetLayouts ∧
      (∀ i, i < j → candOff name 1 i ∈ s.targetLayouts) ∧
      (recreateSourceLayout s name).1.targetLayouts
        = s.targetLayouts ++ [candOff name 1 j] := by
  obtain ⟨j, hj, hfree, hmin⟩ := get_target_name_eq name s.targetLayouts
  refine ⟨j, ?_, hfree, hmin, ?_⟩ <;>
    simp [recreateSourceLayout, hm, hs, hj]

/-- Witness for the amended C7 at the concrete collision state. -/
theorem C7_layout_rename_probing_witness :
    ∃ j, (recreateSourceLayout layoutCollisionState "L").2 = .ok (candOff "L" 1 j) ∧
      candOff "L" 1 j ∉ layoutCollisionState.targetLayouts ∧
      (∀ i, i < j → candOff "L" 1 i ∈ layoutCollisionState.targetLayouts) ∧
      (recreateSourceLayout layoutCollisionState "L").1.targetLayouts
        = layoutCollisionState.targetLayouts ++ [candOff "L" 1 j] :=
  C7_layout_rename_probing layoutCollisionState "L" (by decide) (by decide)

/-! ### Memo (`imported_blocks`) dictionary lemmas -/

lemma find?_map_replace (m : List (String × String)) (k v : String) :
    (m.map (fun p => if p.1 = k then (k, v) else p)).find? (fun p => p.1 = k)
      = if k ∈ m.map (·.1) then some (k, v) else none := by
  induction m with
  | nil => simp
  | cons p rest ih =>
    by_cases hp : p.1 = k
    · simp only [List.map_cons, if_pos hp]
      rw [List.find?_cons_of_pos _ (by simp)]
      simp [hp]
    · have hknp : ¬ k = p.1 := fun h => hp h.symm
      simp only [List.map_cons, if_neg hp]
      rw [List.find?_cons_of_neg _ (by simp [hp]), ih]
      by_cases hk : k ∈ List.map (fun x => x.1) rest
      · simp [hk, hknp]
      · simp [hk, hknp]

lemma memoInsert_lookup_self (m : List (String × String)) (k v : String) :
    ((memoInsert m k v).find? (fun p => p.1 = k)).map (·.2) = some v := by
  unfold memoInsert
  by_cases h : k ∈ m.map (·.1)
  · rw [if_pos h, find?_map_replace, if_pos h]; rfl
  · rw [if_neg h]
    have hnone : m.find? (fun p => p.1 = k) = none := by
      rw [List.find?_eq_none]
      intro p hp hpk
      exact h (List.mem_map.2 ⟨p, hp, by simpa using hpk⟩)
    induction m with
    | nil => simp
    | cons p rest ih =>
      have hpk : ¬ p.1 = k := by
        intro hh
        rw [List.find?_cons_of_pos _ (by simp [hh])] at hnone
        exact Option.noConfusion hnone
      rw [List.find?_cons_of_neg _ (by simp [hpk])] at hnone
      have hmem : k ∉ rest.map (·.1) := by
        intro hk; exact h (by simp [hk])
      rw [List.cons_append, List.find?_cons_of_neg _ (by simp [hpk])]
      exact ih hmem hnone

lemma memoInsert_find_ne (m : List (String × String)) (k v k' : String)
    (h : k' ≠ k) :
    (memoInsert m k v).find? (fun p => p.1 = k') = m.find? (fun p => p.1 = k') := by
  unfold memoInsert
  by_cases hm : k ∈ m.map (·.1)
  · rw [if_pos hm]; clear hm
    induction m with
    | nil => rfl
    | cons p rest ih =>
      simp only [List.map_cons]
      by_cases hp : p.1 = k
      · rw [if_pos hp, List.find?_cons_of_neg _ (by simp [Ne.symm h]),
            List.find?_cons_of_neg _ (by simp [hp, Ne.symm h]), ih]
      · rw [if_neg hp]
        by_cases hp' : p.1 = k'
        · rw [List.find?_cons_of_pos _ (by simp [hp']),
              List.find?_cons_of_pos _ (by simp [hp'])]
        · rw [List.find?_cons_of_neg _ (by simp [hp']),
              List.find?_cons_of_neg _ (by simp [hp']), ih]
  · rw [if_neg hm, List.find?_append]
    have h2 : [(k, v)].find? (fun p => p.1 = k') = none := by
      simp [Ne.symm h]
    rw [h2, Option.or_none]

lemma memoInsert_keys_of_not_mem (m : List (String × String)) (k v : String)
    (h : k ∉ m.map (·.1)) :
    (memoInsert m k v).map (·.1) = m.map (·.1) ++ [k] := by
  unfold memoInsert; rw [if_neg h]; simp

/-! ### Evaluation equations for `import_block` and `import_entity` -/

lemma importBlockCore_memo_hit (ib : BlockImportF) (afuel : Nat) (s : Importer)
    (n : String) (rename : Bool) (r : String) (h : memoLookup s n = some r) :
    importBlockCore ib afuel s n rename = (s, .ok r) := by
  unfold importBlockCore; rw [h]

lemma importBlockCore_not_found (ib : BlockImportF) (afuel : Nat) (s : Importer)
    (n : String) (rename : Bool) (h1 : memoLookup s n = none)
    (h2 : s.sourceBlocks.find? (fun p => p.1 = n) = none) :
    importBlockCore ib afuel s n rename = (s, .err "ValueError") := by
  unfold importBlockCore; rw [h1, h2]

lemma importBlockCore_identity (ib : BlockImportF) (afuel : Nat) (s : Importer)
    (n : String) (pr : String × List Entity) (h1 : memoLookup s n = none)
    (h2 : s.sourceBlocks.find? (fun p => p.1 = n) = some pr)
    (h3 : n ∈ targetBlockNames s) :
    importBlockCore ib afuel s n false =
      ({ s with imported_blocks := memoInsert s.imported_blocks n n }, .ok n) := by
  unfold importBlockCore
  rw [h1, h2]
  exact if_pos ⟨h3, rfl⟩

lemma importBlockCore_import (ib : BlockImportF) (afuel : Nat) (s : Importer)
    (n : String) (pr : String × List Entity) (rename : Bool) (newName : String)
    (h1 : memoLookup s n = none)
    (h2 : s.sourceBlocks.find? (fun p => p.1 = n) = some pr)
    (h3 : ¬ (n ∈ targetBlockNames s ∧ rename = false))
    (hnew : newName = get_new_block_name n (targetBlockNames s)) :
    importBlockCore ib afuel s n rename =
      (match importEntitiesCore ib afuel
          { s with targetBlocks := s.targetBlocks ++ [(newName, [])], blockImports := s.blockImports + 1 }
          pr.2 (.block newName) with
       | (s', .ok _) =>
          ({ s' with imported_blocks := memoInsert s'.imported_blocks n newName }, .ok newName)
       | (s', .err m) => (s', .err m)
       | (s', .fuelOut) => (s', .fuelOut)) := by
  subst hnew
  unfold importBlockCore
  rw [h1, h2]
  exact if_neg h3

lemma importBlockFuel_succ (f : Nat) (s : Importer) (n : String) (rename : Bool) :
    importBlockFuel (f + 1) s n rename
      = importBlockCore (importBlockFuel f) f s n rename := rfl

/-- C6: when `import_block(n, rename=true)` must rename because the target
already holds a block named `n`, the fresh name is computed deterministically
by trying `n`, then `n ++ "0"`, `n ++ "1"`, ... (`candOff n 0` is exactly
this candidate sequence) and taking the first name not present among the
target block names; in particular the first colliding import yields
`n ++ "0"` when that is free, and a second colliding import of the same base
name (a fresh memo against a target now holding both `n` and `n ++ "0"`)
yields `n ++ "1"`. -/
theorem C6_colliding_block_rename (s : Importer) (n : String) (afuel : Nat)
    (ib : BlockImportF) (pr : String × List Entity)
    (hm : memoLookup s n = none)
    (hfind : s.sourceBlocks.find? (fun p => p.1 = n) = some pr)
    (hcol : n ∈ targetBlockNames s) :
    (∃ j, get_new_block_name n (targetBlockNames s) = candOff n 0 j ∧
       candOff n 0 j ∉ targetBlockNames s ∧
       (∀ i, i < j → candOff n 0 i ∈ targetBlockNames s)) ∧
    (∀ s' r, importBlockCore ib afuel s n true = (s', .ok r) →
       r = get_new_block_name n (targetBlockNames s)) ∧
    (n ++ "0" ∉ targetBlockNames s →
       get_new_block_name n (targetBlockNames s) = n ++ "0") ∧
    (n ++ "0" ∈ targetBlockNames s → n ++ "1" ∉ targetBlockNames s →
       get_new_block_name n (targetBlockNames s) = n ++ "1") := by
  obtain ⟨j, hj, hfree, hmin⟩ := get_new_block_name_eq n (targetBlockNames s)
  refine ⟨⟨j, hj, hfree, hmin⟩, ?_, ?_, ?_⟩
  · intro s' r h
    rw [importBlockCore_import ib afuel s n pr true _ hm hfind (by simp) rfl] at h
    cases hb : importEntitiesCore ib afuel
        { s with targetBlocks := s.targetBlocks ++ [(get_new_block_name n (targetBlockNames s), [])], blockImports := s.blockImports + 1 }
        pr.2 (.block (get_new_block_name n (targetBlockNames s))) with
    | mk s2 res =>
      rw [hb] at h
      cases res with
      | ok u =>
        simp only [Prod.mk.injEq] at h
        injection h.2 with hh
        exact hh.symm
      | err m => simp at h
      | fuelOut => simp at h
  · intro h0
    have e1 : candOff n 0 1 = n ++ "0" := rfl
    have hne0 : j ≠ 0 := fun h' => (h' ▸ hfree) hcol
    have hle : j ≤ 1 := by
      by_contra hgt
      push_neg at hgt
      exact h0 (e1 ▸ hmin 1 (by omega))
    have hj1 : j = 1 := by omega
    rw [hj, hj1, e1]
  · intro h0 h1
    have e1 : candOff n 0 1 = n ++ "0" := rfl
    have e2 : candOff n 0 2 = n ++ "1" := rfl
    have hne0 : j ≠ 0 := fun h' => (h' ▸ hfree) hcol
    have hne1 : j ≠ 1 := by
      intro h'; rw [h', e1] at hfree; exact hfree h0
    have hle : j ≤ 2 := by
      by_contra hgt
      push_neg at hgt
      exact h1 (e2 ▸ hmin 2 (by omega))
    have hj2 : j = 2 := by omega
    rw [hj, hj2, e2]

/-- Witness for C6: first colliding import of `N` renames to `N0`; with the
target then holding `N` and `N0`, a fresh-session colliding import yields
`N1`. -/
theorem C6_colliding_block_rename_witness :
    get_new_block_name "N" (targetBlockNames collideState) = "N" ++ "0" ∧
    get_new_block_name "N" (targetBlockNames collideState2) = "N" ++ "1" := by
  constructor
  · exact (C6_colliding_block_rename collideState "N" 0 (importBlockFuel 0) ("N", [])
      (by decide) (by decide) (by decide)).2.2.1 (by decide)
  · exact (C6_colliding_block_rename collideState2 "N" 0 (importBlockFuel 0) ("N", [])
      (by decide) (by decide) (by decide)).2.2.2 (by decide) (by decide)

lemma importEntityCore_not_supported (ib : BlockImportF) (afuel : Nat)
    (s : Importer) (e : Entity) (tgt : TargetRef)
    (h : e.dxftype ∉ IMPORT_ENTITIES) :
    importEntityCore ib afuel s e tgt = (s, .ok ()) := by
  unfold importEntityCore; rw [if_neg h]

lemma importEntityCore_not_cloneable (ib : BlockImportF) (afuel : Nat)
    (s : Importer) (e : Entity) (tgt : TargetRef)
    (h1 : e.dxftype ∈ IMPORT_ENTITIES) (h2 : e.cloneable = false) :
    importEntityCore ib afuel s e tgt = (addUsedResources s e, .ok ()) := by
  unfold importEntityCore
  rw [if_pos h1]
  have hn : new_clean_entity e false = none := by
    unfold new_clean_entity; rw [if_neg (by simp [h2])]
  rw [hn]

/-! ### Session monotonicity: every operation is a `Mono` step -/

lemma Mono.comp {a b c : Importer} (h1 : Mono a b) (h2 : Mono b c) : Mono a c :=
  { srcBlocks := h2.srcBlocks.trans h1.srcBlocks,
    srcTables := fun k => (h2.srcTables k).trans (h1.srcTables k),
    tgtTables := fun k n hn => h2.tgtTables k n (h1.tgtTables k n hn),
    usedL := fun n hn => h2.usedL n (h1.usedL n hn),
    usedLt := fun n hn => h2.usedLt n (h1.usedLt n hn),
    usedS := fun n hn => h2.usedS n (h1.usedS n hn),
    usedD := fun n hn => h2.usedD n (h1.usedD n hn),
    tgtBlocks := fun n hn => h2.tgtBlocks n (h1.tgtBlocks n hn),
    tgtNodup := fun h => h2.tgtNodup (h1.tgtNodup h) }

lemma Mono.mk' {s s' : Importer}
    (hsb : s'.sourceBlocks = s.sourceBlocks)
    (hsL : s'.sourceLayers.map (·.name) = s.sourceLayers.map (·.name))
    (hsLt : s'.sourceLinetypes.map (·.name) = s.sourceLinetypes.map (·.name))
    (hsS : s'.sourceStyles.map (·.name) = s.sourceStyles.map (·.name))
    (hsD : s'.sourceDimstyles.map (·.name) = s.sourceDimstyles.map (·.name))
    (htL : ∀ n ∈ s.targetLayers.map (·.name), n ∈ s'.targetLayers.map (·.name))
    (htLt : ∀ n ∈ s.targetLinetypes.map (·.name), n ∈ s'.targetLinetypes.map (·.name))
    (htS : ∀ n ∈ s.targetStyles.map (·.name), n ∈ s'.targetStyles.map (·.name))
    (htD : ∀ n ∈ s.targetDimstyles.map (·.name), n ∈ s'.targetDimstyles.map (·.name))
    (huL : ∀ n ∈ s.used_layers, n ∈ s'.used_layers)
    (huLt : ∀ n ∈ s.used_linetypes, n ∈ s'.used_linetypes)
    (huS : ∀ n ∈ s.used_styles, n ∈ s'.used_styles)
    (huD : ∀ n ∈ s.used_dimstyles, n ∈ s'.used_dimstyles)
    (hb : ∀ n ∈ targetBlockNames s, n ∈ targetBlockNames s')
    (hbn : (targetBlockNames s).Nodup → (targetBlockNames s').Nodup) :
    Mono s s' := by
  refine ⟨hsb, ?_, ?_, huL, huLt, huS, huD, hb, hbn⟩
  · intro k
    unfold sourceTableNames getSourceTable
    by_cases e1 : k = "layers"
    · simp only [e1, if_true]; exact hsL
    · simp only [e1, if_false]
      by_cases e2 : k = "linetypes"
      · simp only [e2, if_true]; exact hsLt
      · simp only [e2, if_false]
        by_cases e3 : k = "styles"
        · simp only [e3, if_true]; exact hsS
        · simp only [e3, if_false]
          by_cases e4 : k = "dimstyles"
          · simp only [e4, if_true]; exact hsD
          · simp only [e4, if_false]
  · intro k n hn
    unfold targetTableNames getTargetTable at hn ⊢
    by_cases e1 : k = "layers"
    · simp only [e1, if_true] at hn ⊢; exact htL n hn
    · simp only [e1, if_false] at hn ⊢
      by_cases e2 : k = "linetypes"
      · simp only [e2, if_true] at hn ⊢; exact htLt n hn
      · simp only [e2, if_false] at hn ⊢
        by_cases e3 : k = "styles"
        · simp only [e3, if_true] at hn ⊢; exact htS n hn
        · simp only [e3, if_false] at hn ⊢
          by_cases e4 : k = "dimstyles"
          · simp only [e4, if_true] at hn ⊢; exact htD n hn
          · simp only [e4, if_false] at hn ⊢; exact hn

lemma Mono.refl (s : Importer) : Mono s s :=
  Mono.mk' rfl rfl rfl rfl rfl (fun _ h => h) (fun _ h => h) (fun _ h => h)
    (fun _ h => h) (fun _ h => h) (fun _ h => h) (fun _ h => h) (fun _ h => h)
    (fun _ h => h) id

lemma mem_addUsed (x n : String) (l : List String) (h : n ∈ l) : n ∈ addUsed x l := by
  unfold addUsed; split
  · exact h
  · simp [h]

lemma self_mem_addUsed (x : String) (l : List String) : x ∈ addUsed x l := by
  unfold addUsed; split
  · assumption
  · simp

lemma Mono_used_layers (s : Importer) (x : String) :
    Mono s { s with used_layers := addUsed x s.used_layers } :=
  Mono.mk' rfl rfl rfl rfl rfl (fun _ h => h) (fun _ h => h) (fun _ h => h)
    (fun _ h => h) (fun _ h => mem_addUsed _ _ _ h) (fun _ h => h) (fun _ h => h)
    (fun _ h => h) (fun _ h => h) id

lemma Mono_used_linetypes (s : Importer) (x : String) :
    Mono s { s with used_linetypes := addUsed x s.used_linetypes } :=
  Mono.mk' rfl rfl rfl rfl rfl (fun _ h => h) (fun _ h => h) (fun _ h => h)
    (fun _ h => h) (fun _ h => h) (fun _ h => mem_addUsed _ _ _ h) (fun _ h => h)
    (fun _ h => h) (fun _ h => h) id

lemma Mono_used_styles (s : Importer) (x : String) :
    Mono s { s with used_styles := addUsed x s.used_styles } :=
  Mono.mk' rfl rfl rfl rfl rfl (fun _ h => h) (fun _ h => h) (fun _ h => h)
    (fun _ h => h) (fun _ h => h) (fun _ h => h) (fun _ h => mem_addUsed _ _ _ h)
    (fun _ h => h) (fun _ h => h) id

lemma Mono_used_dimstyles (s : Importer) (x : String) :
    Mono s { s with used_dimstyles := addUsed x s.used_dimstyles } :=
  Mono.mk' rfl rfl rfl rfl rfl (fun _ h => h) (fun _ h => h) (fun _ h => h)
    (fun _ h => h) (fun _ h => h) (fun _ h => h) (fun _ h => h)
    (fun _ h => mem_addUsed _ _ _ h) (fun _ h => h) id

lemma Mono_used_arrows (s : Importer) (l : List String) :
    Mono s { s with used_arrows := l } :=
  Mono.mk' rfl rfl rfl rfl rfl (fun _ h => h) (fun _ h => h) (fun _ h => h)
    (fun _ h => h) (fun _ h => h) (fun _ h => h) (fun _ h => h) (fun _ h => h)
    (fun _ h => h) id

lemma Mono_addUsedResources (s : Importer) (e : Entity) :
    Mono s (addUsedResources s e) := by
  unfold addUsedResources
  by_cases h1 : e.supportsStyle <;> by_cases h2 : e.supportsDimstyle <;>
    simp only [h1, h2, if_true, if_false]
  · exact ((Mono_used_layers ..).comp (Mono_used_linetypes ..)).comp
      ((Mono_used_styles ..).comp (Mono_used_dimstyles ..))
  · exact ((Mono_used_layers ..).comp (Mono_used_linetypes ..)).comp
      (Mono_used_styles ..)
  · exact ((Mono_used_layers ..).comp (Mono_used_linetypes ..)).comp
      (Mono_used_dimstyles ..)
  · exact (Mono_used_layers ..).comp (Mono_used_linetypes ..)

lemma Mono_addDimstyleResources (s : Importer) (d : Entity) :
    Mono s (addDimstyleResources s d) := by
  unfold addDimstyleResources
  exact ((((Mono_used_styles ..).comp (Mono_used_linetypes ..)).comp
    ((Mono_used_linetypes ..).comp (Mono_used_linetypes ..))).comp
    (((Mono_used_arrows ..).comp (Mono_used_arrows ..)).comp
      ((Mono_used_arrows ..).comp (Mono_used_arrows ..))))

lemma Mono_dbAdd (s : Importer) (e : Entity) :
    Mono s (dbAdd s e).1 :=
  Mono.mk' rfl rfl rfl rfl rfl (fun _ h => h) (fun _ h => h) (fun _ h => h)
    (fun _ h => h) (fun _ h => h) (fun _ h => h) (fun _ h => h) (fun _ h => h)
    (fun _ h => h) id

lemma Mono_dbSet (s : Importer) (i : Nat) (e : Entity) :
    Mono s (dbSet s i e) :=
  Mono.mk' rfl rfl rfl rfl rfl (fun _ h => h) (fun _ h => h) (fun _ h => h)
    (fun _ h => h) (fun _ h => h) (fun _ h => h) (fun _ h => h) (fun _ h => h)
    (fun _ h => h) (fun h => h)

lemma attachEntity_blockNames (s : Importer) (t : TargetRef) (id : Nat) :
    targetBlockNames (attachEntity s t id) = targetBlockNames s := by
  cases t with
  | modelspace => rfl
  | block n =>
    unfold attachEntity targetBlockNames
    simp only [List.map_map]
    apply List.map_congr_left
    intro p _
    by_cases h : p.1 = n <;> simp [h]

lemma Mono_attachEntity (s : Importer) (t : TargetRef) (i : Nat) :
    Mono s (attachEntity s t i) := by
  cases t with
  | modelspace =>
    exact Mono.mk' rfl rfl rfl rfl rfl (fun _ h => h) (fun _ h => h) (fun _ h => h)
      (fun _ h => h) (fun _ h => h) (fun _ h => h) (fun _ h => h) (fun _ h => h)
      (fun _ h => h) (fun h => h)
  | block n =>
    refine Mono.mk' rfl rfl rfl rfl rfl (fun _ h => h) (fun _ h => h) (fun _ h => h)
      (fun _ h => h) (fun _ h => h) (fun _ h => h) (fun _ h => h) (fun _ h => h)
      ?_ ?_ <;> rw [attachEntity_blockNames s (.block n) i]
    · exact fun _ h => h
    · exact fun h => h

lemma Mono_queue (s : Importer) (q : List Nat) :
    Mono s { s with imported_inserts := q } :=
  Mono.mk' rfl rfl rfl rfl rfl (fun _ h => h) (fun _ h => h) (fun _ h => h)
    (fun _ h => h) (fun _ h => h) (fun _ h => h) (fun _ h => h) (fun _ h => h)
    (fun _ h => h) id

lemma Mono_memo (s : Importer) (m : List (String × String)) :
    Mono s { s with imported_blocks := m } :=
  Mono.mk' rfl rfl rfl rfl rfl (fun _ h => h) (fun _ h => h) (fun _ h => h)
    (fun _ h => h) (fun _ h => h) (fun _ h => h) (fun _ h => h) (fun _ h => h)
    (fun _ h => h) id

lemma Mono_newBlock (s : Importer) (n : String)
    (hn : n = get_new_block_name n (targetBlockNames s) ∨ n ∉ targetBlockNames s) :
    Mono s { s with targetBlocks := s.targetBlocks ++ [(n, [])],
                    blockImports := s.blockImports + 1 } := by
  have hnm : n ∉ targetBlockNames s := by
    cases hn with
    | inl h => rw [h]; exact get_new_block_name_not_mem n (targetBlockNames s)
    | inr h => exact h
  refine Mono.mk' rfl rfl rfl rfl rfl (fun _ h => h) (fun _ h => h) (fun _ h => h)
    (fun _ h => h) (fun _ h => h) (fun _ h => h) (fun _ h => h) (fun _ h => h)
    ?_ ?_
  · intro x hx
    show x ∈ targetBlockNames { s with targetBlocks := s.targetBlocks ++ [(n, [])], blockImports := s.blockImports + 1 }
    unfold targetBlockNames
    simp only [List.map_append]
    exact List.mem_append_left _ hx
  · intro hnd
    show (targetBlockNames { s with targetBlocks := s.targetBlocks ++ [(n, [])], blockImports := s.blockImports + 1 }).Nodup
    unfold targetBlockNames at hnd ⊢
    simp only [List.map_append, List.map_cons, List.map_nil]
    rw [List.nodup_append]
    refine ⟨hnd, List.nodup_singleton n, ?_⟩
    intro a ha hb
    rw [List.mem_singleton] at hb
    subst hb
    exact hnm ha

lemma Mono_acquire_arrow (s : Importer) (n : String) :
    Mono s (acquire_arrow s n) := by
  unfold acquire_arrow
  split
  · exact Mono.refl s
  · next hmem =>
    refine Mono.mk' rfl rfl rfl rfl rfl (fun _ h => h) (fun _ h => h) (fun _ h => h)
      (fun _ h => h) (fun _ h => h) (fun _ h => h) (fun _ h => h) (fun _ h => h)
      ?_ ?_
    · intro x hx
      show x ∈ targetBlockNames { s with targetBlocks := s.targetBlocks ++ [(n, [])] }
      unfold targetBlockNames
      simp only [List.map_append]
      exact List.mem_append_left _ hx
    · intro hnd
      show (targetBlockNames { s with targetBlocks := s.targetBlocks ++ [(n, [])] }).Nodup
      unfold targetBlockNames at hnd hmem ⊢
      simp only [List.map_append, List.map_cons, List.map_nil]
      rw [List.nodup_append]
      refine ⟨hnd, List.nodup_singleton n, ?_⟩
      intro a ha hb
      rw [List.mem_singleton] at hb
      subst hb
      exact hmem ha

lemma Mono_importArrowBlocksCore (ib : BlockImportF) (hib : MonoF ib) :
    ∀ (fuel : Nat) (s : Importer) (i : Nat),
      Mono s (importArrowBlocksCore ib fuel s i).1 := by
  intro fuel
  induction fuel with
  | zero =>
    intro s i
    unfold importArrowBlocksCore
    split <;> exact Mono.refl s
  | succ fuel ih =>
    intro s i
    unfold importArrowBlocksCore
    split
    · exact Mono.refl s
    · next id heq =>
      split
      · next s' u heq2 =>
        have hM : Mono s s' := by
          have := hib s (qname s id) false
          rw [heq2] at this
          exact this
        exact hM.comp (ih s' (i + 1))
      · next s' m heq2 =>
        have hM : Mono s s' := by
          have := hib s (qname s id) false
          rw [heq2] at this
          exact this
        exact hM
      · next s' heq2 =>
        have hM : Mono s s' := by
          have := hib s (qname s id) false
          rw [heq2] at this
          exact this
        exact hM

lemma Mono_importDimensionCore (ib : BlockImportF) (hib : MonoF ib)
    (afuel : Nat) (s : Importer) (i : Nat) :
    Mono s (importDimensionCore ib afuel s i).1 := by
  unfold importDimensionCore
  split
  · exact Mono.refl s
  · next dim heq =>
    split
    · exact Mono.refl s
    · split
      · split
        · next s' newName heq2 =>
          have hM1 : Mono { s with imported_inserts := [] } s' := by
            have := hib { s with imported_inserts := [] } (dim.geometry.getD "") true
            rw [heq2] at this
            exact this
          split
          · next s'' u heq3 =>
            have hM3 : Mono (dbSet s' i { dim with geometry := some newName }) s'' := by
              have := Mono_importArrowBlocksCore ib hib afuel
                (dbSet s' i { dim with geometry := some newName }) 0
              rw [heq3] at this
              exact this
            exact (((Mono_queue s []).comp hM1).comp
              ((Mono_dbSet ..).comp hM3)).comp (Mono_queue s'' s.imported_inserts)
          · next s'' m heq3 =>
            have hM3 : Mono (dbSet s' i { dim with geometry := some newName }) s'' := by
              have := Mono_importArrowBlocksCore ib hib afuel
                (dbSet s' i { dim with geometry := some newName }) 0
              rw [heq3] at this
              exact this
            exact ((Mono_queue s []).comp hM1).comp ((Mono_dbSet ..).comp hM3)
          · next s'' heq3 =>
            have hM3 : Mono (dbSet s' i { dim with geometry := some newName }) s'' := by
              have := Mono_importArrowBlocksCore ib hib afuel
                (dbSet s' i { dim with geometry := some newName }) 0
              rw [heq3] at this
              exact this
            exact ((Mono_queue s []).comp hM1).comp ((Mono_dbSet ..).comp hM3)
        · next s' m heq2 =>
          have hM1 : Mono { s with imported_inserts := [] } s' := by
            have := hib { s with imported_inserts := [] } (dim.geometry.getD "") true
            rw [heq2] at this
            exact this
          exact (Mono_queue s []).comp hM1
        · next s' heq2 =>
          have hM1 : Mono { s with imported_inserts := [] } s' := by
            have := hib { s with imported_inserts := [] } (dim.geometry.getD "") true
            rw [heq2] at this
            exact this
          exact (Mono_queue s []).comp hM1
      · exact Mono.refl s

lemma Mono_importEntityDispatch (ib : BlockImportF) (hib : MonoF ib)
    (afuel : Nat) (s : Importer) (dxftype : String) (hnd : Nat) :
    Mono s (importEntityDispatch ib afuel s dxftype hnd).1 := by
  unfold importEntityDispatch
  by_cases hI : dxftype = "INSERT"
  · rw [if_pos hI]; exact Mono_queue ..
  · rw [if_neg hI]
    by_cases hD : dxftype = "DIMENSION"
    · rw [if_pos hD]; exact Mono_importDimensionCore ib hib afuel s hnd
    · rw [if_neg hD]; exact Mono.refl s

lemma Mono_importEntityCore (ib : BlockImportF) (hib : MonoF ib) (afuel : Nat)
    (s : Importer) (e : Entity) (tgt : TargetRef) :
    Mono s (importEntityCore ib afuel s e tgt).1 := by
  unfold importEntityCore
  by_cases h1 : e.dxftype ∈ IMPORT_ENTITIES
  · rw [if_pos h1]
    split
    · exact Mono_addUsedResources s e
    · exact (Mono_addUsedResources s e).comp ((Mono_dbAdd ..).comp
        ((Mono_attachEntity ..).comp (Mono_importEntityDispatch ib hib afuel _ _ _)))
  · rw [if_neg h1]; exact Mono.refl s

lemma Mono_importEntitiesCore (ib : BlockImportF) (hib : MonoF ib) (afuel : Nat) :
    ∀ (es : List Entity) (s : Importer) (tgt : TargetRef),
      Mono s (importEntitiesCore ib afuel s es tgt).1 := by
  intro es
  induction es with
  | nil => intro s tgt; exact Mono.refl s
  | cons e rest ih =>
    intro s tgt
    unfold importEntitiesCore
    split
    · next s' u heq =>
      have hM : Mono s s' := by
        have := Mono_importEntityCore ib hib afuel s e tgt
        rw [heq] at this
        exact this
      exact hM.comp (ih s' tgt)
    · next s' m heq =>
      have hM : Mono s s' := by
        have := Mono_importEntityCore ib hib afuel s e tgt
        rw [heq] at this
        exact this
      exact hM
    · next s' heq =>
      have hM : Mono s s' := by
        have := Mono_importEntityCore ib hib afuel s e tgt
        rw [heq] at this
        exact this
      exact hM

lemma Mono_importBlockCore (ib : BlockImportF) (hib : MonoF ib) (afuel : Nat)
    (s : Importer) (n : String) (rename : Bool) :
    Mono s (importBlockCore ib afuel s n rename).1 := by
  cases hm : memoLookup s n with
  | some r =>
    rw [importBlockCore_memo_hit ib afuel s n rename r hm]
    exact Mono.refl s
  | none =>
    cases hf : s.sourceBlocks.find? (fun p => p.1 = n) with
    | none =>
      rw [importBlockCore_not_found ib afuel s n rename hm hf]
      exact Mono.refl s
    | some pr =>
      by_cases hc : n ∈ targetBlockNames s ∧ rename = false
      · obtain ⟨hc1, hc2⟩ := hc
        subst hc2
        rw [importBlockCore_identity ib afuel s n pr hm hf hc1]
        exact Mono_memo ..
      · rw [importBlockCore_import ib afuel s n pr rename _ hm hf hc rfl]
        have hM0 : Mono s { s with targetBlocks := s.targetBlocks ++ [(get_new_block_name n (targetBlockNames s), [])], blockImports := s.blockImports + 1 } :=
          Mono_newBlock s _ (Or.inr (get_new_block_name_not_mem n (targetBlockNames s)))
        split
        · next s' u heq3 =>
          have hM1 : Mono { s with targetBlocks := s.targetBlocks ++ [(get_new_block_name n (targetBlockNames s), [])], blockImports := s.blockImports + 1 } s' := by
            have := Mono_importEntitiesCore ib hib afuel pr.2
              { s with targetBlocks := s.targetBlocks ++ [(get_new_block_name n (targetBlockNames s), [])], blockImports := s.blockImports + 1 }
              (.block (get_new_block_name n (targetBlockNames s)))
            rw [heq3] at this
            exact this
          exact (hM0.comp hM1).comp (Mono_memo ..)
        · next s' m heq3 =>
          have hM1 : Mono { s with targetBlocks := s.targetBlocks ++ [(get_new_block_name n (targetBlockNames s), [])], blockImports := s.blockImports + 1 } s' := by
            have := Mono_importEntitiesCore ib hib afuel pr.2
              { s with targetBlocks := s.targetBlocks ++ [(get_new_block_name n (targetBlockNames s), [])], blockImports := s.blockImports + 1 }
              (.block (get_new_block_name n (targetBlockNames s)))
            rw [heq3] at this
            exact this
          exact hM0.comp hM1
        · next s' heq3 =>
          have hM1 : Mono { s with targetBlocks := s.targetBlocks ++ [(get_new_block_name n (targetBlockNames s), [])], blockImports := s.blockImports + 1 } s' := by
            have := Mono_importEntitiesCore ib hib afuel pr.2
              { s with targetBlocks := s.targetBlocks ++ [(get_new_block_name n (targetBlockNames s), [])], blockImports := s.blockImports + 1 }
              (.block (get_new_block_name n (targetBlockNames s)))
            rw [heq3] at this
            exact this
          exact hM0.comp hM1

lemma Mono_importBlockFuel : ∀ (f : Nat), MonoF (importBlockFuel f) := by
  intro f
  induction f with
  | zero => intro s n r; exact Mono.refl s
  | succ f ih =>
    intro s n r
    rw [importBlockFuel_succ]
    exact Mono_importBlockCore (importBlockFuel f) ih f s n r

lemma Mono_resolveStep (ib : BlockImportF) (hib : MonoF ib) :
    ∀ (snapshot : List Nat) (s : Importer),
      Mono s (resolveStep ib s snapshot).1 := by
  intro snapshot
  induction snapshot with
  | nil => intro s; exact Mono.refl s
  | cons id rest ih =>
    intro s
    unfold resolveStep
    split
    · next s' newName heq =>
      have hM : Mono s s' := by
        have := hib s (qname s id) true
        rw [heq] at this
        exact this
      split
      · exact (hM.comp (Mono_dbSet ..)).comp (ih _)
      · exact hM.comp (ih _)
    · next s' m heq =>
      have hM : Mono s s' := by
        have := hib s (qname s id) true
        rw [heq] at this
        exact this
      exact hM
    · next s' heq =>
      have hM : Mono s s' := by
        have := hib s (qname s id) true
        rw [heq] at this
        exact this
      exact hM

lemma Mono_resolveInsertsFuel (entFuel : Nat) :
    ∀ (loopFuel : Nat) (s : Importer),
      Mono s (resolveInsertsFuel entFuel loopFuel s).1 := by
  intro loopFuel
  induction loopFuel with
  | zero =>
    intro s
    unfold resolveInsertsFuel
    split <;> exact Mono.refl s
  | succ loopFuel ih =>
    intro s
    unfold resolveInsertsFuel
    split
    · exact Mono.refl s
    · split
      · next s' u heq =>
        have hM : Mono { s with imported_inserts := [] } s' := by
          have := Mono_resolveStep (importBlockFuel entFuel)
            (Mono_importBlockFuel entFuel) s.imported_inserts
            { s with imported_inserts := [] }
          rw [heq] at this
          exact this
        exact ((Mono_queue s []).comp hM).comp (ih s')
      · next s' m heq =>
        have hM : Mono { s with imported_inserts := [] } s' := by
          have := Mono_resolveStep (importBlockFuel entFuel)
            (Mono_importBlockFuel entFuel) s.imported_inserts
            { s with imported_inserts := [] }
          rw [heq] at this
          exact this
        exact (Mono_queue s []).comp hM
      · next s' heq =>
        have hM : Mono { s with imported_inserts := [] } s' := by
          have := Mono_resolveStep (importBlockFuel entFuel)
            (Mono_importBlockFuel entFuel) s.imported_inserts
            { s with imported_inserts := [] }
          rw [heq] at this
          exact this
        exact (Mono_queue s []).comp hM

lemma importEntityCore_clone (ib : BlockImportF) (afuel : Nat) (s : Importer)
    (e : Entity) (tgt : TargetRef)
    (h1 : e.dxftype ∈ IMPORT_ENTITIES) (h2 : e.cloneable = true) :
    importEntityCore ib afuel s e tgt =
      importEntityDispatch ib afuel
        (attachEntity (dbAdd (addUsedResources s e) (cleanedClone e)).1 tgt
          (dbAdd (addUsedResources s e) (cleanedClone e)).2)
        e.dxftype (dbAdd (addUsedResources s e) (cleanedClone e)).2 := by
  unfold importEntityCore
  rw [if_pos h1]
  have hn : new_clean_entity e false =
      some (remove_dependencies { e with doc := none } false) := by
    unfold new_clean_entity; rw [if_pos h2]
  rw [hn]
  exact rfl

/-! ### Monotonicity of table import, arrow creation and finalize -/

lemma set_table_entry_name (s : Importer) (e : Entity) :
    (set_table_entry_dxf_attribs s e).name = e.name := by
  unfold set_table_entry_dxf_attribs setMaterialDefault setPlotstyleDefault
  split <;> split <;> rfl

lemma map_name_replace (l : List Entity) (entry_name : String) (mutated : Entity)
    (h : mutated.name = entry_name) :
    (l.map (fun x => if x.name = entry_name then mutated else x)).map (·.name)
      = l.map (·.name) := by
  rw [List.map_map]
  apply List.map_congr_left
  intro x _
  by_cases hx : x.name = entry_name
  · simp [hx, h]
  · simp [hx]

lemma Mono_replaceSourceEntry (s : Importer) (kind : String) (entry_name : String)
    (mutated : Entity) (h : mutated.name = entry_name) :
    Mono s (replaceSourceEntry s kind entry_name mutated) := by
  unfold replaceSourceEntry setSourceTable
  split_ifs with h1 h2 h3 h4
  · subst h1
    exact Mono.mk' rfl (map_name_replace _ _ _ h) rfl rfl rfl (fun _ h => h)
      (fun _ h => h) (fun _ h => h) (fun _ h => h) (fun _ h => h) (fun _ h => h)
      (fun _ h => h) (fun _ h => h) (fun _ h => h) (fun h => h)
  · subst h2
    exact Mono.mk' rfl rfl (map_name_replace _ _ _ h) rfl rfl (fun _ h => h)
      (fun _ h => h) (fun _ h => h) (fun _ h => h) (fun _ h => h) (fun _ h => h)
      (fun _ h => h) (fun _ h => h) (fun _ h => h) (fun h => h)
  · subst h3
    exact Mono.mk' rfl rfl rfl (map_name_replace _ _ _ h) rfl (fun _ h => h)
      (fun _ h => h) (fun _ h => h) (fun _ h => h) (fun _ h => h) (fun _ h => h)
      (fun _ h => h) (fun _ h => h) (fun _ h => h) (fun h => h)
  · subst h4
    exact Mono.mk' rfl rfl rfl rfl (map_name_replace _ _ _ h) (fun _ h => h)
      (fun _ h => h) (fun _ h => h) (fun _ h => h) (fun _ h => h) (fun _ h => h)
      (fun _ h => h) (fun _ h => h) (fun _ h => h) (fun h => h)
  · exact Mono.refl s

lemma Mono_appendTargetTable (s : Importer) (kind : String) (ne : Entity) :
    Mono s (setTargetTable s kind (getTargetTable s kind ++ [ne])) := by
  unfold setTargetTable getTargetTable
  split_ifs with h1 h2 h3 h4
  · exact Mono.mk' rfl rfl rfl rfl rfl
      (fun n hn => by simp only [List.map_append]; exact List.mem_append_left _ hn)
      (fun _ h => h) (fun _ h => h) (fun _ h => h) (fun _ h => h) (fun _ h => h)
      (fun _ h => h) (fun _ h => h) (fun _ h => h) (fun h => h)
  · exact Mono.mk' rfl rfl rfl rfl rfl (fun _ h => h)
      (fun n hn => by simp only [List.map_append]; exact List.mem_append_left _ hn)
      (fun _ h => h) (fun _ h => h) (fun _ h => h) (fun _ h => h)
      (fun _ h => h) (fun _ h => h) (fun _ h => h) (fun h => h)
  · exact Mono.mk' rfl rfl rfl rfl rfl (fun _ h => h) (fun _ h => h)
      (fun n hn => by simp only [List.map_append]; exact List.mem_append_left _ hn)
      (fun _ h => h) (fun _ h => h) (fun _ h => h)
      (fun _ h => h) (fun _ h => h) (fun _ h => h) (fun h => h)
  · exact Mono.mk' rfl rfl rfl rfl rfl (fun _ h => h) (fun _ h => h) (fun _ h => h)
      (fun n hn => by simp only [List.map_append]; exact List.mem_append_left _ hn)
      (fun _ h => h) (fun _ h => h)
      (fun _ h => h) (fun _ h => h) (fun _ h => h) (fun h => h)
  · exact Mono.refl s

lemma Mono_addTableResources (s : Importer) (kind : String) (te : Entity) :
    Mono s (addTableResources s kind te) := by
  unfold addTableResources
  split_ifs with h1 h2
  · exact Mono_used_linetypes ..
  · exact Mono_addDimstyleResources ..
  · exact Mono.refl s

lemma Mono_duplicateTableEntry (s : Importer) (kind : String) (te : Entity) :
    Mono s (duplicateTableEntry s kind te).1 := by
  unfold duplicateTableEntry
  split
  · exact Mono.refl s
  · next ne heq =>
    exact ((Mono_replaceSourceEntry s kind te.name
        (set_table_entry_dxf_attribs s te) (set_table_entry_name s te)).comp
      (Mono_dbAdd ..)).comp (Mono_appendTargetTable ..)

lemma Mono_importTableEntry (s : Importer) (kind : String) (n : String) :
    Mono s (importTableEntry s kind false n).1 := by
  unfold importTableEntry
  split
  · exact Mono.refl s
  · next te heq =>
    split
    · exact Mono.refl s
    · next hcond =>
      have hmem : te.name ∉ targetTableNames s kind := fun h => hcond ⟨h, rfl⟩
      rw [if_neg hmem]
      exact (Mono_addTableResources ..).comp (Mono_duplicateTableEntry ..)

lemma Mono_importTableEntries (kind : String) :
    ∀ (entries : List String) (s : Importer),
      Mono s (importTableEntries s kind false entries).1 := by
  intro entries
  induction entries with
  | nil => intro s; exact Mono.refl s
  | cons n rest ih =>
    intro s
    unfold importTableEntries
    split
    · next s' u heq =>
      have hM : Mono s s' := by
        have := Mono_importTableEntry s kind n
        rw [heq] at this
        exact this
      exact hM.comp (ih s')
    · next s' m heq =>
      have hM : Mono s s' := by
        have := Mono_importTableEntry s kind n
        rw [heq] at this
        exact this
      exact hM
    · next s' heq =>
      have hM : Mono s s' := by
        have := Mono_importTableEntry s kind n
        rw [heq] at this
        exact this
      exact hM

lemma Mono_importTable (s : Importer) (kind : String) (entries : List String) :
    Mono s (importTable s kind entries false).1 := by
  unfold importTable
  split
  · exact Mono_importTableEntries kind entries s
  · exact Mono.refl s

lemma Mono_createMissingArrowsLoop (ib : BlockImportF) (hib : MonoF ib)
    (isAcad : String → Bool) :
    ∀ (arrows : List String) (s : Importer),
      Mono s (createMissingArrowsLoop ib isAcad s arrows).1 := by
  intro arrows
  induction arrows with
  | nil => intro s; exact Mono.refl s
  | cons a rest ih =>
    intro s
    unfold createMissingArrowsLoop
    split
    · exact (Mono_acquire_arrow s a).comp (ih _)
    · split
      · next s' u heq =>
        have hM : Mono s s' := by
          have := hib s a false
          rw [heq] at this
          exact this
        exact hM.comp (ih s')
      · next s' m heq =>
        have hM : Mono s s' := by
          have := hib s a false
          rw [heq] at this
          exact this
        exact hM
      · next s' heq =>
        have hM : Mono s s' := by
          have := hib s a false
          rw [heq] at this
          exact this
        exact hM

lemma Mono_createMissingArrows (isAcad : String → Bool) (entFuel : Nat)
    (s : Importer) : Mono s (createMissingArrows isAcad entFuel s).1 := by
  unfold createMissingArrows
  exact (Mono_used_arrows ..).comp
    (Mono_createMissingArrowsLoop (importBlockFuel entFuel)
      (Mono_importBlockFuel entFuel) isAcad _ _)

lemma Mono_seqU {s : Importer} (r : Importer × Res Unit)
    (f : Importer → Importer × Res Unit)
    (h1 : Mono s r.1) (h2 : ∀ t, Mono t (f t).1) : Mono s (seqU r f).1 := by
  unfold seqU
  split
  · next s1 u => exact h1.comp (h2 s1)
  all_goals exact h1

lemma Mono_importRequiredTableEntries (s : Importer) :
    Mono s (importRequiredTableEntries s).1 := by
  unfold importRequiredTableEntries
  apply Mono_seqU
  · split
    · exact Mono.refl s
    · exact Mono_importTable ..
  · intro t
    apply Mono_seqU
    · split
      · exact Mono.refl t
      · exact Mono_importTable ..
    · intro t2
      apply Mono_seqU
      · split
        · exact Mono.refl t2
        · exact Mono_importTable ..
      · intro t3
        split
        · exact Mono.refl t3
        · exact Mono_importTable ..

lemma Mono_finalize (isAcad : String → Bool) (entFuel loopFuel : Nat)
    (s : Importer) : Mono s (finalize isAcad entFuel loopFuel s).1 := by
  unfold finalize
  apply Mono_seqU
  · exact Mono_resolveInsertsFuel entFuel loopFuel s
  · intro t
    apply Mono_seqU
    · exact Mono_importRequiredTableEntries t
    · intro t2
      exact Mono_createMissingArrows isAcad entFuel t2

lemma Mono_runOp (s : Importer) (op : Op) : Mono s (runOp s op) := by
  cases op with
  | entity e tgt fuel =>
    exact Mono_importEntityCore (importBlockFuel fuel) (Mono_importBlockFuel fuel)
      fuel s e tgt
  | table kind entries => exact Mono_importTable s kind entries
  | block name rename fuel => exact Mono_importBlockFuel fuel s name rename

lemma Mono_runOps : ∀ (ops : List Op) (s : Importer), Mono s (runOps s ops) := by
  intro ops
  induction ops with
  | nil => intro s; exact Mono.refl s
  | cons op rest ih =>
    intro s
    exact (Mono_runOp s op).comp (ih (runOp s op))

/-! ### Finalize materializes collected table requirements -/

lemma new_clean_entity_name (e : Entity) (b : Bool) (ne : Entity)
    (h : new_clean_entity e b = some ne) : ne.name = e.name := by
  unfold new_clean_entity at h
  split at h
  · have h2 := Option.some_injective _ h
    subst h2
    unfold remove_dependencies
    split <;> rfl
  · exact absurd h (by simp)

lemma mem_names_find? (l : List Entity) (n : String) (h : n ∈ l.map (·.name)) :
    ∃ x, l.find? (fun x => x.name = n) = some x := by
  obtain ⟨x, hx, hxn⟩ := List.mem_map.1 h
  have hs : (l.find? (fun x => x.name = n)).isSome := by
    rw [List.find?_isSome]
    exact ⟨x, hx, by simp [hxn]⟩
  exact Option.isSome_iff_exists.mp hs

lemma targetTableNames_addTableResources (s : Importer) (kind : String)
    (te : Entity) (k : String) :
    targetTableNames (addTableResources s kind te) k = targetTableNames s k := by
  unfold addTableResources
  split_ifs <;> rfl

lemma targetTableNames_replaceSourceEntry (s : Importer) (kind n : String)
    (m : Entity) (k : String) :
    targetTableNames (replaceSourceEntry s kind n m) k = targetTableNames s k := by
  unfold replaceSourceEntry setSourceTable
  split_ifs <;> rfl

lemma targetTableNames_setTargetTable_append (s : Importer) (kind : String)
    (hk : kind ∈ IMPORT_TABLES) (ne : Entity) :
    targetTableNames (setTargetTable s kind (getTargetTable s kind ++ [ne])) kind
      = targetTableNames s kind ++ [ne.name] := by
  simp only [IMPORT_TABLES, List.mem_cons, List.not_mem_nil, or_false] at hk
  rcases hk with rfl | rfl | rfl | rfl <;>
    simp [targetTableNames, setTargetTable, getTargetTable]

lemma importTableEntry_not_found (s : Importer) (kind : String) (rep : Bool)
    (n : String)
    (h : (getSourceTable s kind).find? (fun x => x.name = n) = none) :
    importTableEntry s kind rep n = (s, .ok ()) := by
  unfold importTableEntry; rw [h]

lemma importTableEntry_skip (s : Importer) (kind n : String) (te : Entity)
    (h : (getSourceTable s kind).find? (fun x => x.name = n) = some te)
    (hmem : te.name ∈ targetTableNames s kind) :
    importTableEntry s kind false n = (s, .ok ()) := by
  unfold importTableEntry
  rw [h]
  exact if_pos ⟨hmem, rfl⟩

lemma importTableEntry_import (s : Importer) (kind n : String) (te : Entity)
    (h : (getSourceTable s kind).find? (fun x => x.name = n) = some te)
    (hmem : te.name ∉ targetTableNames s kind) :
    importTableEntry s kind false n =
      duplicateTableEntry (addTableResources s kind te) kind te := by
  unfold importTableEntry
  simp only [h]
  rw [if_neg (fun hc => hmem hc.1), if_neg hmem]

lemma duplicateTableEntry_ok_mem (s : Importer) (kind : String) (te : Entity)
    (hk : kind ∈ IMPORT_TABLES)
    (hok : (duplicateTableEntry s kind te).2 = .ok ()) :
    te.name ∈ targetTableNames (duplicateTableEntry s kind te).1 kind := by
  unfold duplicateTableEntry at hok ⊢
  cases hn : new_clean_entity te false with
  | none => rw [hn] at hok; exact absurd hok (by simp)
  | some ne =>
    simp only [hn]
    rw [targetTableNames_setTargetTable_append _ kind hk ne,
        new_clean_entity_name te false ne hn]
    exact List.mem_append_right _ (by simp)

lemma importTableEntry_mem (s : Importer) (kind : String) (n : String)
    (hk : kind ∈ IMPORT_TABLES)
    (hin : n ∈ sourceTableNames s kind ∨ n ∈ targetTableNames s kind)
    (hok : (importTableEntry s kind false n).2 = .ok ()) :
    n ∈ targetTableNames (importTableEntry s kind false n).1 kind := by
  cases hf : (getSourceTable s kind).find? (fun x => x.name = n) with
  | none =>
    rw [importTableEntry_not_found s kind false n hf]
    rcases hin with hsrc | htgt
    · exfalso
      obtain ⟨x, hx⟩ := mem_names_find? (getSourceTable s kind) n hsrc
      rw [hf] at hx
      exact Option.noConfusion hx
    · exact htgt
  | some te =>
    have hte : te.name = n := by
      have := List.find?_some hf
      simpa using this
    by_cases hmem : te.name ∈ targetTableNames s kind
    · rw [importTableEntry_skip s kind n te hf hmem]
      rw [← hte]
      exact hmem
    · rw [importTableEntry_import s kind n te hf hmem]
      rw [importTableEntry_import s kind n te hf hmem] at hok
      have := duplicateTableEntry_ok_mem (addTableResources s kind te) kind te hk hok
      rw [hte] at this
      exact this

lemma importTableEntries_mem (kind : String) (hk : kind ∈ IMPORT_TABLES) :
    ∀ (entries : List String) (s : Importer) (n : String),
      n ∈ entries →
      (n ∈ sourceTableNames s kind ∨ n ∈ targetTableNames s kind) →
      (importTableEntries s kind false entries).2 = .ok () →
      n ∈ targetTableNames (importTableEntries s kind false entries).1 kind := by
  intro entries
  induction entries with
  | nil => intro s n hn _ _; exact absurd hn (List.not_mem_nil n)
  | cons m rest ih =>
    intro s n hn hin hok
    unfold importTableEntries at hok ⊢
    cases hs : importTableEntry s kind false m with
    | mk s1 r1 =>
      simp only [hs] at hok ⊢
      cases r1 with
      | ok u =>
        by_cases hnm : n = m
        · subst hnm
          have hok1 : (importTableEntry s kind false n).2 = .ok () := by
            rw [hs]
          have h1 := importTableEntry_mem s kind n hk hin hok1
          rw [hs] at h1
          have hMono := Mono_importTableEntries kind rest s1
          exact hMono.tgtTables kind n h1
        · have hM : Mono s s1 := by
            have := Mono_importTableEntry s kind m
            rw [hs] at this
            exact this
          have hin1 : n ∈ sourceTableNames s1 kind ∨ n ∈ targetTableNames s1 kind := by
            rcases hin with h | h
            · left; rw [hM.srcTables kind]; exact h
            · right; exact hM.tgtTables kind n h
          rcases List.mem_cons.1 hn with rfl | hrest
          · exact absurd rfl hnm
          · exact ih s1 n hrest hin1 hok
      | err m2 => exact absurd hok (by simp)
      | fuelOut => exact absurd hok (by simp)

lemma importTable_mem (s : Importer) (kind : String) (entries : List String)
    (n : String) (hk : kind ∈ IMPORT_TABLES) (hn : n ∈ entries)
    (hin : n ∈ sourceTableNames s kind ∨ n ∈ targetTableNames s kind)
    (hok : (importTable s kind entries false).2 = .ok ()) :
    n ∈ targetTableNames (importTable s kind entries false).1 kind := by
  unfold importTable at hok ⊢
  rw [if_pos hk] at hok ⊢
  exact importTableEntries_mem kind hk entries s n hn hin hok

lemma seqU_ok (r : Importer × Res Unit) (f : Importer → Importer × Res Unit)
    (h : (seqU r f).2 = .ok ()) : r.2 = .ok () ∧ seqU r f = f r.1 := by
  cases r with
  | mk a b =>
    cases b with
    | ok u => exact ⟨rfl, rfl⟩
    | err m => exact absurd h (by simp [seqU])
    | fuelOut => exact absurd h (by simp [seqU])

lemma Mono.usedOfMem {s s' : Importer} (h : Mono s s') (kind : String) :
    ∀ n ∈ usedOf s kind, n ∈ usedOf s' kind := by
  intro n hn
  unfold usedOf at hn ⊢
  split_ifs at hn ⊢ with h1 h2 h3 h4
  · exact h.usedL n hn
  · exact h.usedLt n hn
  · exact h.usedS n hn
  · exact h.usedD n hn
  · exact absurd hn (List.not_mem_nil n)

lemma Mono.inTransport {s s' : Importer} (h : Mono s s') (kind n : String) :
    n ∈ sourceTableNames s kind ∨ n ∈ targetTableNames s kind →
    n ∈ sourceTableNames s' kind ∨ n ∈ targetTableNames s' kind := by
  rintro (hs | ht)
  · left; rw [h.srcTables kind]; exact hs
  · right; exact h.tgtTables kind n ht

lemma importRequiredTableEntries_eq (s : Importer) :
    importRequiredTableEntries s =
      seqU (tableStage s "dimstyles") (fun s =>
      seqU (tableStage s "layers") (fun s =>
      seqU (tableStage s "linetypes") (fun s =>
      tableStage s "styles"))) := rfl

lemma Mono_tableStage (s : Importer) (kind : String) :
    Mono s (tableStage s kind).1 := by
  unfold tableStage
  split
  · exact Mono.refl s
  · exact Mono_importTable ..

lemma tableStage_mem (s : Importer) (kind : String) (hk : kind ∈ IMPORT_TABLES)
    (n : String) (hused : n ∈ usedOf s kind)
    (hin : n ∈ sourceTableNames s kind ∨ n ∈ targetTableNames s kind)
    (hok : (tableStage s kind).2 = .ok ()) :
    n ∈ targetTableNames (tableStage s kind).1 kind := by
  unfold tableStage at hok ⊢
  have hne : ¬ (usedOf s kind).isEmpty = true := by
    cases hu : usedOf s kind with
    | nil => rw [hu] at hused; exact absurd hused (List.not_mem_nil n)
    | cons a l => simp
  rw [if_neg hne] at hok ⊢
  exact importTable_mem s kind (usedOf s kind) n hk hused hin hok

lemma importRequiredTableEntries_mem (s : Importer) (kind : String)
    (hk : kind ∈ IMPORT_TABLES) (n : String)
    (hused : n ∈ usedOf s kind)
    (hin : n ∈ sourceTableNames s kind ∨ n ∈ targetTableNames s kind)
    (hok : (importRequiredTableEntries s).2 = .ok ()) :
    n ∈ targetTableNames (importRequiredTableEntries s).1 kind := by
  rw [importRequiredTableEntries_eq] at hok ⊢
  obtain ⟨h1, he1⟩ := seqU_ok _ _ hok
  rw [he1] at hok ⊢
  obtain ⟨h2, he2⟩ := seqU_ok _ _ hok
  rw [he2] at hok ⊢
  obtain ⟨h3, he3⟩ := seqU_ok _ _ hok
  rw [he3] at hok ⊢
  have MA := Mono_tableStage s "dimstyles"
  have MB := Mono_tableStage (tableStage s "dimstyles").1 "layers"
  have MC := Mono_tableStage
    (tableStage (tableStage s "dimstyles").1 "layers").1 "linetypes"
  have MD := Mono_tableStage
    (tableStage (tableStage (tableStage s "dimstyles").1 "layers").1 "linetypes").1
    "styles"
  simp only [IMPORT_TABLES, List.mem_cons, List.not_mem_nil, or_false] at hk
  rcases hk with rfl | rfl | rfl | rfl
  · have hu := (MA.comp MB).usedOfMem "linetypes" n hused
    have hi := (MA.comp MB).inTransport "linetypes" n hin
    have hmem := tableStage_mem _ "linetypes" (by simp [IMPORT_TABLES]) n hu hi h3
    exact MD.tgtTables "linetypes" n hmem
  · have hu := MA.usedOfMem "layers" n hused
    have hi := MA.inTransport "layers" n hin
    have hmem := tableStage_mem _ "layers" (by simp [IMPORT_TABLES]) n hu hi h2
    exact (MC.comp MD).tgtTables "layers" n hmem
  · have hu := ((MA.comp MB).comp MC).usedOfMem "styles" n hused
    have hi := ((MA.comp MB).comp MC).inTransport "styles" n hin
    exact tableStage_mem _ "styles" (by simp [IMPORT_TABLES]) n hu hi hok
  · have hmem := tableStage_mem s "dimstyles" (by simp [IMPORT_TABLES]) n hused hin h1
    exact ((MB.comp MC).comp MD).tgtTables "dimstyles" n hmem

lemma finalize_table_mem (isAcad : String → Bool) (ef lf : Nat) (s : Importer)
    (kind n : String) (hk : kind ∈ IMPORT_TABLES)
    (hused : n ∈ usedOf s kind)
    (hin : n ∈ sourceTableNames s kind ∨ n ∈ targetTableNames s kind)
    (hok : (finalize isAcad ef lf s).2 = .ok ()) :
    n ∈ targetTableNames (finalize isAcad ef lf s).1 kind := by
  unfold finalize at hok ⊢
  obtain ⟨h1, he1⟩ := seqU_ok _ _ hok
  rw [he1] at hok ⊢
  obtain ⟨h2, he2⟩ := seqU_ok _ _ hok
  rw [he2] at hok ⊢
  have MR := Mono_resolveInsertsFuel ef lf s
  have hu1 := MR.usedOfMem kind n hused
  have hi1 := MR.inTransport kind n hin
  have hmem := importRequiredTableEntries_mem _ kind hk n hu1 hi1 h2
  exact (Mono_createMissingArrows isAcad ef _).tgtTables kind n hmem

/-! ### C1 and C10: resource collection and finalize materialization -/

lemma addUsedResources_spec (s : Importer) (e : Entity) :
    (e.layer.getD "0") ∈ (addUsedResources s e).used_layers ∧
    (e.linetype.getD "BYLAYER") ∈ (addUsedResources s e).used_linetypes ∧
    (e.supportsStyle = true →
      (e.style.getD "Standard") ∈ (addUsedResources s e).used_styles) ∧
    (e.supportsDimstyle = true →
      (e.dimstyle.getD "Standard") ∈ (addUsedResources s e).used_dimstyles) := by
  unfold addUsedResources
  by_cases h1 : e.supportsStyle <;> by_cases h2 : e.supportsDimstyle <;>
    simp only [h1, h2, if_true, if_false]
  · exact ⟨self_mem_addUsed _ _, self_mem_addUsed _ _,
      fun _ => self_mem_addUsed _ _, fun _ => self_mem_addUsed _ _⟩
  · exact ⟨self_mem_addUsed _ _, self_mem_addUsed _ _,
      fun _ => self_mem_addUsed _ _, fun hh => absurd hh (by simp [h2])⟩
  · exact ⟨self_mem_addUsed _ _, self_mem_addUsed _ _,
      fun hh => absurd hh (by simp [h1]), fun _ => self_mem_addUsed _ _⟩
  · exact ⟨self_mem_addUsed _ _, self_mem_addUsed _ _,
      fun hh => absurd hh (by simp [h1]), fun hh => absurd hh (by simp [h2])⟩

lemma addUsedResources_frame (s : Importer) (e : Entity) :
    (addUsedResources s e).entitydb = s.entitydb ∧
    (addUsedResources s e).modelspaceEnts = s.modelspaceEnts ∧
    (addUsedResources s e).targetBlocks = s.targetBlocks ∧
    (addUsedResources s e).imported_inserts = s.imported_inserts := by
  unfold addUsedResources
  by_cases h1 : e.supportsStyle <;> by_cases h2 : e.supportsDimstyle <;>
    simp [h1, h2]

lemma importEntityF_used (fuel : Nat) (s : Importer) (e : Entity)
    (tgt : TargetRef) (hw : e.dxftype ∈ IMPORT_ENTITIES) :
    (e.layer.getD "0") ∈ (importEntityF fuel s e tgt).1.used_layers ∧
    (e.linetype.getD "BYLAYER") ∈ (importEntityF fuel s e tgt).1.used_linetypes ∧
    (e.supportsStyle = true →
      (e.style.getD "Standard") ∈ (importEntityF fuel s e tgt).1.used_styles) ∧
    (e.supportsDimstyle = true →
      (e.dimstyle.getD "Standard") ∈ (importEntityF fuel s e tgt).1.used_dimstyles) := by
  obtain ⟨hL, hLt, hS, hD⟩ := addUsedResources_spec s e
  have hMono : Mono (addUsedResources s e) (importEntityF fuel s e tgt).1 := by
    show Mono (addUsedResources s e)
      (importEntityCore (importBlockFuel fuel) fuel s e tgt).1
    unfold importEntityCore
    rw [if_pos hw]
    split
    · exact Mono.refl _
    · exact (Mono_dbAdd ..).comp ((Mono_attachEntity ..).comp
        (Mono_importEntityDispatch (importBlockFuel fuel)
          (Mono_importBlockFuel fuel) fuel _ _ _))
  exact ⟨hMono.usedL _ hL, hMono.usedLt _ hLt,
    fun hh => hMono.usedS _ (hS hh), fun hh => hMono.usedD _ (hD hh)⟩

/-- C1 amended: for an entity imported via `import_entity` whose layer,
line-type, style or dimension-style attribute names a resource, after any
further imports of the session and a `finalize()` call that returns, that
name exists in the corresponding target table, provided the name denotes an
entry present in the corresponding source table or already present in the
target table; a name found in neither table is skipped by `import_table`
with a logged warning and never materializes (see the counterexample). -/
theorem C1_imported_resources_materialized (s : Importer) (e : Entity)
    (tgt : TargetRef) (fuel : Nat) (ops : List Op) (isAcad : String → Bool)
    (ef lf : Nat)
    (hw : e.dxftype ∈ IMPORT_ENTITIES)
    (hok : (finalize isAcad ef lf
      (runOps (importEntityF fuel s e tgt).1 ops)).2 = .ok ()) :
    ((e.layer.getD "0" ∈ sourceTableNames s "layers" ∨
        e.layer.getD "0" ∈ targetTableNames s "layers") →
      e.layer.getD "0" ∈ targetTableNames
        (finalize isAcad ef lf (runOps (importEntityF fuel s e tgt).1 ops)).1
        "layers") ∧
    ((e.linetype.getD "BYLAYER" ∈ sourceTableNames s "linetypes" ∨
        e.linetype.getD "BYLAYER" ∈ targetTableNames s "linetypes") →
      e.linetype.getD "BYLAYER" ∈ targetTableNames
        (finalize isAcad ef lf (runOps (importEntityF fuel s e tgt).1 ops)).1
        "linetypes") ∧
    (e.supportsStyle = true →
      (e.style.getD "Standard" ∈ sourceTableNames s "styles" ∨
        e.style.getD "Standard" ∈ targetTableNames s "styles") →
      e.style.getD "Standard" ∈ targetTableNames
        (finalize isAcad ef lf (runOps (importEntityF fuel s e tgt).1 ops)).1
        "styles") ∧
    (e.supportsDimstyle = true →
      (e.dimstyle.getD "Standard" ∈ sourceTableNames s "dimstyles" ∨
        e.dimstyle.getD "Standard" ∈ targetTableNames s "dimstyles") →
      e.dimstyle.getD "Standard" ∈ targetTableNames
        (finalize isAcad ef lf (runOps (importEntityF fuel s e tgt).1 ops)).1
        "dimstyles") := by
  obtain ⟨hL, hLt, hS, hD⟩ := importEntityF_used fuel s e tgt hw
  have hM1 : Mono s (importEntityF fuel s e tgt).1 :=
    Mono_importEntityCore (importBlockFuel fuel) (Mono_importBlockFuel fuel)
      fuel s e tgt
  have hM2 : Mono (importEntityF fuel s e tgt).1
      (runOps (importEntityF fuel s e tgt).1 ops) :=
    Mono_runOps ops (importEntityF fuel s e tgt).1
  refine ⟨fun hin => ?_, fun hin => ?_, fun hsup hin => ?_, fun hsup hin => ?_⟩
  · exact finalize_table_mem isAcad ef lf _ "layers" _ (by simp [IMPORT_TABLES])
      (hM2.usedL _ hL) ((hM1.comp hM2).inTransport "layers" _ hin) hok
  · exact finalize_table_mem isAcad ef lf _ "linetypes" _ (by simp [IMPORT_TABLES])
      (hM2.usedLt _ hLt) ((hM1.comp hM2).inTransport "linetypes" _ hin) hok
  · exact finalize_table_mem isAcad ef lf _ "styles" _ (by simp [IMPORT_TABLES])
      (hM2.usedS _ (hS hsup)) ((hM1.comp hM2).inTransport "styles" _ hin) hok
  · exact finalize_table_mem isAcad ef lf _ "dimstyles" _ (by simp [IMPORT_TABLES])
      (hM2.usedD _ (hD hsup)) ((hM1.comp hM2).inTransport "dimstyles" _ hin) hok

/-- Witness for the amended C1 at a concrete session whose source layer
table holds the referenced layer `L1`. -/
theorem C1_imported_resources_materialized_witness :
    "L1" ∈ targetTableNames (finalize (fun _ => false) 1 1
      (runOps (importEntityF 1 layerL1State lineL1 .modelspace).1 [])).1
      "layers" := by
  have h := C1_imported_resources_materialized layerL1State lineL1 .modelspace
    1 [] (fun _ => false) 1 1 (by decide) (by decide)
  exact h.1 (by decide)

/-- C1 counterexample: a LINE on layer `L1` is imported into an empty
target, no source table has an entry `L1`, `finalize` returns normally,
and the target layer table still has no entry `L1` — the claim as stated
(the name exists after finalize, unconditionally) is false. -/
theorem C1_counterexample_missing_source_entry :
    (finalize (fun _ => false) 1 1
      (importEntityF 1 emptyImp lineL1 .modelspace).1).2 = .ok () ∧
    "L1" ∈ (importEntityF 1 emptyImp lineL1 .modelspace).1.used_layers ∧
    "L1" ∉ targetTableNames (finalize (fun _ => false) 1 1
      (importEntityF 1 emptyImp lineL1 .modelspace).1).1 "layers" := by
  refine ⟨by decide, by decide, by decide⟩

/-- C10: importing a whitelisted entity whose clone attempt fails with
DXFTypeError returns without adding anything to the target document (entity
database, modelspace, blocks and pending queue are untouched), but the
layer, line-type and (when supported) style and dimension-style names of the
entity have already been added to the used-resource sets, so a later
`finalize()` imports table entries required only by an entity that was never
placed in the target. -/
theorem C10_failed_clone_still_collects_resources (s : Importer) (e : Entity)
    (tgt : TargetRef) (fuel : Nat) (isAcad : String → Bool) (ef lf : Nat)
    (hw : e.dxftype ∈ IMPORT_ENTITIES) (hc : e.cloneable = false) :
    importEntityF fuel s e tgt = (addUsedResources s e, .ok ()) ∧
    (addUsedResources s e).entitydb = s.entitydb ∧
    (addUsedResources s e).modelspaceEnts = s.modelspaceEnts ∧
    (addUsedResources s e).targetBlocks = s.targetBlocks ∧
    (addUsedResources s e).imported_inserts = s.imported_inserts ∧
    (e.layer.getD "0") ∈ (addUsedResources s e).used_layers ∧
    (e.linetype.getD "BYLAYER") ∈ (addUsedResources s e).used_linetypes ∧
    (e.supportsStyle = true →
      (e.style.getD "Standard") ∈ (addUsedResources s e).used_styles) ∧
    (e.supportsDimstyle = true →
      (e.dimstyle.getD "Standard") ∈ (addUsedResources s e).used_dimstyles) ∧
    ((finalize isAcad ef lf (addUsedResources s e)).2 = .ok () →
      (e.layer.getD "0" ∈ sourceTableNames s "layers" ∨
        e.layer.getD "0" ∈ targetTableNames s "layers") →
      e.layer.getD "0" ∈ targetTableNames
        (finalize isAcad ef lf (addUsedResources s e)).1 "layers") := by
  obtain ⟨hL, hLt, hS, hD⟩ := addUsedResources_spec s e
  obtain ⟨f1, f2, f3, f4⟩ := addUsedResources_frame s e
  refine ⟨importEntityCore_not_cloneable (importBlockFuel fuel) fuel s e tgt hw hc,
    f1, f2, f3, f4, hL, hLt, hS, hD, fun hok hin => ?_⟩
  exact finalize_table_mem isAcad ef lf _ "layers" _ (by simp [IMPORT_TABLES])
    hL ((Mono_addUsedResources s e).inTransport "layers" _ hin) hok

/-- Witness for C10: a non-cloneable LINE on layer `L9`, whose entry exists
in the source layer table, is skipped yet `finalize` imports `L9`. -/
theorem C10_failed_clone_witness :
    importEntityF 1 layerL9State uncloneableLine .modelspace
      = (addUsedResources layerL9State uncloneableLine, .ok ()) ∧
    "L9" ∈ targetTableNames (finalize (fun _ => false) 1 1
      (addUsedResources layerL9State uncloneableLine)).1 "layers" := by
  have h := C10_failed_clone_still_collects_resources layerL9State
    uncloneableLine .modelspace 1 (fun _ => false) 1 1 (by decide) (by decide)
  exact ⟨h.1, h.2.2.2.2.2.2.2.2.2 (by decide) (by decide)⟩

/-! ### C3: idempotence of import_block through the memo -/

lemma memoLookup_eq_none (s : Importer) (n : String) (h : n ∉ memoKeys s) :
    memoLookup s n = none := by
  unfold memoLookup
  have hf : s.imported_blocks.find? (fun p => p.1 = n) = none := by
    rw [List.find?_eq_none]
    intro p hp hpn
    exact h (List.mem_map.2 ⟨p, hp, by simpa using hpn⟩)
  rw [hf]
  rfl

lemma importBlockCore_ok_memo (ib : BlockImportF) (afuel : Nat) (s : Importer)
    (n : String) (rename : Bool) (s' : Importer) (r : String)
    (h : importBlockCore ib afuel s n rename = (s', .ok r)) :
    memoLookup s' n = some r := by
  cases hm : memoLookup s n with
  | some x =>
    rw [importBlockCore_memo_hit ib afuel s n rename x hm] at h
    simp only [Prod.mk.injEq, Res.ok.injEq] at h
    obtain ⟨hs', hr⟩ := h
    subst hs'
    rw [hm, hr]
  | none =>
    cases hf : s.sourceBlocks.find? (fun p => p.1 = n) with
    | none =>
      rw [importBlockCore_not_found ib afuel s n rename hm hf] at h
      simp at h
    | some pr =>
      by_cases hc : n ∈ targetBlockNames s ∧ rename = false
      · obtain ⟨hc1, hc2⟩ := hc
        subst hc2
        rw [importBlockCore_identity ib afuel s n pr hm hf hc1] at h
        simp only [Prod.mk.injEq, Res.ok.injEq] at h
        obtain ⟨hs', hr⟩ := h
        subst hr
        rw [← hs']
        show memoLookup
          { s with imported_blocks := memoInsert s.imported_blocks n n } n = some n
        unfold memoLookup
        exact memoInsert_lookup_self ..
      · rw [importBlockCore_import ib afuel s n pr rename _ hm hf hc rfl] at h
        split at h
        · next s2 u heq =>
          simp only [Prod.mk.injEq, Res.ok.injEq] at h
          obtain ⟨hs', hr⟩ := h
          subst hr
          rw [← hs']
          unfold memoLookup
          exact memoInsert_lookup_self ..
        · next s2 m heq => simp at h
        · next s2 heq => simp at h

lemma importBlockCore_ok_created (ib : BlockImportF) (hib : MonoF ib)
    (afuel : Nat) (s : Importer) (n : String) (s' : Importer) (r : String)
    (hnm : n ∉ memoKeys s)
    (h : importBlockCore ib afuel s n true = (s', .ok r)) :
    r ∈ targetBlockNames s' ∧
    ((targetBlockNames s).Nodup → (targetBlockNames s').count r = 1) := by
  have hm : memoLookup s n = none := memoLookup_eq_none s n hnm
  cases hf : s.sourceBlocks.find? (fun p => p.1 = n) with
  | none =>
    rw [importBlockCore_not_found ib afuel s n true hm hf] at h
    simp at h
  | some pr =>
    rw [importBlockCore_import ib afuel s n pr true _ hm hf (by simp) rfl] at h
    split at h
    · next s2 u heq =>
      simp only [Prod.mk.injEq, Res.ok.injEq] at h
      obtain ⟨hs', hr⟩ := h
      subst hr
      have hM : Mono { s with targetBlocks := s.targetBlocks ++ [(get_new_block_name n (targetBlockNames s), [])], blockImports := s.blockImports + 1 } s2 := by
        have := Mono_importEntitiesCore ib hib afuel pr.2
          { s with targetBlocks := s.targetBlocks ++ [(get_new_block_name n (targetBlockNames s), [])], blockImports := s.blockImports + 1 }
          (.block (get_new_block_name n (targetBlockNames s)))
        rw [heq] at this
        exact this
      have hmem0 : get_new_block_name n (targetBlockNames s) ∈ targetBlockNames
          { s with targetBlocks := s.targetBlocks ++ [(get_new_block_name n (targetBlockNames s), [])], blockImports := s.blockImports + 1 } := by
        unfold targetBlockNames
        simp
      have hmem2 := hM.tgtBlocks _ hmem0
      constructor
      · rw [← hs']
        exact hmem2
      · intro hnd
        have hnd1 := (Mono_newBlock s (get_new_block_name n (targetBlockNames s))
          (Or.inr (get_new_block_name_not_mem n (targetBlockNames s)))).tgtNodup hnd
        have hnd2 := hM.tgtNodup hnd1
        rw [← hs']
        exact List.count_eq_one_of_mem hnd2 hmem2
    · next s2 m heq => simp at h
    · next s2 heq => simp at h

/-- C3: for a block name present in the source, calling `import_block(n)`
twice within one session with identical arguments returns the same resolved
name both times, and the second call is answered from the memo without
touching the session state; when `n` was not yet memoized, the first call
created the block: the resolved name names a block of the target and (when
the target block names were distinct) exactly one such block exists. -/
theorem C3_import_block_idempotent (s : Importer) (n : String) (f f2 : Nat)
    (s1 : Importer) (r : String)
    (hsrc : n ∈ sourceBlockNames s)
    (h1 : importBlockFuel f s n true = (s1, .ok r)) :
    importBlockFuel (f2 + 1) s1 n true = (s1, .ok r) ∧
    (n ∉ memoKeys s →
      r ∈ targetBlockNames s1 ∧
      ((targetBlockNames s).Nodup → (targetBlockNames s1).count r = 1)) := by
  cases f with
  | zero => exact absurd h1 (by simp [importBlockFuel])
  | succ f =>
    rw [importBlockFuel_succ] at h1
    have hmemo := importBlockCore_ok_memo (importBlockFuel f) f s n true s1 r h1
    constructor
    · rw [importBlockFuel_succ]
      exact importBlockCore_memo_hit (importBlockFuel f2) f2 s1 n true r hmemo
    · intro hnm
      exact importBlockCore_ok_created (importBlockFuel f)
        (Mono_importBlockFuel f) f s n s1 r hnm h1

/-- Witness for C3 at a concrete two-block source. -/
theorem C3_import_block_idempotent_witness :
    importBlockFuel 1 (importBlockFuel 1 twoBlockState "B" true).1 "B" true
      = ((importBlockFuel 1 twoBlockState "B" true).1, .ok "B") ∧
    "B" ∈ targetBlockNames (importBlockFuel 1 twoBlockState "B" true).1 ∧
    (targetBlockNames (importBlockFuel 1 twoBlockState "B" true).1).count "B" = 1 := by
  have h := C3_import_block_idempotent twoBlockState "B" 1 0
    (importBlockFuel 1 twoBlockState "B" true).1 "B" (by decide) (by decide)
  obtain ⟨hmem, hcount⟩ := h.2 (by decide)
  exact ⟨h.1, hmem, hcount (by decide)⟩

/-! ### C9: arrow blocks inside dimension geometry are not renamed -/

lemma addUsedResources_frame2 (s : Importer) (e : Entity) :
    (addUsedResources s e).nextHandle = s.nextHandle ∧
    (addUsedResources s e).imported_blocks = s.imported_blocks ∧
    (addUsedResources s e).sourceBlocks = s.sourceBlocks := by
  unfold addUsedResources
  by_cases h1 : e.supportsStyle <;> by_cases h2 : e.supportsDimstyle <;>
    simp [h1, h2]

lemma attachEntity_frame (s : Importer) (t : TargetRef) (i : Nat) :
    (attachEntity s t i).entitydb = s.entitydb ∧
    (attachEntity s t i).nextHandle = s.nextHandle ∧
    (attachEntity s t i).imported_blocks = s.imported_blocks ∧
    (attachEntity s t i).imported_inserts = s.imported_inserts ∧
    (attachEntity s t i).sourceBlocks = s.sourceBlocks := by
  cases t <;> exact ⟨rfl, rfl, rfl, rfl, rfl⟩

lemma addUsedResources_blockImports (s : Importer) (e : Entity) :
    (addUsedResources s e).blockImports = s.blockImports := by
  unfold addUsedResources
  by_cases h1 : e.supportsStyle <;> by_cases h2 : e.supportsDimstyle <;>
    simp [h1, h2]

lemma attachEntity_blockImports (s : Importer) (t : TargetRef) (i : Nat) :
    (attachEntity s t i).blockImports = s.blockImports := by
  cases t <;> rfl

lemma cleanedClone_name (e : Entity) : (cleanedClone e).name = e.name := rfl

lemma cleanedClone_geometry (e : Entity) :
    (cleanedClone e).geometry = e.geometry := rfl

lemma insertNamesOf_cons_insert (e : Entity) (rest : List Entity)
    (h : e.dxftype = "INSERT") :
    insertNamesOf (e :: rest) = e.name :: insertNamesOf rest := by
  unfold insertNamesOf
  rw [List.filter_cons_of_pos (by simp [h])]
  rfl

lemma importEntityCore_insert (ib : BlockImportF) (afuel : Nat) (s : Importer)
    (e : Entity) (tgt : TargetRef) (ht : e.dxftype = "INSERT")
    (hc : e.cloneable = true) :
    importEntityCore ib afuel s e tgt =
      ({ attachEntity (dbAdd (addUsedResources s e) (cleanedClone e)).1 tgt (dbAdd (addUsedResources s e) (cleanedClone e)).2 with imported_inserts := (attachEntity (dbAdd (addUsedResources s e) (cleanedClone e)).1 tgt (dbAdd (addUsedResources s e) (cleanedClone e)).2).imported_inserts ++ [(dbAdd (addUsedResources s e) (cleanedClone e)).2] }, .ok ()) := by
  rw [importEntityCore_clone ib afuel s e tgt (by rw [ht]; decide) hc]
  unfold importEntityDispatch
  rw [if_pos ht]

lemma importEntityCore_insert_step (ib : BlockImportF) (afuel : Nat)
    (s : Importer) (e : Entity) (tgt : TargetRef)
    (ht : e.dxftype = "INSERT") (hc : e.cloneable = true) :
    ∃ s1, importEntityCore ib afuel s e tgt = (s1, .ok ()) ∧
      s1.entitydb = s.entitydb ++ [(s.nextHandle, cleanedClone e)] ∧
      s1.nextHandle = s.nextHandle + 1 ∧
      targetBlockNames s1 = targetBlockNames s ∧
      s1.imported_blocks = s.imported_blocks ∧
      s1.sourceBlocks = s.sourceBlocks ∧
      s1.imported_inserts = s.imported_inserts ++ [s.nextHandle] ∧
      s1.blockImports = s.blockImports := by
  obtain ⟨hAdb, hAms, hAtb, hAq⟩ := addUsedResources_frame s e
  obtain ⟨hAnh, hAmemo, hAsrc⟩ := addUsedResources_frame2 s e
  obtain ⟨hTdb, hTnh, hTmemo, hTq, hTsrc⟩ := attachEntity_frame
    (dbAdd (addUsedResources s e) (cleanedClone e)).1 tgt
    (dbAdd (addUsedResources s e) (cleanedClone e)).2
  refine ⟨_, importEntityCore_insert ib afuel s e tgt ht hc, ?_, ?_, ?_, ?_, ?_, ?_, ?_⟩
  · show (attachEntity (dbAdd (addUsedResources s e) (cleanedClone e)).1 tgt (dbAdd (addUsedResources s e) (cleanedClone e)).2).entitydb = _
    rw [hTdb]
    show (addUsedResources s e).entitydb ++ [((addUsedResources s e).nextHandle, cleanedClone e)] = _
    rw [hAdb, hAnh]
  · show (attachEntity (dbAdd (addUsedResources s e) (cleanedClone e)).1 tgt (dbAdd (addUsedResources s e) (cleanedClone e)).2).nextHandle = _
    rw [hTnh]
    show (addUsedResources s e).nextHandle + 1 = _
    rw [hAnh]
  · show targetBlockNames (attachEntity (dbAdd (addUsedResources s e) (cleanedClone e)).1 tgt (dbAdd (addUsedResources s e) (cleanedClone e)).2) = _
    rw [attachEntity_blockNames]
    show targetBlockNames (addUsedResources s e) = _
    unfold targetBlockNames
    rw [hAtb]
  · show (attachEntity (dbAdd (addUsedResources s e) (cleanedClone e)).1 tgt (dbAdd (addUsedResources s e) (cleanedClone e)).2).imported_blocks = _
    rw [hTmemo]
    show (addUsedResources s e).imported_blocks = _
    rw [hAmemo]
  · show (attachEntity (dbAdd (addUsedResources s e) (cleanedClone e)).1 tgt (dbAdd (addUsedResources s e) (cleanedClone e)).2).sourceBlocks = _
    rw [hTsrc]
    show (addUsedResources s e).sourceBlocks = _
    rw [hAsrc]
  · show (attachEntity (dbAdd (addUsedResources s e) (cleanedClone e)).1 tgt (dbAdd (addUsedResources s e) (cleanedClone e)).2).imported_inserts ++ [(dbAdd (addUsedResources s e) (cleanedClone e)).2] = _
    rw [hTq]
    show (addUsedResources s e).imported_inserts ++ [(addUsedResources s e).nextHandle] = _
    rw [hAq, hAnh]
  · show (attachEntity (dbAdd (addUsedResources s e) (cleanedClone e)).1 tgt (dbAdd (addUsedResources s e) (cleanedClone e)).2).blockImports = _
    rw [attachEntity_blockImports]
    show (addUsedResources s e).blockImports = _
    exact addUsedResources_blockImports s e

lemma dbGet_of_entitydb_append (s s1 : Importer) (extra : List (Nat × Entity))
    (hdb : s1.entitydb = s.entitydb ++ extra) (k : Nat) (e0 : Entity)
    (h : dbGet s k = some e0) : dbGet s1 k = some e0 := by
  unfold dbGet at h ⊢
  rw [hdb, List.find?_append]
  obtain ⟨p, hp, hpe⟩ : ∃ p, s.entitydb.find? (fun p => p.1 = k) = some p ∧ p.2 = e0 := by
    cases hf : s.entitydb.find? (fun p => p.1 = k) with
    | none => rw [hf] at h; simp at h
    | some p => rw [hf] at h; exact ⟨p, rfl, by simpa using h⟩
  rw [hp]
  show some p.2 = some e0
  rw [hpe]

lemma dbGet_append_fresh (s s1 : Importer) (h : Nat) (ce : Entity)
    (hdb : s1.entitydb = s.entitydb ++ [(h, ce)])
    (hfresh : ∀ k ∈ dbKeys s, k < h) :
    dbGet s1 h = some ce := by
  unfold dbGet
  rw [hdb, List.find?_append]
  have hnone : s.entitydb.find? (fun p => p.1 = h) = none := by
    rw [List.find?_eq_none]
    intro p hp hpk
    have hlt := hfresh p.1 (List.mem_map.2 ⟨p, hp, rfl⟩)
    have : p.1 = h := by simpa using hpk
    omega
  rw [hnone, List.find?_cons_of_pos _ (by simp)]
  rfl

lemma qname_of_dbGet (s : Importer) (id : Nat) (e0 : Entity)
    (h : dbGet s id = some e0) : qname s id = e0.name := by
  unfold qname
  rw [h]
  rfl

lemma importEntitiesCore_inserts (ib : BlockImportF) (afuel : Nat) :
    ∀ (body : List Entity) (s : Importer) (tgt : TargetRef),
    (∀ e ∈ body, e.dxftype = "INSERT" ∧ e.cloneable = true) →
    (∀ k ∈ dbKeys s, k < s.nextHandle) →
    ∃ s' ids, importEntitiesCore ib afuel s body tgt = (s', .ok ()) ∧
      targetBlockNames s' = targetBlockNames s ∧
      s'.imported_blocks = s.imported_blocks ∧
      s'.sourceBlocks = s.sourceBlocks ∧
      s.nextHandle ≤ s'.nextHandle ∧
      (∀ k ∈ dbKeys s', k < s'.nextHandle) ∧
      (∀ k e0, dbGet s k = some e0 → dbGet s' k = some e0) ∧
      s'.imported_inserts = s.imported_inserts ++ ids ∧
      ids.length = body.length ∧
      (∀ id ∈ ids, s.nextHandle ≤ id) ∧
      (∀ n ∈ insertNamesOf body, ∃ id ∈ ids, qname s' id = n) ∧
      (∀ id ∈ ids, qname s' id ∈ insertNamesOf body) := by
  intro body
  induction body with
  | nil =>
    intro s tgt hbody hdb
    exact ⟨s, [], rfl, rfl, rfl, rfl, Nat.le_refl _, hdb, fun k e0 h => h,
      (List.append_nil _).symm, rfl, by simp, by simp [insertNamesOf], by simp⟩
  | cons e rest ih =>
    intro s tgt hbody hdb
    obtain ⟨he1, he2⟩ := hbody e (by simp)
    obtain ⟨s1, heq, hdb1, hnh1, htgt1, hmemo1, hsrc1, hq1, _⟩ :=
      importEntityCore_insert_step ib afuel s e tgt he1 he2
    have hdbk1 : ∀ k ∈ dbKeys s1, k < s1.nextHandle := by
      intro k hk
      rw [hnh1]
      have hk2 : k ∈ dbKeys s ++ [s.nextHandle] := by
        unfold dbKeys at hk ⊢
        rw [hdb1] at hk
        simpa using hk
      rcases List.mem_append.1 hk2 with h | h
      · exact Nat.lt_succ_of_lt (hdb k h)
      · rw [List.mem_singleton] at h; omega
    obtain ⟨s', ids, heq2, htgt, hmemo, hsrc, hnh, hdbk, hget, hq, hlen, hge, hsur, hmem⟩ :=
      ih s1 tgt (fun x hx => hbody x (by simp [hx])) hdbk1
    have hgetS : ∀ k e0, dbGet s k = some e0 → dbGet s' k = some e0 := by
      intro k e0 h
      exact hget k e0 (dbGet_of_entitydb_append s s1 _ hdb1 k e0 h)
    have hqh : qname s' s.nextHandle = e.name := by
      have h1 : dbGet s1 s.nextHandle = some (cleanedClone e) :=
        dbGet_append_fresh s s1 s.nextHandle (cleanedClone e) hdb1 hdb
      have h2 := hget _ _ h1
      rw [qname_of_dbGet s' _ _ h2, cleanedClone_name]
    refine ⟨s', s.nextHandle :: ids, ?_, ?_, ?_, ?_, ?_, hdbk, hgetS, ?_, ?_, ?_, ?_, ?_⟩
    · show importEntitiesCore ib afuel s (e :: rest) tgt = _
      unfold importEntitiesCore
      rw [heq]
      exact heq2
    · rw [htgt, htgt1]
    · rw [hmemo, hmemo1]
    · rw [hsrc, hsrc1]
    · omega
    · rw [hq, hq1, List.append_assoc]
      rfl
    · simp [hlen]
    · intro id hid
      rcases List.mem_cons.1 hid with h | h
      · omega
      · have := hge id h
        omega
    · rw [insertNamesOf_cons_insert e rest he1]
      intro n hn
      rcases List.mem_cons.1 hn with h | h
      · exact ⟨s.nextHandle, by simp, by rw [hqh, h]⟩
      · obtain ⟨id, hid, hqn⟩ := hsur n h
        exact ⟨id, by simp [hid], hqn⟩
    · intro id hid
      rw [insertNamesOf_cons_insert e rest he1]
      rcases List.mem_cons.1 hid with h | h
      · subst h
        rw [hqh]
        exact List.mem_cons_self _ _
      · exact List.mem_cons_of_mem _ (hmem id h)

lemma qname_memo_update (s : Importer) (M : List (String × String)) (id : Nat) :
    qname { s with imported_blocks := M } id = qname s id := rfl

lemma targetBlockNames_memo_update (s : Importer) (M : List (String × String)) :
    targetBlockNames { s with imported_blocks := M } = targetBlockNames s := rfl

lemma srcBlocks_memo_update (s : Importer) (M : List (String × String)) :
    ({ s with imported_blocks := M } : Importer).sourceBlocks = s.sourceBlocks := rfl

lemma memoLookup_memo_update (s : Importer) (M : List (String × String)) (n : String) :
    memoLookup { s with imported_blocks := M } n
      = (M.find? (fun p => p.1 = n)).map (·.2) := rfl

lemma importArrowBlocksCore_none (ib : BlockImportF) (fuel : Nat) (s : Importer)
    (i : Nat) (hi : s.imported_inserts[i]? = none) :
    importArrowBlocksCore ib (fuel + 1) s i = (s, .ok ()) := by
  unfold importArrowBlocksCore
  simp only [hi]

lemma importArrowBlocksCore_cons (ib : BlockImportF) (fuel : Nat) (s : Importer)
    (i : Nat) (id : Nat) (hi : s.imported_inserts[i]? = some id)
    (s2 : Importer) (r : String)
    (hib : ib s (qname s id) false = (s2, .ok r)) :
    importArrowBlocksCore ib (fuel + 1) s i
      = importArrowBlocksCore ib fuel s2 (i + 1) := by
  conv_lhs => unfold importArrowBlocksCore
  simp only [hi]
  rw [hib]

lemma importArrowBlocksCore_identity (ef : Nat) :
    ∀ (fuel : Nat) (s : Importer) (i : Nat),
    s.imported_inserts.length ≤ i + fuel →
    (∀ id ∈ s.imported_inserts,
        qname s id ∈ targetBlockNames s ∧
        (s.sourceBlocks.find? (fun p => p.1 = qname s id)).isSome ∧
        (memoLookup s (qname s id) = none ∨
         memoLookup s (qname s id) = some (qname s id))) →
    ∃ m', importArrowBlocksCore (importBlockFuel (ef + 1)) fuel s i
        = ({ s with imported_blocks := m' }, .ok ()) ∧
      (∀ n, memoLookup { s with imported_blocks := m' } n = memoLookup s n ∨
            memoLookup { s with imported_blocks := m' } n = some n) ∧
      (∀ j, i ≤ j → ∀ id, s.imported_inserts[j]? = some id →
          memoLookup { s with imported_blocks := m' } (qname s id)
            = some (qname s id)) := by
  intro fuel
  induction fuel with
  | zero =>
    intro s i hlen hinv
    refine ⟨s.imported_blocks, ?_, fun n => Or.inl rfl, ?_⟩
    · show importArrowBlocksCore (importBlockFuel (ef + 1)) 0 s i = _
      unfold importArrowBlocksCore
      rw [if_neg (by omega)]
    · intro j hj id hid
      have hlj : s.imported_inserts.length ≤ j := by omega
      rw [List.getElem?_eq_none hlj] at hid
      exact absurd hid (by simp)
  | succ fuel ih =>
    intro s i hlen hinv
    cases hi : s.imported_inserts[i]? with
    | none =>
      refine ⟨s.imported_blocks, ?_, fun n => Or.inl rfl, ?_⟩
      · rw [importArrowBlocksCore_none _ fuel s i hi]
      · intro j hj id hid
        have hli : s.imported_inserts.length ≤ i := List.getElem?_eq_none_iff.1 hi
        have hlj : s.imported_inserts.length ≤ j := by omega
        rw [List.getElem?_eq_none hlj] at hid
        exact absurd hid (by simp)
    | some id =>
      have hmem : id ∈ s.imported_inserts := List.getElem?_mem hi
      obtain ⟨htgt, hfind, hmemo⟩ := hinv id hmem
      rcases hmemo with hmemo | hmemo
      · obtain ⟨pr, hpr⟩ := Option.isSome_iff_exists.mp hfind
        have hib : importBlockFuel (ef + 1) s (qname s id) false
            = ({ s with imported_blocks := memoInsert s.imported_blocks (qname s id) (qname s id) }, .ok (qname s id)) := by
          rw [importBlockFuel_succ]
          exact importBlockCore_identity (importBlockFuel ef) ef s (qname s id) pr hmemo hpr htgt
        obtain ⟨m', heq, hpres, hproc⟩ := ih
          { s with imported_blocks := memoInsert s.imported_blocks (qname s id) (qname s id) }
          (i + 1)
          (by show s.imported_inserts.length ≤ i + 1 + fuel; omega)
          (by
            intro id2 hid2
            have hid2s : id2 ∈ s.imported_inserts := hid2
            obtain ⟨ht2, hf2, hm2⟩ := hinv id2 hid2s
            simp only [qname_memo_update, targetBlockNames_memo_update,
              srcBlocks_memo_update]
            refine ⟨ht2, hf2, ?_⟩
            by_cases hq : qname s id2 = qname s id
            · right
              rw [hq, memoLookup_memo_update]
              exact memoInsert_lookup_self ..
            · have heqm : memoLookup { s with imported_blocks := memoInsert s.imported_blocks (qname s id) (qname s id) } (qname s id2) = memoLookup s (qname s id2) := by
                rw [memoLookup_memo_update, memoInsert_find_ne _ _ _ _ hq]
                rfl
              rcases hm2 with hm2 | hm2
              · exact Or.inl (by rw [heqm, hm2])
              · exact Or.inr (by rw [heqm, hm2]))
        have hself : memoLookup { s with imported_blocks := memoInsert s.imported_blocks (qname s id) (qname s id) } (qname s id) = some (qname s id) := by
          rw [memoLookup_memo_update]
          exact memoInsert_lookup_self ..
        refine ⟨m', ?_, ?_, ?_⟩
        · rw [importArrowBlocksCore_cons _ fuel s i id hi _ _ hib]
          exact heq
        · intro n
          by_cases hq : n = qname s id
          · rcases hpres n with hp | hp
            · exact Or.inr (by rw [hp, hq]; exact hself)
            · exact Or.inr hp
          · have heqm : memoLookup { s with imported_blocks := memoInsert s.imported_blocks (qname s id) (qname s id) } n = memoLookup s n := by
              rw [memoLookup_memo_update, memoInsert_find_ne _ _ _ _ hq]
              rfl
            rcases hpres n with hp | hp
            · exact Or.inl (by rw [hp, heqm])
            · exact Or.inr hp
        · intro j hj id2 hid2
          by_cases hj' : j = i
          · subst hj'
            rw [hi] at hid2
            have hid2' : id = id2 := by
              have := Option.some_injective _ hid2
              exact this
            subst hid2'
            rcases hpres (qname s id) with hp | hp
            · rw [hp, hself]
            · exact hp
          · have hj2 : i + 1 ≤ j := by omega
            exact hproc j hj2 id2 hid2
      · have hib : importBlockFuel (ef + 1) s (qname s id) false
            = (s, .ok (qname s id)) := by
          rw [importBlockFuel_succ]
          exact importBlockCore_memo_hit (importBlockFuel ef) ef s (qname s id) false
            (qname s id) hmemo
        obtain ⟨m', heq, hpres, hproc⟩ := ih s (i + 1) (by omega) hinv
        refine ⟨m', ?_, hpres, ?_⟩
        · rw [importArrowBlocksCore_cons _ fuel s i id hi _ _ hib]
          exact heq
        · intro j hj id2 hid2
          by_cases hj' : j = i
          · subst hj'
            rw [hi] at hid2
            have hid2' : id = id2 := Option.some_injective _ hid2
            subst hid2'
            rcases hpres (qname s id) with hp | hp
            · rw [hp, hmemo]
            · exact hp
          · exact hproc j (by omega) id2 hid2

lemma find?_map_setAt_ne (l : List (Nat × Entity)) (id : Nat) (e : Entity)
    (k : Nat) (h : ¬ (k = id)) :
    (l.map (fun p => if p.1 = id then (p.1, e) else p)).find? (fun p => p.1 = k)
      = l.find? (fun p => p.1 = k) := by
  induction l with
  | nil => rfl
  | cons p rest ih =>
    by_cases hp : p.1 = id
    · rw [List.map_cons, if_pos hp,
        List.find?_cons_of_neg _ (by simp [hp]; omega),
        List.find?_cons_of_neg _ (by simp [hp]; omega), ih]
    · rw [List.map_cons, if_neg hp]
      by_cases hk : p.1 = k
      · rw [List.find?_cons_of_pos _ (by simp [hk]),
          List.find?_cons_of_pos _ (by simp [hk])]
      · rw [List.find?_cons_of_neg _ (by simp [hk]),
          List.find?_cons_of_neg _ (by simp [hk]), ih]

lemma mem_insertNamesOf (body : List Entity) (n : String)
    (h : n ∈ insertNamesOf body) : ∃ e ∈ body, e.name = n := by
  unfold insertNamesOf at h
  obtain ⟨e, he, hn⟩ := List.mem_map.1 h
  exact ⟨e, (List.mem_filter.1 he).1, hn⟩

lemma mem_srcNames_find? (s : Importer) (n : String)
    (h : n ∈ sourceBlockNames s) :
    (s.sourceBlocks.find? (fun p => p.1 = n)).isSome := by
  obtain ⟨p, hp, hpn⟩ := List.mem_map.1 h
  rw [List.find?_isSome]
  exact ⟨p, hp, by simp [hpn]⟩

lemma importDimensionCore_arrow_identity (ef afuel : Nat) (T : Importer)
    (hdim : Nat) (dim : Entity) (g : String) (body : List Entity)
    (hdbT : dbGet T hdim = some dim)
    (hgeo : dim.geometry = some g)
    (hgne : ¬ (g = ""))
    (hfind : T.sourceBlocks.find? (fun p => p.1 = g) = some (g, body))
    (hgm : memoLookup T g = none)
    (hbody : ∀ e ∈ body, e.dxftype = "INSERT" ∧ e.cloneable = true ∧
        e.name ∈ targetBlockNames T ∧
        (T.sourceBlocks.find? (fun p => p.1 = e.name)).isSome ∧
        memoLookup T e.name = none ∧ ¬ (e.name = g))
    (hdb : ∀ k ∈ dbKeys T, k < T.nextHandle)
    (hdimlt : hdim < T.nextHandle)
    (hblen : body.length ≤ afuel) :
    ∃ sR, importDimensionCore (importBlockFuel (ef + 1)) afuel T hdim
        = (sR, .ok ()) ∧
      targetBlockNames sR
        = targetBlockNames T ++ [get_new_block_name g (targetBlockNames T)] ∧
      (∀ n ∈ insertNamesOf body, memoLookup sR n = some n) ∧
      sR.imported_inserts = T.imported_inserts := by
  have hgmem : g ∈ sourceBlockNames T :=
    List.mem_map.2 ⟨(g, body), List.mem_of_find?_eq_some hfind, rfl⟩
  obtain ⟨s2, ids, heqB, htgtB, hmemoB, hsrcB, hnhB, hdbkB, hgetB, hqB, hlenB, hgeB, hsurB, hmemB⟩ :=
    importEntitiesCore_inserts (importBlockFuel ef) ef body
      ({ ({ T with imported_inserts := [] }) with targetBlocks := ({ T with imported_inserts := [] }).targetBlocks ++ [((get_new_block_name g (targetBlockNames T)), [])], blockImports := ({ T with imported_inserts := [] }).blockImports + 1 })
      (.block (get_new_block_name g (targetBlockNames T)))
      (fun e he => ⟨(hbody e he).1, (hbody e he).2.1⟩)
      (fun k hk => hdb k hk)
  have hstep := importBlockCore_import (importBlockFuel ef) ef
    ({ T with imported_inserts := [] }) g (g, body) true (get_new_block_name g (targetBlockNames T)) hgm hfind (by simp) rfl
  rw [(rfl : ((g, body)).2 = body)] at hstep
  rw [heqB] at hstep
  have hib : importBlockFuel (ef + 1) ({ T with imported_inserts := [] }) g true
      = (({ s2 with imported_blocks := memoInsert s2.imported_blocks g (get_new_block_name g (targetBlockNames T)) }), .ok (get_new_block_name g (targetBlockNames T))) := by
    rw [importBlockFuel_succ, hstep]
  have hqS : s2.imported_inserts = ids := by
    rw [hqB]
    show ([] : List Nat) ++ ids = ids
    simp
  have hq2A : ∀ qid ∈ ids, qname (dbSet ({ s2 with imported_blocks := memoInsert s2.imported_blocks g (get_new_block_name g (targetBlockNames T)) }) hdim { dim with geometry := some (get_new_block_name g (targetBlockNames T)) }) qid = qname s2 qid := by
    intro qid hqid
    have hge2 : T.nextHandle ≤ qid := hgeB qid hqid
    have hne : ¬ (qid = hdim) := by omega
    unfold qname
    have hdg : dbGet (dbSet ({ s2 with imported_blocks := memoInsert s2.imported_blocks g (get_new_block_name g (targetBlockNames T)) }) hdim { dim with geometry := some (get_new_block_name g (targetBlockNames T)) }) qid = dbGet s2 qid := by
      show ((s2.entitydb.map (fun p => if p.1 = hdim then (p.1, { dim with geometry := some (get_new_block_name g (targetBlockNames T)) }) else p)).find? (fun p => p.1 = qid)).map (·.2) = dbGet s2 qid
      rw [find?_map_setAt_ne _ _ _ _ hne]
      rfl
    rw [hdg]
  have hinvA : ∀ qid ∈ ((dbSet ({ s2 with imported_blocks := memoInsert s2.imported_blocks g (get_new_block_name g (targetBlockNames T)) }) hdim { dim with geometry := some (get_new_block_name g (targetBlockNames T)) }) : Importer).imported_inserts,
      qname (dbSet ({ s2 with imported_blocks := memoInsert s2.imported_blocks g (get_new_block_name g (targetBlockNames T)) }) hdim { dim with geometry := some (get_new_block_name g (targetBlockNames T)) }) qid ∈ targetBlockNames (dbSet ({ s2 with imported_blocks := memoInsert s2.imported_blocks g (get_new_block_name g (targetBlockNames T)) }) hdim { dim with geometry := some (get_new_block_name g (targetBlockNames T)) }) ∧
      (((dbSet ({ s2 with imported_blocks := memoInsert s2.imported_blocks g (get_new_block_name g (targetBlockNames T)) }) hdim { dim with geometry := some (get_new_block_name g (targetBlockNames T)) }) : Importer).sourceBlocks.find? (fun p => p.1 = qname (dbSet ({ s2 with imported_blocks := memoInsert s2.imported_blocks g (get_new_block_name g (targetBlockNames T)) }) hdim { dim with geometry := some (get_new_block_name g (targetBlockNames T)) }) qid)).isSome ∧
      (memoLookup (dbSet ({ s2 with imported_blocks := memoInsert s2.imported_blocks g (get_new_block_name g (targetBlockNames T)) }) hdim { dim with geometry := some (get_new_block_name g (targetBlockNames T)) }) (qname (dbSet ({ s2 with imported_blocks := memoInsert s2.imported_blocks g (get_new_block_name g (targetBlockNames T)) }) hdim { dim with geometry := some (get_new_block_name g (targetBlockNames T)) }) qid) = none ∨
       memoLookup (dbSet ({ s2 with imported_blocks := memoInsert s2.imported_blocks g (get_new_block_name g (targetBlockNames T)) }) hdim { dim with geometry := some (get_new_block_name g (targetBlockNames T)) }) (qname (dbSet ({ s2 with imported_blocks := memoInsert s2.imported_blocks g (get_new_block_name g (targetBlockNames T)) }) hdim { dim with geometry := some (get_new_block_name g (targetBlockNames T)) }) qid) = some (qname (dbSet ({ s2 with imported_blocks := memoInsert s2.imported_blocks g (get_new_block_name g (targetBlockNames T)) }) hdim { dim with geometry := some (get_new_block_name g (targetBlockNames T)) }) qid)) := by
    intro qid hqid
    have hqid2 : qid ∈ ids := by
      rw [← hqS]
      exact hqid
    have hq2 := hq2A qid hqid2
    obtain ⟨e0, he0, he0n⟩ := mem_insertNamesOf body (qname s2 qid) (hmemB qid hqid2)
    obtain ⟨hI0, hc0, htm0, hfm0, hmm0, hng0⟩ := hbody e0 he0
    refine ⟨?_, ?_, ?_⟩
    · rw [hq2]
      show qname s2 qid ∈ targetBlockNames s2
      rw [htgtB, ← he0n]
      have htq1 : targetBlockNames ({ ({ T with imported_inserts := [] }) with targetBlocks := ({ T with imported_inserts := [] }).targetBlocks ++ [((get_new_block_name g (targetBlockNames T)), [])], blockImports := ({ T with imported_inserts := [] }).blockImports + 1 }) = targetBlockNames T ++ [(get_new_block_name g (targetBlockNames T))] := by
        unfold targetBlockNames
        simp
      rw [htq1]
      exact List.mem_append_left _ htm0
    · rw [hq2]
      show (s2.sourceBlocks.find? (fun p => p.1 = qname s2 qid)).isSome
      rw [hsrcB]
      show (T.sourceBlocks.find? (fun p => p.1 = qname s2 qid)).isSome
      rw [← he0n]
      exact hfm0
    · left
      rw [hq2]
      show ((memoInsert s2.imported_blocks g (get_new_block_name g (targetBlockNames T))).find? (fun p => p.1 = qname s2 qid)).map (·.2) = none
      have hne2 : ¬ (qname s2 qid = g) := by rw [← he0n]; exact hng0
      rw [memoInsert_find_ne _ _ _ _ hne2]
      show memoLookup s2 (qname s2 qid) = none
      unfold memoLookup
      rw [hmemoB]
      show memoLookup T (qname s2 qid) = none
      rw [← he0n]
      exact hmm0
  have hlenA : ((dbSet ({ s2 with imported_blocks := memoInsert s2.imported_blocks g (get_new_block_name g (targetBlockNames T)) }) hdim { dim with geometry := some (get_new_block_name g (targetBlockNames T)) }) : Importer).imported_inserts.length ≤ 0 + afuel := by
    show s2.imported_inserts.length ≤ 0 + afuel
    rw [hqS, hlenB]
    omega
  obtain ⟨mm, heqA, hpresA, hprocA⟩ :=
    importArrowBlocksCore_identity ef afuel (dbSet ({ s2 with imported_blocks := memoInsert s2.imported_blocks g (get_new_block_name g (targetBlockNames T)) }) hdim { dim with geometry := some (get_new_block_name g (targetBlockNames T)) }) 0 hlenA hinvA
  have hEQ : importDimensionCore (importBlockFuel (ef + 1)) afuel T hdim
      = (({ { (dbSet ({ s2 with imported_blocks := memoInsert s2.imported_blocks g (get_new_block_name g (targetBlockNames T)) }) hdim { dim with geometry := some (get_new_block_name g (targetBlockNames T)) }) with imported_blocks := mm } with imported_inserts := T.imported_inserts }), .ok ()) := by
    unfold importDimensionCore
    simp only [hdbT, hgeo, Option.getD_some]
    rw [if_neg hgne, if_pos hgmem]
    simp only [hib]
    rw [heqA]
  refine ⟨_, hEQ, ?_, ?_, ?_⟩
  · show targetBlockNames s2 = targetBlockNames T ++ [(get_new_block_name g (targetBlockNames T))]
    rw [htgtB]
    unfold targetBlockNames
    simp
  · intro n hn
    obtain ⟨qid, hqid, hqn⟩ := hsurB n hn
    have hq2 := hq2A qid hqid
    have hmemq : qid ∈ ((dbSet ({ s2 with imported_blocks := memoInsert s2.imported_blocks g (get_new_block_name g (targetBlockNames T)) }) hdim { dim with geometry := some (get_new_block_name g (targetBlockNames T)) }) : Importer).imported_inserts := by
      show qid ∈ s2.imported_inserts
      rw [hqS]
      exact hqid
    obtain ⟨j, hj⟩ := List.mem_iff_getElem?.1 hmemq
    have hp := hprocA j (Nat.zero_le j) qid hj
    rw [hq2, hqn] at hp
    exact hp
  · rfl

/-- C9: importing a DIMENSION entity whose anonymous geometry block contains
only block references to arrow symbol blocks already present in the target
document adds exactly the renamed copy of the geometry block itself to the
target block collection and nothing else; the block references inside the
geometry block are resolved without renaming, each arrow name being mapped to
itself in the block memo, so the existing same-named target blocks are reused
and no renamed duplicate of an arrow symbol is created. -/
theorem C9_arrow_symbols_not_duplicated (s : Importer) (d : Entity)
    (g : String) (body : List Entity) (ef : Nat)
    (hd : d.dxftype = "DIMENSION") (hdc : d.cloneable = true)
    (hg : d.geometry = some g) (hgne : ¬ (g = ""))
    (hfind : s.sourceBlocks.find? (fun p => p.1 = g) = some (g, body))
    (hgm : g ∉ memoKeys s)
    (hbody : ∀ e ∈ body, e.dxftype = "INSERT" ∧ e.cloneable = true ∧
        e.name ∈ targetBlockNames s ∧ e.name ∈ sourceBlockNames s ∧
        e.name ∉ memoKeys s ∧ ¬ (e.name = g))
    (hdb : ∀ k ∈ dbKeys s, k < s.nextHandle)
    (hblen : body.length ≤ ef + 1) :
    (importEntityF (ef + 1) s d .modelspace).2 = .ok () ∧
    targetBlockNames (importEntityF (ef + 1) s d .modelspace).1
      = targetBlockNames s ++ [get_new_block_name g (targetBlockNames s)] ∧
    (∀ n ∈ insertNamesOf body,
        memoLookup (importEntityF (ef + 1) s d .modelspace).1 n = some n) ∧
    (importEntityF (ef + 1) s d .modelspace).1.imported_inserts
      = s.imported_inserts := by
  have hh : (dbAdd (addUsedResources s d) (cleanedClone d)).2 = s.nextHandle :=
    (addUsedResources_frame2 s d).1
  obtain ⟨hT1, hT2, hT3, hT4, hT5⟩ := attachEntity_frame
    (dbAdd (addUsedResources s d) (cleanedClone d)).1 TargetRef.modelspace s.nextHandle
  have hTdb : (attachEntity (dbAdd (addUsedResources s d) (cleanedClone d)).1 TargetRef.modelspace s.nextHandle).entitydb = s.entitydb ++ [(s.nextHandle, cleanedClone d)] := by
    rw [hT1]
    show (addUsedResources s d).entitydb ++ [((addUsedResources s d).nextHandle, cleanedClone d)] = _
    rw [(addUsedResources_frame s d).1, (addUsedResources_frame2 s d).1]
  have hTnh : (attachEntity (dbAdd (addUsedResources s d) (cleanedClone d)).1 TargetRef.modelspace s.nextHandle).nextHandle = s.nextHandle + 1 := by
    rw [hT2]
    show (addUsedResources s d).nextHandle + 1 = _
    rw [(addUsedResources_frame2 s d).1]
  have hTmemo : (attachEntity (dbAdd (addUsedResources s d) (cleanedClone d)).1 TargetRef.modelspace s.nextHandle).imported_blocks = s.imported_blocks := by
    rw [hT3]
    exact (addUsedResources_frame2 s d).2.1
  have hTq : (attachEntity (dbAdd (addUsedResources s d) (cleanedClone d)).1 TargetRef.modelspace s.nextHandle).imported_inserts = s.imported_inserts := by
    rw [hT4]
    exact (addUsedResources_frame s d).2.2.2
  have hTsrc : (attachEntity (dbAdd (addUsedResources s d) (cleanedClone d)).1 TargetRef.modelspace s.nextHandle).sourceBlocks = s.sourceBlocks := by
    rw [hT5]
    exact (addUsedResources_frame2 s d).2.2
  have hTtgt : targetBlockNames (attachEntity (dbAdd (addUsedResources s d) (cleanedClone d)).1 TargetRef.modelspace s.nextHandle) = targetBlockNames s := by
    rw [attachEntity_blockNames]
    show targetBlockNames (addUsedResources s d) = targetBlockNames s
    unfold targetBlockNames
    rw [(addUsedResources_frame s d).2.2.1]
  have hdbT2 : dbGet (attachEntity (dbAdd (addUsedResources s d) (cleanedClone d)).1 TargetRef.modelspace s.nextHandle) s.nextHandle = some (cleanedClone d) :=
    dbGet_append_fresh s (attachEntity (dbAdd (addUsedResources s d) (cleanedClone d)).1 TargetRef.modelspace s.nextHandle) s.nextHandle (cleanedClone d) hTdb hdb
  have hgeo2 : (cleanedClone d).geometry = some g := by
    rw [cleanedClone_geometry, hg]
  have hfind2 : (attachEntity (dbAdd (addUsedResources s d) (cleanedClone d)).1 TargetRef.modelspace s.nextHandle).sourceBlocks.find? (fun p => p.1 = g) = some (g, body) := by
    rw [hTsrc]
    exact hfind
  have hgm2 : memoLookup (attachEntity (dbAdd (addUsedResources s d) (cleanedClone d)).1 TargetRef.modelspace s.nextHandle) g = none := by
    unfold memoLookup
    rw [hTmemo]
    exact memoLookup_eq_none s g hgm
  have hbody2 : ∀ e ∈ body, e.dxftype = "INSERT" ∧ e.cloneable = true ∧
      e.name ∈ targetBlockNames (attachEntity (dbAdd (addUsedResources s d) (cleanedClone d)).1 TargetRef.modelspace s.nextHandle) ∧
      ((attachEntity (dbAdd (addUsedResources s d) (cleanedClone d)).1 TargetRef.modelspace s.nextHandle).sourceBlocks.find? (fun p => p.1 = e.name)).isSome ∧
      memoLookup (attachEntity (dbAdd (addUsedResources s d) (cleanedClone d)).1 TargetRef.modelspace s.nextHandle) e.name = none ∧ ¬ (e.name = g) := by
    intro e he
    obtain ⟨h1, h2, h3, h4, h5, h6⟩ := hbody e he
    refine ⟨h1, h2, ?_, ?_, ?_, h6⟩
    · rw [hTtgt]
      exact h3
    · rw [hTsrc]
      exact mem_srcNames_find? s e.name h4
    · unfold memoLookup
      rw [hTmemo]
      exact memoLookup_eq_none s e.name h5
  have hdbk2 : ∀ k ∈ dbKeys (attachEntity (dbAdd (addUsedResources s d) (cleanedClone d)).1 TargetRef.modelspace s.nextHandle), k < (attachEntity (dbAdd (addUsedResources s d) (cleanedClone d)).1 TargetRef.modelspace s.nextHandle).nextHandle := by
    intro k hk
    rw [hTnh]
    have hk2 : k ∈ dbKeys s ++ [s.nextHandle] := by
      unfold dbKeys at hk ⊢
      rw [hTdb] at hk
      simpa using hk
    rcases List.mem_append.1 hk2 with h | h
    · exact Nat.lt_succ_of_lt (hdb k h)
    · rw [List.mem_singleton] at h
      omega
  have hdimlt2 : s.nextHandle < (attachEntity (dbAdd (addUsedResources s d) (cleanedClone d)).1 TargetRef.modelspace s.nextHandle).nextHandle := by
    rw [hTnh]
    omega
  obtain ⟨sR, hEQd, htgtR, hmemoR, hqR⟩ :=
    importDimensionCore_arrow_identity ef (ef + 1) (attachEntity (dbAdd (addUsedResources s d) (cleanedClone d)).1 TargetRef.modelspace s.nextHandle) s.nextHandle
      (cleanedClone d) g body hdbT2 hgeo2 hgne hfind2 hgm2 hbody2 hdbk2
      hdimlt2 hblen
  have hMain : importEntityF (ef + 1) s d .modelspace = (sR, .ok ()) := by
    show importEntityCore (importBlockFuel (ef + 1)) (ef + 1) s d .modelspace = _
    rw [importEntityCore_clone (importBlockFuel (ef + 1)) (ef + 1) s d
      .modelspace (by rw [hd]; decide) hdc]
    unfold importEntityDispatch
    rw [hd, if_neg (by decide), if_pos rfl, hh]
    exact hEQd
  refine ⟨?_, ?_, ?_, ?_⟩
  · rw [hMain]
  · rw [hMain]
    show targetBlockNames sR = _
    rw [htgtR, hTtgt]
  · intro n hn
    rw [hMain]
    show memoLookup sR n = some n
    exact hmemoR n hn
  · rw [hMain]
    show sR.imported_inserts = _
    rw [hqR, hTq]

/-- Witness for C9: a dimension whose geometry block references the arrow
block `ARROW` that the target already holds maps `ARROW` to itself and adds
only the geometry block to the target. -/
theorem C9_arrow_symbols_not_duplicated_witness :
    (importEntityF 2 arrowState dimGeoD1 .modelspace).2 = .ok () ∧
    targetBlockNames (importEntityF 2 arrowState dimGeoD1 .modelspace).1
      = ["ARROW", "*D1"] ∧
    memoLookup (importEntityF 2 arrowState dimGeoD1 .modelspace).1 "ARROW"
      = some "ARROW" := by
  have h := C9_arrow_symbols_not_duplicated arrowState dimGeoD1 "*D1"
    [insArrow] 1 (by decide) (by decide) (by decide) (by decide) (by decide)
    (by decide) (by decide) (by decide) (by decide)
  exact ⟨h.1, h.2.1.trans (by decide), h.2.2.1 "ARROW" (by decide)⟩

/-! ### C2: termination and memo bound of the insert resolver -/

lemma not_mem_memoKeys_of_lookup_none (s : Importer) (n : String)
    (h : memoLookup s n = none) : n ∉ memoKeys s := by
  intro hmem
  obtain ⟨p, hp, hpn⟩ := List.mem_map.1 hmem
  unfold memoLookup at h
  rw [Option.map_eq_none'] at h
  rw [List.find?_eq_none] at h
  exact h p hp (by simp [hpn])

lemma unmemo_congr (X Y : Importer) (h1 : X.sourceBlocks = Y.sourceBlocks)
    (h2 : X.imported_blocks = Y.imported_blocks) : unmemo X = unmemo Y := by
  unfold unmemo sourceBlockNames memoKeys
  rw [h1, h2]

lemma length_filter_ne_of_nodup (n : String) :
    ∀ (F : List String), F.Nodup → n ∈ F →
    (F.filter (fun m => ¬ (m = n))).length + 1 = F.length := by
  intro F
  induction F with
  | nil => intro _ h; cases h
  | cons a rest ih =>
    intro hF hn
    rcases List.mem_cons.1 hn with h | h
    · subst h
      rw [List.filter_cons_of_neg (by simp)]
      have hrest : rest.filter (fun m => ¬ (m = n)) = rest := by
        apply List.filter_eq_self.2
        intro m hm
        have hma : ¬ (m = n) := by
          intro he
          subst he
          exact (List.nodup_cons.1 hF).1 hm
        simp [hma]
      rw [hrest]
      rfl
    · have ha : ¬ (a = n) := by
        intro he
        subst he
        exact (List.nodup_cons.1 hF).1 h
      rw [List.filter_cons_of_pos (by simp [ha])]
      have hih := ih (List.nodup_cons.1 hF).2 h
      simp only [List.length_cons]
      omega

lemma unmemo_insert_new (s : Importer) (n v : String)
    (hmem : n ∈ sourceBlockNames s) (hkey : n ∉ memoKeys s) :
    unmemo { s with imported_blocks := memoInsert s.imported_blocks n v } + 1
      = unmemo s := by
  have hkeys : memoKeys { s with imported_blocks := memoInsert s.imported_blocks n v } = memoKeys s ++ [n] := by
    show (memoInsert s.imported_blocks n v).map (·.1) = s.imported_blocks.map (·.1) ++ [n]
    exact memoInsert_keys_of_not_mem _ _ _ hkey
  have hsrcU : sourceBlockNames { s with imported_blocks := memoInsert s.imported_blocks n v } = sourceBlockNames s := rfl
  unfold unmemo
  rw [hkeys, hsrcU]
  have hfilter : (sourceBlockNames s).dedup.filter (fun m => m ∉ memoKeys s ++ [n])
      = ((sourceBlockNames s).dedup.filter (fun m => m ∉ memoKeys s)).filter (fun m => ¬ (m = n)) := by
    rw [List.filter_filter]
    apply List.filter_congr
    intro m hm
    by_cases h1 : m ∈ memoKeys s <;> by_cases h2 : m = n <;> simp [h1, h2]
  rw [hfilter]
  exact length_filter_ne_of_nodup n _
    (List.Nodup.filter _ (List.nodup_dedup _))
    (List.mem_filter.2 ⟨List.mem_dedup.2 hmem, by simp [hkey]⟩)

lemma importEntityCore_nodim (ib : BlockImportF) (afuel : Nat) (s : Importer)
    (e : Entity) (tgt : TargetRef) (he : ¬ (e.dxftype = "DIMENSION")) :
    ∃ s', importEntityCore ib afuel s e tgt = (s', .ok ()) ∧
      s'.imported_blocks = s.imported_blocks ∧
      s'.sourceBlocks = s.sourceBlocks ∧
      s'.blockImports = s.blockImports := by
  by_cases hw : e.dxftype ∈ IMPORT_ENTITIES
  · by_cases hc : e.cloneable = true
    · rw [importEntityCore_clone ib afuel s e tgt hw hc]
      unfold importEntityDispatch
      by_cases hI : e.dxftype = "INSERT"
      · rw [if_pos hI]
        refine ⟨_, rfl, ?_, ?_, ?_⟩
        · show (attachEntity (dbAdd (addUsedResources s e) (cleanedClone e)).1 tgt (dbAdd (addUsedResources s e) (cleanedClone e)).2).imported_blocks = s.imported_blocks
          rw [(attachEntity_frame _ tgt _).2.2.1]
          show (addUsedResources s e).imported_blocks = _
          exact (addUsedResources_frame2 s e).2.1
        · show (attachEntity (dbAdd (addUsedResources s e) (cleanedClone e)).1 tgt (dbAdd (addUsedResources s e) (cleanedClone e)).2).sourceBlocks = s.sourceBlocks
          rw [(attachEntity_frame _ tgt _).2.2.2.2]
          show (addUsedResources s e).sourceBlocks = _
          exact (addUsedResources_frame2 s e).2.2
        · show (attachEntity (dbAdd (addUsedResources s e) (cleanedClone e)).1 tgt (dbAdd (addUsedResources s e) (cleanedClone e)).2).blockImports = s.blockImports
          rw [attachEntity_blockImports]
          show (addUsedResources s e).blockImports = _
          exact addUsedResources_blockImports s e
      · rw [if_neg hI, if_neg he]
        refine ⟨_, rfl, ?_, ?_, ?_⟩
        · rw [(attachEntity_frame _ tgt _).2.2.1]
          show (addUsedResources s e).imported_blocks = _
          exact (addUsedResources_frame2 s e).2.1
        · rw [(attachEntity_frame _ tgt _).2.2.2.2]
          show (addUsedResources s e).sourceBlocks = _
          exact (addUsedResources_frame2 s e).2.2
        · rw [attachEntity_blockImports]
          show (addUsedResources s e).blockImports = _
          exact addUsedResources_blockImports s e
    · have hc2 : e.cloneable = false := by
        cases hcb : e.cloneable
        · rfl
        · exact absurd hcb hc
      rw [importEntityCore_not_cloneable ib afuel s e tgt hw hc2]
      exact ⟨_, rfl, (addUsedResources_frame2 s e).2.1,
        (addUsedResources_frame2 s e).2.2, addUsedResources_blockImports s e⟩
  · rw [importEntityCore_not_supported ib afuel s e tgt hw]
    exact ⟨s, rfl, rfl, rfl, rfl⟩

lemma importEntitiesCore_nodim (ib : BlockImportF) (afuel : Nat) :
    ∀ (body : List Entity) (s : Importer) (tgt : TargetRef),
    (∀ e ∈ body, ¬ (e.dxftype = "DIMENSION")) →
    ∃ s', importEntitiesCore ib afuel s body tgt = (s', .ok ()) ∧
      s'.imported_blocks = s.imported_blocks ∧
      s'.sourceBlocks = s.sourceBlocks ∧
      s'.blockImports = s.blockImports := by
  intro body
  induction body with
  | nil => intro s tgt _; exact ⟨s, rfl, rfl, rfl, rfl⟩
  | cons e rest ih =>
    intro s tgt hb
    obtain ⟨s1, heq1, hm1, hs1, hb1⟩ :=
      importEntityCore_nodim ib afuel s e tgt (hb e (by simp))
    obtain ⟨s2, heq2, hm2, hs2, hb2⟩ := ih s1 tgt (fun x hx => hb x (by simp [hx]))
    refine ⟨s2, ?_, ?_, ?_, ?_⟩
    · show importEntitiesCore ib afuel s (e :: rest) tgt = _
      unfold importEntitiesCore
      rw [heq1]
      exact heq2
    · rw [hm2, hm1]
    · rw [hs2, hs1]
    · rw [hb2, hb1]

lemma importBlockFuel_nodim (ef : Nat) (s : Importer) (n : String)
    (hnd : NoDim s) :
    ∃ s' r, importBlockFuel (ef + 1) s n true = (s', r) ∧
      ¬ (r = Res.fuelOut) ∧
      NoDim s' ∧
      unmemo s' ≤ unmemo s ∧
      s'.blockImports + unmemo s' ≤ s.blockImports + unmemo s ∧
      (s' = s ∨ unmemo s' < unmemo s) := by
  rw [importBlockFuel_succ]
  cases hm : memoLookup s n with
  | some r =>
    exact ⟨s, .ok r, importBlockCore_memo_hit _ ef s n true r hm, by simp,
      hnd, Nat.le_refl _, Nat.le_refl _, Or.inl rfl⟩
  | none =>
    cases hf : s.sourceBlocks.find? (fun p => p.1 = n) with
    | none =>
      exact ⟨s, .err "ValueError", importBlockCore_not_found _ ef s n true hm hf,
        by simp, hnd, Nat.le_refl _, Nat.le_refl _, Or.inl rfl⟩
    | some pr =>
      have hpn : pr.1 = n := by
        have hps := List.find?_some hf
        simpa using hps
      have hmemN : n ∈ sourceBlockNames s :=
        List.mem_map.2 ⟨pr, List.mem_of_find?_eq_some hf, hpn⟩
      have hkey : n ∉ memoKeys s := not_mem_memoKeys_of_lookup_none s n hm
      obtain ⟨s2, heqB, hm2, hs2, hb2⟩ :=
        importEntitiesCore_nodim (importBlockFuel ef) ef pr.2
          { s with targetBlocks := s.targetBlocks ++ [(get_new_block_name n (targetBlockNames s), [])], blockImports := s.blockImports + 1 }
          (.block (get_new_block_name n (targetBlockNames s)))
          (fun e he => hnd pr (List.mem_of_find?_eq_some hf) e he)
      have hstep := importBlockCore_import (importBlockFuel ef) ef s n pr true
        (get_new_block_name n (targetBlockNames s)) hm hf (by simp) rfl
      simp only [heqB] at hstep
      have hm2s : s2.imported_blocks = s.imported_blocks := by rw [hm2]
      have hs2s : s2.sourceBlocks = s.sourceBlocks := by rw [hs2]
      have hb2s : s2.blockImports = s.blockImports + 1 := by rw [hb2]
      rw [hm2s] at hstep
      have heqF : importBlockCore (importBlockFuel ef) ef s n true
          = ({ s2 with imported_blocks := memoInsert s.imported_blocks n (get_new_block_name n (targetBlockNames s)) }, .ok (get_new_block_name n (targetBlockNames s))) := hstep
      have hun : unmemo ({ s2 with imported_blocks := memoInsert s.imported_blocks n (get_new_block_name n (targetBlockNames s)) }) + 1 = unmemo s := by
        have hcg : unmemo ({ s2 with imported_blocks := memoInsert s.imported_blocks n (get_new_block_name n (targetBlockNames s)) })
            = unmemo ({ s with imported_blocks := memoInsert s.imported_blocks n (get_new_block_name n (targetBlockNames s)) }) :=
          unmemo_congr _ _ (by show s2.sourceBlocks = s.sourceBlocks; exact hs2s) rfl
        rw [hcg]
        exact unmemo_insert_new s n (get_new_block_name n (targetBlockNames s)) hmemN hkey
      have hbiF : ({ s2 with imported_blocks := memoInsert s.imported_blocks n (get_new_block_name n (targetBlockNames s)) } : Importer).blockImports = s.blockImports + 1 := by
        show s2.blockImports = s.blockImports + 1
        exact hb2s
      have hndF : NoDim ({ s2 with imported_blocks := memoInsert s.imported_blocks n (get_new_block_name n (targetBlockNames s)) }) := by
        intro p hp e he
        have hp2 : p ∈ s2.sourceBlocks := hp
        rw [hs2s] at hp2
        exact hnd p hp2 e he
      refine ⟨{ s2 with imported_blocks := memoInsert s.imported_blocks n (get_new_block_name n (targetBlockNames s)) }, .ok (get_new_block_name n (targetBlockNames s)), heqF, by simp, hndF, by omega, by omega, Or.inr (by omega)⟩

lemma resolveStep_nodim (ef : Nat) :
    ∀ (snap : List Nat) (s : Importer), NoDim s →
    ∃ s1 r, resolveStep (importBlockFuel (ef + 1)) s snap = (s1, r) ∧
      ¬ (r = Res.fuelOut) ∧
      NoDim s1 ∧
      unmemo s1 ≤ unmemo s ∧
      s1.blockImports + unmemo s1 ≤ s.blockImports + unmemo s ∧
      (s1.imported_inserts = s.imported_inserts ∨ unmemo s1 < unmemo s) := by
  intro snap
  induction snap with
  | nil =>
    intro s hnd
    exact ⟨s, .ok (), rfl, by simp, hnd, Nat.le_refl _, Nat.le_refl _, Or.inl rfl⟩
  | cons id rest ih =>
    intro s hnd
    obtain ⟨s', r', heq', hnf', hnd', hun', hM', hq'⟩ :=
      importBlockFuel_nodim ef s (qname s id) hnd
    cases r' with
    | fuelOut => exact absurd rfl hnf'
    | err m =>
      refine ⟨s', .err m, ?_, by simp, hnd', hun', hM', ?_⟩
      · unfold resolveStep
        rw [heq']
      · rcases hq' with h | h
        · exact Or.inl (by rw [h])
        · exact Or.inr h
    | ok newName =>
      cases hg : dbGet s' id with
      | none =>
        obtain ⟨s2, r2, heq2, hnf2, hnd2, hun2, hM2, hq2⟩ := ih s' hnd'
        refine ⟨s2, r2, ?_, hnf2, hnd2, by omega, by omega, ?_⟩
        · unfold resolveStep
          simp only [heq']
          simp only [hg]
          exact heq2
        · rcases hq' with h | h
          · rcases hq2 with h2 | h2
            · refine Or.inl ?_
              rw [h2, h]
            · refine Or.inr ?_
              have hu := congrArg unmemo h
              omega
          · exact Or.inr (by omega)
      | some eold =>
        have hndS : NoDim (dbSet s' id { eold with name := newName }) := hnd'
        obtain ⟨s2, r2, heq2, hnf2, hnd2, hun2, hM2, hq2⟩ :=
          ih (dbSet s' id { eold with name := newName }) hndS
        have hunS : unmemo (dbSet s' id { eold with name := newName }) = unmemo s' := rfl
        have hbiS : (dbSet s' id { eold with name := newName }).blockImports = s'.blockImports := rfl
        have hqSS : (dbSet s' id { eold with name := newName }).imported_inserts = s'.imported_inserts := rfl
        refine ⟨s2, r2, ?_, hnf2, hnd2, by omega, by omega, ?_⟩
        · unfold resolveStep
          simp only [heq']
          simp only [hg]
          exact heq2
        · rcases hq' with h | h
          · rcases hq2 with h2 | h2
            · refine Or.inl ?_
              rw [h2, hqSS, h]
            · refine Or.inr ?_
              have hu := congrArg unmemo h
              omega
          · exact Or.inr (by omega)

lemma resolveInsertsFuel_empty (ef lf : Nat) (s : Importer)
    (h : s.imported_inserts = []) :
    resolveInsertsFuel ef lf s = (s, .ok ()) := by
  cases lf with
  | zero =>
    unfold resolveInsertsFuel
    rw [if_pos (by simp [h])]
  | succ lf =>
    unfold resolveInsertsFuel
    rw [if_pos (by simp [h])]

lemma resolveInsertsFuel_nodim (ef : Nat) :
    ∀ (lf : Nat) (s : Importer), NoDim s → unmemo s < lf →
    ¬ ((resolveInsertsFuel (ef + 1) lf s).2 = Res.fuelOut) ∧
    (resolveInsertsFuel (ef + 1) lf s).1.blockImports
        + unmemo (resolveInsertsFuel (ef + 1) lf s).1
      ≤ s.blockImports + unmemo s := by
  intro lf
  induction lf with
  | zero =>
    intro s hnd hu
    exact absurd hu (Nat.not_lt_zero _)
  | succ lf ih =>
    intro s hnd hu
    by_cases hq : s.imported_inserts.isEmpty
    · have heq : resolveInsertsFuel (ef + 1) (lf + 1) s = (s, .ok ()) := by
        unfold resolveInsertsFuel
        rw [if_pos hq]
      rw [heq]
      exact ⟨by simp, Nat.le_refl _⟩
    · have hnd0 : NoDim ({ s with imported_inserts := [] }) := hnd
      obtain ⟨s1, r1, heq1, hnf1, hnd1, hun1, hM1, hq1⟩ :=
        resolveStep_nodim ef s.imported_inserts { s with imported_inserts := [] } hnd0
      have hrfl1 : unmemo ({ s with imported_inserts := [] }) = unmemo s := rfl
      have hrfl2 : ({ s with imported_inserts := [] } : Importer).blockImports = s.blockImports := rfl
      cases r1 with
      | fuelOut => exact absurd rfl hnf1
      | err m =>
        have heq : resolveInsertsFuel (ef + 1) (lf + 1) s = (s1, .err m) := by
          unfold resolveInsertsFuel
          rw [if_neg hq]
          simp only [heq1]
        rw [heq]
        refine ⟨by simp, ?_⟩
        show s1.blockImports + unmemo s1 ≤ s.blockImports + unmemo s
        omega
      | ok u =>
        have heq : resolveInsertsFuel (ef + 1) (lf + 1) s
            = resolveInsertsFuel (ef + 1) lf s1 := by
          conv_lhs => unfold resolveInsertsFuel
          rw [if_neg hq]
          simp only [heq1]
        rcases hq1 with hqq | hqq
        · have hempty : s1.imported_inserts = [] := by rw [hqq]
          have heq2 : resolveInsertsFuel (ef + 1) lf s1 = (s1, .ok ()) :=
            resolveInsertsFuel_empty _ lf s1 hempty
          rw [heq, heq2]
          refine ⟨by simp, ?_⟩
          show s1.blockImports + unmemo s1 ≤ s.blockImports + unmemo s
          omega
        · have hlt : unmemo s1 < lf := by omega
          obtain ⟨hA, hB⟩ := ih s1 hnd1 hlt
          rw [heq]
          exact ⟨hA, by omega⟩

/-- Counterexample to C2 as stated: on a source whose single block `A`
contains a DIMENSION entity whose anonymous geometry block is `A` itself,
the resolver re-enters `import_block A` through the DIMENSION handler before
the memo entry for `A` is recorded, so the memo never answers: with block
recursion fuel 4 the embedding runs out of fuel after performing 4 block
imports, and with fuel 9 it performs 9, although only one distinct block
name is reachable from the queued reference; the import count grows with the
fuel instead of being bounded by the number of reachable names, and the
Python loop does not terminate. -/
theorem C2_counterexample_dimension_reentry :
    (resolveInsertsFuel 4 1 cyclicDimState).2 = Res.fuelOut ∧
    (resolveInsertsFuel 4 1 cyclicDimState).1.blockImports = 4 ∧
    (resolveInsertsFuel 9 1 cyclicDimState).2 = Res.fuelOut ∧
    (resolveInsertsFuel 9 1 cyclicDimState).1.blockImports = 9 ∧
    cyclicDimState.sourceBlocks.length = 1 := by
  exact ⟨by decide, by decide, by decide, by decide, by decide⟩

/-! ### C2 revisited: the reachable-names bound of the insert resolver -/

lemma insertNamesOf_cons_other (e : Entity) (rest : List Entity)
    (h : ¬ (e.dxftype = "INSERT")) :
    insertNamesOf (e :: rest) = insertNamesOf rest := by
  unfold insertNamesOf
  rw [List.filter_cons_of_neg (by simp [h])]

lemma insertNamesOf_mem_cons (e : Entity) (rest : List Entity) (n : String)
    (h : n ∈ insertNamesOf rest) : n ∈ insertNamesOf (e :: rest) := by
  by_cases hI : e.dxftype = "INSERT"
  · rw [insertNamesOf_cons_insert e rest hI]
    exact List.mem_cons_of_mem _ h
  · rw [insertNamesOf_cons_other e rest hI]
    exact h

lemma nodup_append_bounded (l1 l2 : List Nat) (b : Nat) (h1 : l1.Nodup)
    (h2 : l2.Nodup) (hb1 : ∀ x ∈ l1, x < b) (hb2 : ∀ x ∈ l2, b ≤ x) :
    (l1 ++ l2).Nodup := by
  rw [List.nodup_append]
  refine ⟨h1, h2, ?_⟩
  intro a ha hb
  have ha2 := hb1 a ha
  have hb3 := hb2 a hb
  omega

lemma dbGet_append_lt (s s1 : Importer) (h' : Nat) (ce : Entity)
    (hdb : s1.entitydb = s.entitydb ++ [(h', ce)]) (k : Nat)
    (hk : ¬ (k = h')) : dbGet s1 k = dbGet s k := by
  unfold dbGet
  rw [hdb, List.find?_append]
  cases hf : s.entitydb.find? (fun p => p.1 = k) with
  | some p => rfl
  | none =>
    rw [List.find?_cons_of_neg _ (by simp; omega)]
    rfl

lemma dbGet_dbSet_ne (X : Importer) (id : Nat) (v : Entity) (k : Nat)
    (h : ¬ (k = id)) : dbGet (dbSet X id v) k = dbGet X k := by
  unfold dbGet
  show ((X.entitydb.map (fun p => if p.1 = id then (p.1, v) else p)).find? (fun p => p.1 = k)).map (·.2) = (X.entitydb.find? (fun p => p.1 = k)).map (·.2)
  rw [find?_map_setAt_ne _ _ _ _ h]

lemma dbKeys_dbSet (X : Importer) (id : Nat) (v : Entity) :
    dbKeys (dbSet X id v) = dbKeys X := by
  unfold dbKeys dbSet
  simp only [List.map_map]
  apply List.map_congr_left
  intro p _
  by_cases h : p.1 = id <;> simp [h]

lemma importEntityCore_other_step (ib : BlockImportF) (afuel : Nat)
    (s : Importer) (e : Entity) (tgt : TargetRef)
    (hw : e.dxftype ∈ IMPORT_ENTITIES) (hc : e.cloneable = true)
    (hI : ¬ (e.dxftype = "INSERT")) (hD : ¬ (e.dxftype = "DIMENSION")) :
    ∃ s1, importEntityCore ib afuel s e tgt = (s1, .ok ()) ∧
      s1.entitydb = s.entitydb ++ [(s.nextHandle, cleanedClone e)] ∧
      s1.nextHandle = s.nextHandle + 1 ∧
      s1.imported_blocks = s.imported_blocks ∧
      s1.sourceBlocks = s.sourceBlocks ∧
      s1.blockImports = s.blockImports ∧
      s1.imported_inserts = s.imported_inserts := by
  obtain ⟨hAdb, hAms, hAtb, hAq⟩ := addUsedResources_frame s e
  obtain ⟨hAnh, hAmemo, hAsrc⟩ := addUsedResources_frame2 s e
  obtain ⟨hTdb, hTnh, hTmemo, hTq, hTsrc⟩ := attachEntity_frame
    (dbAdd (addUsedResources s e) (cleanedClone e)).1 tgt
    (dbAdd (addUsedResources s e) (cleanedClone e)).2
  have heq : importEntityCore ib afuel s e tgt
      = (attachEntity (dbAdd (addUsedResources s e) (cleanedClone e)).1 tgt (dbAdd (addUsedResources s e) (cleanedClone e)).2, .ok ()) := by
    rw [importEntityCore_clone ib afuel s e tgt hw hc]
    unfold importEntityDispatch
    rw [if_neg hI, if_neg hD]
  refine ⟨_, heq, ?_, ?_, ?_, ?_, ?_, ?_⟩
  · rw [hTdb]
    show (addUsedResources s e).entitydb ++ [((addUsedResources s e).nextHandle, cleanedClone e)] = _
    rw [hAdb, hAnh]
  · rw [hTnh]
    show (addUsedResources s e).nextHandle + 1 = _
    rw [hAnh]
  · rw [hTmemo]
    show (addUsedResources s e).imported_blocks = _
    rw [hAmemo]
  · rw [hTsrc]
    show (addUsedResources s e).sourceBlocks = _
    rw [hAsrc]
  · rw [attachEntity_blockImports]
    show (addUsedResources s e).blockImports = _
    exact addUsedResources_blockImports s e
  · rw [hTq]
    show (addUsedResources s e).imported_inserts = _
    rw [hAq]

lemma qname_congr (s s' : Importer) (id : Nat)
    (h : dbGet s' id = dbGet s id) : qname s' id = qname s id := by
  unfold qname
  rw [h]

lemma importEntityCore_track (ib : BlockImportF) (afuel : Nat) (s : Importer)
    (e : Entity) (tgt : TargetRef) (hD : ¬ (e.dxftype = "DIMENSION"))
    (hdb : ∀ k ∈ dbKeys s, k < s.nextHandle) :
    ∃ s1 ids1, importEntityCore ib afuel s e tgt = (s1, .ok ()) ∧
      s1.imported_blocks = s.imported_blocks ∧
      s1.sourceBlocks = s.sourceBlocks ∧
      s1.blockImports = s.blockImports ∧
      s.nextHandle ≤ s1.nextHandle ∧
      (∀ k ∈ dbKeys s1, k < s1.nextHandle) ∧
      (∀ k, k < s.nextHandle → dbGet s1 k = dbGet s k) ∧
      s1.imported_inserts = s.imported_inserts ++ ids1 ∧
      ids1.Nodup ∧
      (∀ id ∈ ids1, s.nextHandle ≤ id ∧ id < s1.nextHandle) ∧
      (∀ id ∈ ids1, qname s1 id = e.name ∧ e.dxftype = "INSERT") := by
  by_cases hw : e.dxftype ∈ IMPORT_ENTITIES
  · by_cases hc : e.cloneable = true
    · by_cases hI : e.dxftype = "INSERT"
      · obtain ⟨s1, heq, hdb1, hnh1, _, hmemo1, hsrc1, hq1, hbi1⟩ :=
          importEntityCore_insert_step ib afuel s e tgt hI hc
        have hdbk1 : ∀ k ∈ dbKeys s1, k < s1.nextHandle := by
          intro k hk
          rw [hnh1]
          have hk2 : k ∈ dbKeys s ++ [s.nextHandle] := by
            unfold dbKeys at hk ⊢
            rw [hdb1] at hk
            simpa using hk
          rcases List.mem_append.1 hk2 with h | h
          · exact Nat.lt_succ_of_lt (hdb k h)
          · rw [List.mem_singleton] at h
            omega
        have hfresh : dbGet s1 s.nextHandle = some (cleanedClone e) :=
          dbGet_append_fresh s s1 s.nextHandle (cleanedClone e) hdb1 hdb
        refine ⟨s1, [s.nextHandle], heq, hmemo1, hsrc1, hbi1, by omega, hdbk1,
          ?_, hq1, by simp, ?_, ?_⟩
        · intro k hk
          exact dbGet_append_lt s s1 s.nextHandle (cleanedClone e) hdb1 k (by omega)
        · intro id hid
          rw [List.mem_singleton] at hid
          subst hid
          omega
        · intro id hid
          rw [List.mem_singleton] at hid
          subst hid
          refine ⟨?_, hI⟩
          rw [qname_of_dbGet s1 _ _ hfresh, cleanedClone_name]
      · obtain ⟨s1, heq, hdb1, hnh1, hmemo1, hsrc1, hbi1, hq1⟩ :=
          importEntityCore_other_step ib afuel s e tgt hw hc hI hD
        have hdbk1 : ∀ k ∈ dbKeys s1, k < s1.nextHandle := by
          intro k hk
          rw [hnh1]
          have hk2 : k ∈ dbKeys s ++ [s.nextHandle] := by
            unfold dbKeys at hk ⊢
            rw [hdb1] at hk
            simpa using hk
          rcases List.mem_append.1 hk2 with h | h
          · exact Nat.lt_succ_of_lt (hdb k h)
          · rw [List.mem_singleton] at h
            omega
        refine ⟨s1, [], heq, hmemo1, hsrc1, hbi1, by omega, hdbk1, ?_, ?_,
          List.nodup_nil, by simp, by simp⟩
        · intro k hk
          exact dbGet_append_lt s s1 s.nextHandle (cleanedClone e) hdb1 k (by omega)
        · rw [List.append_nil]
          exact hq1
    · have hc2 : e.cloneable = false := by
        cases hcb : e.cloneable
        · rfl
        · exact absurd hcb hc
      have h1 : (addUsedResources s e).entitydb = s.entitydb :=
        (addUsedResources_frame s e).1
      have h2 : (addUsedResources s e).nextHandle = s.nextHandle :=
        (addUsedResources_frame2 s e).1
      refine ⟨addUsedResources s e, [],
        importEntityCore_not_cloneable ib afuel s e tgt hw hc2,
        (addUsedResources_frame2 s e).2.1, (addUsedResources_frame2 s e).2.2,
        addUsedResources_blockImports s e, Nat.le_of_eq h2.symm, ?_, ?_, ?_,
        List.nodup_nil, by simp, by simp⟩
      · intro k hk
        have hk2 : k ∈ dbKeys s := by
          unfold dbKeys at hk ⊢
          rw [h1] at hk
          exact hk
        rw [h2]
        exact hdb k hk2
      · intro k hk
        unfold dbGet
        rw [h1]
      · rw [List.append_nil]
        exact (addUsedResources_frame s e).2.2.2
  · refine ⟨s, [], importEntityCore_not_supported ib afuel s e tgt hw, rfl, rfl,
      rfl, Nat.le_refl _, hdb, fun k hk => rfl, (List.append_nil _).symm,
      List.nodup_nil, by simp, by simp⟩

lemma importEntitiesCore_nodim_track (ib : BlockImportF) (afuel : Nat) :
    ∀ (body : List Entity) (s : Importer) (tgt : TargetRef),
    (∀ e ∈ body, ¬ (e.dxftype = "DIMENSION")) →
    (∀ k ∈ dbKeys s, k < s.nextHandle) →
    ∃ s' ids, importEntitiesCore ib afuel s body tgt = (s', .ok ()) ∧
      s'.imported_blocks = s.imported_blocks ∧
      s'.sourceBlocks = s.sourceBlocks ∧
      s'.blockImports = s.blockImports ∧
      s.nextHandle ≤ s'.nextHandle ∧
      (∀ k ∈ dbKeys s', k < s'.nextHandle) ∧
      (∀ k, k < s.nextHandle → dbGet s' k = dbGet s k) ∧
      s'.imported_inserts = s.imported_inserts ++ ids ∧
      ids.Nodup ∧
      (∀ id ∈ ids, s.nextHandle ≤ id ∧ id < s'.nextHandle) ∧
      (∀ id ∈ ids, qname s' id ∈ insertNamesOf body) := by
  intro body
  induction body with
  | nil =>
    intro s tgt hbody hdb
    exact ⟨s, [], rfl, rfl, rfl, rfl, Nat.le_refl _, hdb, fun k hk => rfl,
      (List.append_nil _).symm, List.nodup_nil, by simp, by simp⟩
  | cons e rest ih =>
    intro s tgt hbody hdb
    obtain ⟨s1, ids1, heq1, hm1, hs1, hb1, hnh1, hdbk1, hget1, hq1, hnd1, hbd1, hnm1⟩ :=
      importEntityCore_track ib afuel s e tgt (hbody e (by simp)) hdb
    obtain ⟨s', ids2, heq2, hm2, hs2, hb2, hnh2, hdbk2, hget2, hq2, hnd2, hbd2, hnm2⟩ :=
      ih s1 tgt (fun x hx => hbody x (by simp [hx])) hdbk1
    refine ⟨s', ids1 ++ ids2, ?_, ?_, ?_, ?_, by omega, hdbk2, ?_, ?_, ?_, ?_, ?_⟩
    · show importEntitiesCore ib afuel s (e :: rest) tgt = _
      unfold importEntitiesCore
      rw [heq1]
      exact heq2
    · rw [hm2, hm1]
    · rw [hs2, hs1]
    · rw [hb2, hb1]
    · intro k hk
      rw [hget2 k (by omega), hget1 k hk]
    · rw [hq2, hq1, List.append_assoc]
    · exact nodup_append_bounded ids1 ids2 s1.nextHandle hnd1 hnd2
        (fun x hx => (hbd1 x hx).2) (fun x hx => (hbd2 x hx).1)
    · intro id hid
      rcases List.mem_append.1 hid with h | h
      · have := hbd1 id h
        have := hbd2
        constructor
        · omega
        · have hlt := (hbd1 id h).2
          omega
      · have := hbd2 id h
        constructor
        · omega
        · omega
    · intro id hid
      rcases List.mem_append.1 hid with h | h
      · obtain ⟨hqn, hIe⟩ := hnm1 id h
        have hst : dbGet s' id = dbGet s1 id := hget2 id (hbd1 id h).2
        rw [qname_congr s1 s' id hst, hqn, insertNamesOf_cons_insert e rest hIe]
        exact List.mem_cons_self _ _
      · exact insertNamesOf_mem_cons e rest _ (hnm2 id h)

lemma importBlockFuel_reach (ef : Nat) (SRC : List (String × List Entity))
    (init : List String) (s : Importer) (n : String)
    (hnd : NoDim s) (hsrceq : s.sourceBlocks = SRC)
    (hdb : ∀ k ∈ dbKeys s, k < s.nextHandle)
    (hR : Reach SRC init n) :
    ∃ s' r added ids, importBlockFuel (ef + 1) s n true = (s', r) ∧
      ¬ (r = Res.fuelOut) ∧
      NoDim s' ∧
      s'.sourceBlocks = SRC ∧
      s.nextHandle ≤ s'.nextHandle ∧
      (∀ k ∈ dbKeys s', k < s'.nextHandle) ∧
      (∀ k, k < s.nextHandle → dbGet s' k = dbGet s k) ∧
      memoKeys s' = memoKeys s ++ added ∧
      added.Nodup ∧
      (∀ m ∈ added, m ∉ memoKeys s ∧ Reach SRC init m) ∧
      s'.blockImports = s.blockImports + added.length ∧
      unmemo s' ≤ unmemo s ∧
      s'.imported_inserts = s.imported_inserts ++ ids ∧
      ids.Nodup ∧
      (∀ id ∈ ids, s.nextHandle ≤ id ∧ id < s'.nextHandle ∧
        Reach SRC init (qname s' id)) ∧
      (added = [] → s' = s ∧ ids = []) ∧
      (¬ (added = []) → unmemo s' < unmemo s) := by
  rw [importBlockFuel_succ]
  cases hm : memoLookup s n with
  | some r =>
    exact ⟨s, .ok r, [], [], importBlockCore_memo_hit _ ef s n true r hm,
      by simp, hnd, hsrceq, Nat.le_refl _, hdb, fun k hk => rfl, by simp,
      List.nodup_nil, by simp, by simp, Nat.le_refl _, by simp,
      List.nodup_nil, by simp, fun h => ⟨rfl, rfl⟩, fun h => absurd rfl h⟩
  | none =>
    cases hf : s.sourceBlocks.find? (fun p => p.1 = n) with
    | none =>
      exact ⟨s, .err "ValueError", [], [],
        importBlockCore_not_found _ ef s n true hm hf, by simp, hnd, hsrceq,
        Nat.le_refl _, hdb, fun k hk => rfl, by simp, List.nodup_nil, by simp,
        by simp, Nat.le_refl _, by simp, List.nodup_nil, by simp,
        fun h => ⟨rfl, rfl⟩, fun h => absurd rfl h⟩
    | some pr =>
      have hpn : pr.1 = n := by
        have hps := List.find?_some hf
        simpa using hps
      have hfind2 : SRC.find? (fun q => q.1 = n) = some pr := by
        rw [← hsrceq]
        exact hf
      have hmemN : n ∈ sourceBlockNames s :=
        List.mem_map.2 ⟨pr, List.mem_of_find?_eq_some hf, hpn⟩
      have hkey : n ∉ memoKeys s := not_mem_memoKeys_of_lookup_none s n hm
      obtain ⟨s2, ids, heqB, hm2, hs2, hb2, hnh2, hdbk2, hget2, hq2, hndids, hbd2, hnm2⟩ :=
        importEntitiesCore_nodim_track (importBlockFuel ef) ef pr.2
          { s with targetBlocks := s.targetBlocks ++ [((get_new_block_name n (targetBlockNames s)), [])], blockImports := s.blockImports + 1 }
          (.block (get_new_block_name n (targetBlockNames s)))
          (fun e he => hnd pr (List.mem_of_find?_eq_some hf) e he)
          (fun k hk => hdb k hk)
      have hstep := importBlockCore_import (importBlockFuel ef) ef s n pr true
        (get_new_block_name n (targetBlockNames s)) hm hf (by simp) rfl
      simp only [heqB] at hstep
      have hm2s : s2.imported_blocks = s.imported_blocks := by rw [hm2]
      have hs2s : s2.sourceBlocks = s.sourceBlocks := by rw [hs2]
      have hb2s : s2.blockImports = s.blockImports + 1 := by rw [hb2]
      have hnh2s : s.nextHandle ≤ s2.nextHandle := hnh2
      have hdbk2s : ∀ k ∈ dbKeys s2, k < s2.nextHandle := hdbk2
      rw [hm2s] at hstep
      have hun : unmemo ({ s2 with imported_blocks := memoInsert s.imported_blocks n (get_new_block_name n (targetBlockNames s)) }) + 1 = unmemo s := by
        have hcg : unmemo ({ s2 with imported_blocks := memoInsert s.imported_blocks n (get_new_block_name n (targetBlockNames s)) })
            = unmemo ({ s with imported_blocks := memoInsert s.imported_blocks n (get_new_block_name n (targetBlockNames s)) }) :=
          unmemo_congr _ _ (by show s2.sourceBlocks = s.sourceBlocks; exact hs2s) rfl
        rw [hcg]
        exact unmemo_insert_new s n (get_new_block_name n (targetBlockNames s)) hmemN hkey
      have hkeysF : memoKeys ({ s2 with imported_blocks := memoInsert s.imported_blocks n (get_new_block_name n (targetBlockNames s)) }) = memoKeys s ++ [n] := by
        show (memoInsert s.imported_blocks n (get_new_block_name n (targetBlockNames s))).map (·.1) = s.imported_blocks.map (·.1) ++ [n]
        exact memoInsert_keys_of_not_mem _ _ _ hkey
      have hbiF : ({ s2 with imported_blocks := memoInsert s.imported_blocks n (get_new_block_name n (targetBlockNames s)) } : Importer).blockImports = s.blockImports + 1 := by
        show s2.blockImports = s.blockImports + 1
        exact hb2s
      have hndF : NoDim ({ s2 with imported_blocks := memoInsert s.imported_blocks n (get_new_block_name n (targetBlockNames s)) }) := by
        intro p hp e he
        have hp2 : p ∈ s2.sourceBlocks := hp
        rw [hs2s] at hp2
        exact hnd p hp2 e he
      refine ⟨{ s2 with imported_blocks := memoInsert s.imported_blocks n (get_new_block_name n (targetBlockNames s)) }, .ok (get_new_block_name n (targetBlockNames s)), [n], ids, hstep, by simp, hndF, ?_, ?_, ?_, ?_, hkeysF, by simp, ?_, ?_, by omega, ?_, ?_, ?_, ?_, ?_⟩
      · show s2.sourceBlocks = SRC
        rw [hs2s, hsrceq]
      · show s.nextHandle ≤ s2.nextHandle
        exact hnh2s
      · intro k hk
        show k < s2.nextHandle
        exact hdbk2s k hk
      · intro k hk
        show dbGet s2 k = dbGet s k
        exact hget2 k hk
      · intro m hm2m
        rw [List.mem_singleton] at hm2m
        subst hm2m
        exact ⟨hkey, hR⟩
      · show s2.blockImports = s.blockImports + [n].length
        rw [hb2s]
        rfl
      · show s2.imported_inserts = s.imported_inserts ++ ids
        rw [hq2]
      · exact hndids
      · intro id hid
        obtain ⟨hge, hlt⟩ := hbd2 id hid
        refine ⟨hge, hlt, ?_⟩
        have hname : qname s2 id ∈ insertNamesOf pr.2 := hnm2 id hid
        show Reach SRC init (qname s2 id)
        exact Reach.step hR hfind2 hname
      · intro h
        exact absurd h (by simp)
      · intro h
        omega

lemma resolveStep_reach (ef : Nat) (SRC : List (String × List Entity))
    (init : List String) :
    ∀ (snap : List Nat) (s : Importer),
    NoDim s → s.sourceBlocks = SRC →
    (∀ k ∈ dbKeys s, k < s.nextHandle) →
    snap.Nodup →
    (∀ id ∈ snap, id < s.nextHandle ∧ Reach SRC init (qname s id) ∧
      id ∉ s.imported_inserts) →
    (∀ id ∈ s.imported_inserts, id < s.nextHandle ∧
      Reach SRC init (qname s id)) →
    s.imported_inserts.Nodup →
    ∃ s1 r added, resolveStep (importBlockFuel (ef + 1)) s snap = (s1, r) ∧
      ¬ (r = Res.fuelOut) ∧
      NoDim s1 ∧
      s1.sourceBlocks = SRC ∧
      s.nextHandle ≤ s1.nextHandle ∧
      (∀ k ∈ dbKeys s1, k < s1.nextHandle) ∧
      memoKeys s1 = memoKeys s ++ added ∧
      added.Nodup ∧
      (∀ m ∈ added, m ∉ memoKeys s ∧ Reach SRC init m) ∧
      s1.blockImports = s.blockImports + added.length ∧
      unmemo s1 ≤ unmemo s ∧
      (∀ id ∈ s1.imported_inserts, id < s1.nextHandle ∧
        Reach SRC init (qname s1 id)) ∧
      s1.imported_inserts.Nodup ∧
      (s1.imported_inserts = s.imported_inserts ∨ unmemo s1 < unmemo s) := by
  intro snap
  induction snap with
  | nil =>
    intro s hnd hsrceq hdb hsnd hsnap hlive hlnd
    exact ⟨s, .ok (), [], rfl, by simp, hnd, hsrceq, Nat.le_refl _, hdb,
      by simp, List.nodup_nil, by simp, by simp, Nat.le_refl _, hlive, hlnd,
      Or.inl rfl⟩
  | cons id rest ih =>
    intro s hnd hsrceq hdb hsnd hsnap hlive hlnd
    obtain ⟨hid_lt, hid_R, hid_nl⟩ := hsnap id (by simp)
    obtain ⟨s', r', added1, ids1, heq', hnf', hnd', hsrc', hnh', hdbk', hget', hkeys', hnda1, hpa1, hbi', hun', hq', hndi1, hidp1, hemp', hdec'⟩ :=
      importBlockFuel_reach ef SRC init s (qname s id) hnd hsrceq hdb hid_R
    have hql : ∀ id2, id2 < s.nextHandle → qname s' id2 = qname s id2 := by
      intro id2 h
      exact qname_congr s s' id2 (hget' id2 h)
    have hliveNew : ∀ id2 ∈ s'.imported_inserts, id2 < s'.nextHandle ∧
        Reach SRC init (qname s' id2) := by
      intro id2 h2
      have h3 : id2 ∈ s.imported_inserts ++ ids1 := by rw [← hq']; exact h2
      rcases List.mem_append.1 h3 with h | h
      · obtain ⟨h4, h5⟩ := hlive id2 h
        refine ⟨by omega, ?_⟩
        rw [hql id2 h4]
        exact h5
      · obtain ⟨h4, h5, h6⟩ := hidp1 id2 h
        exact ⟨h5, h6⟩
    have hliveNd : s'.imported_inserts.Nodup := by
      rw [hq']
      exact nodup_append_bounded _ _ s.nextHandle hlnd hndi1
        (fun x hx => (hlive x hx).1) (fun x hx => (hidp1 x hx).1)
    cases r' with
    | fuelOut => exact absurd rfl hnf'
    | err m =>
      refine ⟨s', .err m, added1, ?_, by simp, hnd', hsrc', hnh', hdbk',
        hkeys', hnda1, hpa1, hbi', hun', hliveNew, hliveNd, ?_⟩
      · unfold resolveStep
        rw [heq']
      · by_cases hadd : added1 = []
        · refine Or.inl ?_
          rw [hq', (hemp' hadd).2, List.append_nil]
        · exact Or.inr (hdec' hadd)
    | ok newName =>
      cases hg : dbGet s' id with
      | none =>
        have hrest : ∀ id2 ∈ rest, id2 < s'.nextHandle ∧
            Reach SRC init (qname s' id2) ∧ id2 ∉ s'.imported_inserts := by
          intro id2 h2
          obtain ⟨h3, h4, h5⟩ := hsnap id2 (List.mem_cons_of_mem _ h2)
          refine ⟨by omega, ?_, ?_⟩
          · rw [hql id2 h3]
            exact h4
          · intro hmem
            have h6 : id2 ∈ s.imported_inserts ++ ids1 := by
              rw [← hq']
              exact hmem
            rcases List.mem_append.1 h6 with h | h
            · exact h5 h
            · have := (hidp1 id2 h).1
              omega
        obtain ⟨s1, r2, added2, heq2, hnf2, hnd2, hsrc2, hnh2, hdbk2, hkeys2, hnda2, hpa2, hbi2, hun2, hlive2, hlnd2, hdj2⟩ :=
          ih s' hnd' hsrc' hdbk' (List.nodup_cons.1 hsnd).2 hrest hliveNew hliveNd
        refine ⟨s1, r2, added1 ++ added2, ?_, hnf2, hnd2, hsrc2, by omega,
          hdbk2, ?_, ?_, ?_, ?_, by omega, hlive2, hlnd2, ?_⟩
        · unfold resolveStep
          simp only [heq']
          simp only [hg]
          exact heq2
        · rw [hkeys2, hkeys', List.append_assoc]
        · rw [List.nodup_append]
          refine ⟨hnda1, hnda2, ?_⟩
          intro a ha hb
          have h1 : a ∈ memoKeys s' := by
            rw [hkeys']
            exact List.mem_append_right _ ha
          exact (hpa2 a hb).1 h1
        · intro m hm
          rcases List.mem_append.1 hm with h | h
          · exact hpa1 m h
          · refine ⟨?_, (hpa2 m h).2⟩
            intro hmm
            exact (hpa2 m h).1 (by rw [hkeys']; exact List.mem_append_left _ hmm)
        · rw [hbi2, hbi', List.length_append]
          omega
        · by_cases hadd : added1 = []
          · rcases hdj2 with h | h
            · refine Or.inl ?_
              rw [h, hq', (hemp' hadd).2, List.append_nil]
            · refine Or.inr ?_
              have hse := (hemp' hadd).1
              have hue := congrArg unmemo hse
              omega
          · exact Or.inr (by have := hdec' hadd; omega)
      | some eold =>
        have hBsrc : (dbSet s' id { eold with name := newName }).sourceBlocks = SRC := hsrc'
        have hBnd : NoDim (dbSet s' id { eold with name := newName }) := hnd'
        have hBkeys : memoKeys (dbSet s' id { eold with name := newName }) = memoKeys s' := rfl
        have hBun : unmemo (dbSet s' id { eold with name := newName }) = unmemo s' := rfl
        have hBbi : (dbSet s' id { eold with name := newName }).blockImports = s'.blockImports := rfl
        have hBq : (dbSet s' id { eold with name := newName }).imported_inserts = s'.imported_inserts := rfl
        have hBnh : (dbSet s' id { eold with name := newName }).nextHandle = s'.nextHandle := rfl
        have hBdbk : ∀ k ∈ dbKeys (dbSet s' id { eold with name := newName }), k < (dbSet s' id { eold with name := newName }).nextHandle := by
          intro k hk
          rw [dbKeys_dbSet] at hk
          rw [hBnh]
          exact hdbk' k hk
        have hBqn : ∀ id2, ¬ (id2 = id) →
            qname (dbSet s' id { eold with name := newName }) id2 = qname s' id2 := by
          intro id2 h2
          exact qname_congr s' _ id2 (dbGet_dbSet_ne s' id _ id2 h2)
        have hBlive : ∀ id2 ∈ (dbSet s' id { eold with name := newName }).imported_inserts,
            id2 < (dbSet s' id { eold with name := newName }).nextHandle ∧
            Reach SRC init (qname (dbSet s' id { eold with name := newName }) id2) := by
          intro id2 h2
          have h3 : id2 ∈ s'.imported_inserts := h2
          obtain ⟨h4, h5⟩ := hliveNew id2 h3
          refine ⟨by rw [hBnh]; omega, ?_⟩
          have hne : ¬ (id2 = id) := by
            intro he
            subst he
            have h6 : id2 ∈ s.imported_inserts ++ ids1 := by rw [← hq']; exact h3
            rcases List.mem_append.1 h6 with h | h
            · exact hid_nl h
            · have := (hidp1 id2 h).1
              omega
          rw [hBqn id2 hne]
          exact h5
        have hBlnd : (dbSet s' id { eold with name := newName }).imported_inserts.Nodup := hliveNd
        have hrest : ∀ id2 ∈ rest, id2 < (dbSet s' id { eold with name := newName }).nextHandle ∧
            Reach SRC init (qname (dbSet s' id { eold with name := newName }) id2) ∧
            id2 ∉ (dbSet s' id { eold with name := newName }).imported_inserts := by
          intro id2 h2
          obtain ⟨h3, h4, h5⟩ := hsnap id2 (List.mem_cons_of_mem _ h2)
          have hne : ¬ (id2 = id) := by
            intro he
            subst he
            exact (List.nodup_cons.1 hsnd).1 h2
          refine ⟨by rw [hBnh]; omega, ?_, ?_⟩
          · rw [hBqn id2 hne, hql id2 h3]
            exact h4
          · intro hmem
            have h6 : id2 ∈ s.imported_inserts ++ ids1 := by
              rw [← hq']
              exact hmem
            rcases List.mem_append.1 h6 with h | h
            · exact h5 h
            · have := (hidp1 id2 h).1
              omega
        obtain ⟨s1, r2, added2, heq2, hnf2, hnd2, hsrc2, hnh2, hdbk2, hkeys2, hnda2, hpa2, hbi2, hun2, hlive2, hlnd2, hdj2⟩ :=
          ih (dbSet s' id { eold with name := newName }) hBnd hBsrc hBdbk
            (List.nodup_cons.1 hsnd).2 hrest hBlive hBlnd
        refine ⟨s1, r2, added1 ++ added2, ?_, hnf2, hnd2, hsrc2, ?_,
          hdbk2, ?_, ?_, ?_, ?_, ?_, hlive2, hlnd2, ?_⟩
        · unfold resolveStep
          simp only [heq']
          simp only [hg]
          exact heq2
        · rw [hBnh] at hnh2
          omega
        · rw [hkeys2, hBkeys, hkeys', List.append_assoc]
        · rw [List.nodup_append]
          refine ⟨hnda1, hnda2, ?_⟩
          intro a ha hb
          have h1 : a ∈ memoKeys (dbSet s' id { eold with name := newName }) := by
            rw [hBkeys, hkeys']
            exact List.mem_append_right _ ha
          exact (hpa2 a hb).1 h1
        · intro m hm
          rcases List.mem_append.1 hm with h | h
          · exact hpa1 m h
          · refine ⟨?_, (hpa2 m h).2⟩
            intro hmm
            exact (hpa2 m h).1 (by rw [hBkeys, hkeys']; exact List.mem_append_left _ hmm)
        · rw [hbi2, hBbi, hbi', List.length_append]
          omega
        · rw [hBun] at hun2
          omega
        · by_cases hadd : added1 = []
          · rcases hdj2 with h | h
            · refine Or.inl ?_
              rw [h, hBq, hq', (hemp' hadd).2, List.append_nil]
            · refine Or.inr ?_
              have hse := (hemp' hadd).1
              have hue := congrArg unmemo hse
              rw [hBun] at h
              omega
          · refine Or.inr ?_
            have h1 := hdec' hadd
            rw [hBun] at hun2
            omega

lemma resolveInsertsFuel_reach (ef : Nat) (SRC : List (String × List Entity))
    (init : List String) :
    ∀ (lf : Nat) (s : Importer),
    NoDim s → s.sourceBlocks = SRC →
    (∀ k ∈ dbKeys s, k < s.nextHandle) →
    (∀ id ∈ s.imported_inserts, id < s.nextHandle ∧
      Reach SRC init (qname s id)) →
    s.imported_inserts.Nodup →
    unmemo s < lf →
    ∃ added,
      ¬ ((resolveInsertsFuel (ef + 1) lf s).2 = Res.fuelOut) ∧
      memoKeys (resolveInsertsFuel (ef + 1) lf s).1 = memoKeys s ++ added ∧
      added.Nodup ∧
      (∀ m ∈ added, m ∉ memoKeys s ∧ Reach SRC init m) ∧
      (resolveInsertsFuel (ef + 1) lf s).1.blockImports
        = s.blockImports + added.length := by
  intro lf
  induction lf with
  | zero =>
    intro s _ _ _ _ _ hu
    exact absurd hu (Nat.not_lt_zero _)
  | succ lf ih =>
    intro s hnd hsrceq hdb hlive hlnd hu
    by_cases hq : s.imported_inserts.isEmpty
    · have heq : resolveInsertsFuel (ef + 1) (lf + 1) s = (s, .ok ()) := by
        unfold resolveInsertsFuel
        rw [if_pos hq]
      rw [heq]
      exact ⟨[], by simp, by simp, List.nodup_nil, by simp, by simp⟩
    · have hnd0 : NoDim ({ s with imported_inserts := [] }) := hnd
      have hsrc0 : ({ s with imported_inserts := [] } : Importer).sourceBlocks = SRC := hsrceq
      have hdb0 : ∀ k ∈ dbKeys ({ s with imported_inserts := [] }), k < ({ s with imported_inserts := [] } : Importer).nextHandle := hdb
      have hsnap0 : ∀ id ∈ s.imported_inserts,
          id < ({ s with imported_inserts := [] } : Importer).nextHandle ∧
          Reach SRC init (qname ({ s with imported_inserts := [] }) id) ∧
          id ∉ ({ s with imported_inserts := [] } : Importer).imported_inserts := by
        intro id hid
        obtain ⟨h1, h2⟩ := hlive id hid
        exact ⟨h1, h2, List.not_mem_nil id⟩
      have hlive0 : ∀ id ∈ ({ s with imported_inserts := [] } : Importer).imported_inserts,
          id < ({ s with imported_inserts := [] } : Importer).nextHandle ∧
          Reach SRC init (qname ({ s with imported_inserts := [] }) id) := by
        intro id hid
        exact absurd hid (List.not_mem_nil id)
      obtain ⟨s1, r1, added1, heq1, hnf1, hnd1, hsrc1, hnh1, hdbk1, hkeys1, hnda1, hpa1, hbi1, hun1, hlive1, hlnd1, hdj1⟩ :=
        resolveStep_reach ef SRC init s.imported_inserts
          { s with imported_inserts := [] }
          hnd0 hsrc0 hdb0 hlnd hsnap0 hlive0 List.nodup_nil
      have hrfl1 : memoKeys ({ s with imported_inserts := [] }) = memoKeys s := rfl
      have hrfl2 : unmemo ({ s with imported_inserts := [] }) = unmemo s := rfl
      have hrfl3 : ({ s with imported_inserts := [] } : Importer).blockImports = s.blockImports := rfl
      cases r1 with
      | fuelOut => exact absurd rfl hnf1
      | err m =>
        have heq : resolveInsertsFuel (ef + 1) (lf + 1) s = (s1, .err m) := by
          unfold resolveInsertsFuel
          rw [if_neg hq]
          simp only [heq1]
        rw [heq]
        refine ⟨added1, by simp, ?_, hnda1, ?_, ?_⟩
        · show memoKeys s1 = memoKeys s ++ added1
          rw [hkeys1, hrfl1]
        · intro m2 hm2
          obtain ⟨h1, h2⟩ := hpa1 m2 hm2
          rw [hrfl1] at h1
          exact ⟨h1, h2⟩
        · show s1.blockImports = s.blockImports + added1.length
          rw [hbi1, hrfl3]
      | ok u =>
        have heq : resolveInsertsFuel (ef + 1) (lf + 1) s
            = resolveInsertsFuel (ef + 1) lf s1 := by
          conv_lhs => unfold resolveInsertsFuel
          rw [if_neg hq]
          simp only [heq1]
        rcases hdj1 with hqq | hqq
        · have hempty : s1.imported_inserts = [] := by rw [hqq]
          have heq2 : resolveInsertsFuel (ef + 1) lf s1 = (s1, .ok ()) :=
            resolveInsertsFuel_empty _ lf s1 hempty
          rw [heq, heq2]
          refine ⟨added1, by simp, ?_, hnda1, ?_, ?_⟩
          · show memoKeys s1 = memoKeys s ++ added1
            rw [hkeys1, hrfl1]
          · intro m2 hm2
            obtain ⟨h1, h2⟩ := hpa1 m2 hm2
            rw [hrfl1] at h1
            exact ⟨h1, h2⟩
          · show s1.blockImports = s.blockImports + added1.length
            rw [hbi1, hrfl3]
        · have hlt : unmemo s1 < lf := by
            rw [hrfl2] at hun1
            rw [hrfl2] at hqq
            omega
          obtain ⟨added2, hA, hK2, hN2, hP2, hB2⟩ :=
            ih s1 hnd1 hsrc1 hdbk1 hlive1 hlnd1 hlt
          rw [heq]
          refine ⟨added1 ++ added2, hA, ?_, ?_, ?_, ?_⟩
          · rw [hK2]
            show memoKeys s1 ++ added2 = memoKeys s ++ (added1 ++ added2)
            rw [hkeys1, hrfl1, List.append_assoc]
          · rw [List.nodup_append]
            refine ⟨hnda1, hN2, ?_⟩
            intro a ha hb
            have h1 : a ∈ memoKeys s1 := by
              rw [hkeys1, hrfl1]
              exact List.mem_append_right _ ha
            exact (hP2 a hb).1 h1
          · intro m2 hm2
            rcases List.mem_append.1 hm2 with h | h
            · obtain ⟨h1, h2⟩ := hpa1 m2 h
              rw [hrfl1] at h1
              exact ⟨h1, h2⟩
            · refine ⟨?_, (hP2 m2 h).2⟩
              intro hmm
              exact (hP2 m2 h).1
                (by rw [hkeys1, hrfl1]; exact List.mem_append_left _ hmm)
          · rw [hB2, hbi1, hrfl3, List.length_append]
            omega

lemma reach_finite (SRC : List (String × List Entity)) (init : List String) :
    { n | Reach SRC init n }.Finite := by
  apply Set.Finite.subset
    (List.finite_toSet (init ++ SRC.flatMap (fun p => insertNamesOf p.2)))
  intro n hn
  simp only [Set.mem_setOf_eq] at hn
  induction hn with
  | base h =>
    show _ ∈ { x | x ∈ init ++ SRC.flatMap (fun p => insertNamesOf p.2) }
    exact List.mem_append.2 (Or.inl h)
  | step hr hfind hmem ih =>
    show _ ∈ { x | x ∈ init ++ SRC.flatMap (fun p => insertNamesOf p.2) }
    refine List.mem_append.2 (Or.inr ?_)
    exact List.mem_flatMap.2 ⟨_, List.mem_of_find?_eq_some hfind, hmem⟩

lemma nodup_reach_length_le (SRC : List (String × List Entity))
    (init : List String) (added : List String) (hnd : added.Nodup)
    (hP : ∀ m ∈ added, Reach SRC init m) :
    added.length ≤ Set.ncard { n | Reach SRC init n } := by
  calc added.length = added.toFinset.card := (List.toFinset_card_of_nodup hnd).symm
    _ = Set.ncard (↑added.toFinset : Set String) := (Set.ncard_coe_Finset _).symm
    _ ≤ Set.ncard { n | Reach SRC init n } := by
        apply Set.ncard_le_ncard ?_ (reach_finite SRC init)
        intro x hx
        have hx2 : x ∈ added := by
          rwa [Finset.mem_coe, List.mem_toFinset] at hx
        exact hP x hx2

/-- C2 (amended): provided no source block body contains a DIMENSION entity,
the insert-resolver loop run by `finalize` (snapshot the pending queue, clear
the live queue, resolve and rewrite each snapshotted block reference, repeat)
terminates on every input whose pending block references are distinct
database entities registered below the handle counter, and the total number
of block imports it performs is bounded by the number of distinct block
names reachable from the initially queued references: the memo makes each
distinct block name imported at most once. -/
theorem C2_resolver_terminates_with_memo_bound (s : Importer) (ef lf : Nat)
    (hnd : NoDim s)
    (hdb : ∀ k ∈ dbKeys s, k < s.nextHandle)
    (hqlt : ∀ id ∈ s.imported_inserts, id < s.nextHandle)
    (hqnd : s.imported_inserts.Nodup)
    (hlf : unmemo s < lf) :
    ¬ ((resolveInsertsFuel (ef + 1) lf s).2 = Res.fuelOut) ∧
    (resolveInsertsFuel (ef + 1) lf s).1.blockImports
      ≤ s.blockImports
        + Set.ncard { n | Reach s.sourceBlocks (queueNames s) n } := by
  obtain ⟨added, hA, hK, hN, hP, hB⟩ :=
    resolveInsertsFuel_reach ef s.sourceBlocks (queueNames s) lf s hnd rfl hdb
      (fun id hid => ⟨hqlt id hid,
        Reach.base (List.mem_map_of_mem (qname s) hid)⟩)
      hqnd hlf
  refine ⟨hA, ?_⟩
  rw [hB]
  have hle := nodup_reach_length_le s.sourceBlocks (queueNames s) added hN
    (fun m hm => (hP m hm).2)
  omega

/-- Witness for the amended C2 at a DIMENSION-free two-block session with
one pending block reference. -/
theorem C2_resolver_terminates_with_memo_bound_witness :
    ¬ ((resolveInsertsFuel 1 3 resolveDemoState).2 = Res.fuelOut) ∧
    (resolveInsertsFuel 1 3 resolveDemoState).1.blockImports
      ≤ resolveDemoState.blockImports
        + Set.ncard { n | Reach resolveDemoState.sourceBlocks
            (queueNames resolveDemoState) n } :=
  C2_resolver_terminates_with_memo_bound resolveDemoState 0 3
    (by unfold NoDim; decide) (by decide) (by decide) (by decide) (by decide)

end Ezdxf
